import Mathlib

/-!
The folder and file server engine of tor-drop.

A shallow embedding of `server.go`, the single-writer engine of the file-drop
service: the registry of folders, items and uploads, the admission of uploads
and downloads, the handling of upload events, the sweeps, and what the
snapshot file keeps of a string; and of the two pieces of `app.go` that decide
on the access to a folder (`hasAuthFolder`) and on the name of an uploaded
file.

Conventions of the embedding

* Go `uint64` values are `Nat`; where the source adds or subtracts them the
  model reduces modulo `2 ^ 64` explicitly (`u64add`, `u64sub`).
* Go `int` values are `Int`; `time.Time` is an `Int` (an instant in
  nanoseconds), `time.Duration` is an `Int` (nanoseconds).
* A Go pointer field (`*uint64`, `*int`, `*string`, ...) is an `Option`.
* A Go `map[string]T` is an association list `List (String × T)` read with
  `mapGet`, written with `mapSet` and `mapDelete`; a nil map is the empty list
  except for `folder.Users`, where nil and empty are told apart by `Option`.
* The closures sent on `ops` run one at a time on the serializer; each is a
  function from the server state to a reply and the next server state.
* Errors built with `fmt.Errorf` are constructors of `Err` that carry the
  values formatted into the message.
* Outcomes of the file system (`os.Open`, `os.Rename`, `save`) are Boolean
  inputs of the operation that calls them; what the operation asks of the
  outside world is returned as a list of `Effect`.
* The name of an uploaded file is a list of bytes (`List Nat`), since the
  handler measures and cuts it in bytes, and so is a string on its way through
  the snapshot file; all other names are `String`.
* `time.Time.Sub` is `timeSub`, the difference of the instants limited to the
  range of a `time.Duration`.
-/

namespace TorDrop

/-! ## Machine arithmetic -/

/-- The modulus of `uint64`. -/
def u64 : Nat := 2 ^ 64

/-- Addition of two `uint64` values as Go computes it. -/
def u64add (a b : Nat) : Nat := (a + b) % u64

/-- Subtraction of two `uint64` values as Go computes it (wraps below zero). -/
def u64sub (a b : Nat) : Nat := (a % u64 + (u64 - b % u64)) % u64

/-! ## Go maps as association lists -/

/-- Read of `m[k]` with the comma-ok form: the first binding of `k`. -/
def mapGet {α : Type} : List (String × α) → String → Option α
  | [], _ => none
  | (k', v) :: m, k => if k' = k then some v else mapGet m k

/-- Assignment `m[k] = v`: replaces the binding of `k` or adds one. -/
def mapSet {α : Type} : List (String × α) → String → α → List (String × α)
  | [], k, v => [(k, v)]
  | (k', v') :: m, k, v => if k' = k then (k, v) :: m else (k', v') :: mapSet m k v

/-- Builtin `delete(m, k)`. -/
def mapDelete {α : Type} (m : List (String × α)) (k : String) : List (String × α) :=
  m.filter (fun kv => decide (kv.1 ≠ k))

/-! ## Data model (`server.go` lines 102-146) -/

/-- The `folder` struct. -/
structure folder where
  Name : String
  CreateDate : Int
  MaxFileSize : Option Nat
  MaxFileCount : Option Nat
  MaxTotalSize : Option Nat
  MaxLifeTime : Option Int
  MaxUpBytesPerSec : Option Nat
  MaxDlBytesPerSec : Option Nat
  MaxActiveUploads : Option Int
  MaxActiveDownloads : Option Int
  CaptchaForAnonymous : Bool
  CaptchaForLoggedUsers : Bool
  IsPrivate : Bool
  IsAdminOnlyReadable : Bool
  Password : Option String
  Users : Option (List (String × List String))
deriving DecidableEq, Repr

/-- The `fileItem` struct. -/
structure fileItem where
  Name : String
  Path : String
  CreateDate : Int
  Size : Nat
  Uploaded : Nat
deriving DecidableEq, Repr

/-- Method `fileItem.IsComplete`. -/
def fileItem.IsComplete (f : fileItem) : Bool := decide (f.Uploaded ≥ f.Size)

/-- The `fileUpload` struct. The `Completed` channel is not a field of the
model: what is sent on it is an `Effect.completed` of the handling step. -/
structure fileUpload where
  TmpFile : String
  Folder : String
  File : fileItem
  LastActive : Int
  Error : Option String
deriving DecidableEq, Repr

abbrev fileItems := List fileItem
abbrev fileUploads := List fileUpload
abbrev folders := List folder

/-- The `torDropDB` struct. -/
structure torDropDB where
  Uploads : fileUploads
  Folders : folders
  Items : List (String × fileItems)
deriving DecidableEq, Repr

/-- The mutable part of `torDropFileServer`: the registry, the `n` of each
folder manager of the two limiter registries, and the active-download
counters. -/
structure torDropFileServer where
  db : torDropDB
  folderUploadManagers : List (String × Int)
  folderDownloadManagers : List (String × Int)
  activeDownloads : List (String × Int)
deriving DecidableEq, Repr

/-- State built by `newFileServer`, with the maps `Listen` allocates. -/
def newFileServer : torDropFileServer :=
  { db := { Uploads := [], Folders := [], Items := [] },
    folderUploadManagers := [], folderDownloadManagers := [], activeDownloads := [] }

/-- The errors of the engine, one constructor per `fmt.Errorf` site; `io` is
an error of the file system and `nilDereference` the run-time panic of a
field read through a nil pointer. -/
inductive Err where
  | folderNameEmpty
  | fileNameEmpty
  | userNameEmpty
  | itemNameEmpty
  | contentLengthZero
  | folderDoesNotExist (name : String)
  | folderNotFound (name : String)
  | folderExists (name : String)
  | folderGone (name : String)
  | fileNotFound (name folderName : String)
  | maxActiveDownloadsExceeded
  | maxActiveUploadsExceeded
  | alreadyExistsOrUploading (name : String)
  | alreadyExists (name : String)
  | alreadyBeingUploaded (name : String)
  | tooLarge (cap : Nat)
  | cannotAcceptMoreFiles
  | totalExceeded (demands available : Nat)
  | cancelledTooSlow
  | source (msg : String)
  | io
  | nilDereference
deriving DecidableEq, Repr

/-- What a step of the serializer asks of the outside world. -/
inductive Effect where
  | completed (folderName name : String) (result : Option Err)
  | removeFile (path : String)
  | mkdirAll (folderName : String)
  | rename (tmp folderName name : String)
  | removeStored (folderName name : String)
  | save
deriving DecidableEq, Repr

/-! ## `fileItems` (lines 1127-1152) -/

/-- Method `fileItems.Has`. -/
def fileItems.Has (f : fileItems) (name : String) : Bool :=
  f.any (fun fd => decide (fd.Name = name))

/-- The zero value `fileItem{}`. -/
def fileItem.zero : fileItem :=
  { Name := "", Path := "", CreateDate := 0, Size := 0, Uploaded := 0 }

/-- Method `fileItems.Get`: the first item of that name, else the zero item. -/
def fileItems.Get (f : fileItems) (name : String) : fileItem :=
  match f.find? (fun fd => decide (fd.Name = name)) with
  | some fd => fd
  | none => fileItem.zero

/-- Method `fileItems.Size`: the `uint64` sum of the sizes. -/
def fileItems.Size (f : fileItems) : Nat :=
  f.foldl (fun curSize i => u64add curSize i.Size) 0

/-! ## `fileUploads` (lines 1007-1075) -/

/-- The key test shared by the methods of `fileUploads`. -/
def fileUpload.sameKey (fd : fileUpload) (folderName name : String) : Bool :=
  decide (fd.Folder = folderName) && decide (fd.File.Name = name)

/-- Method `fileUploads.Remove`. -/
def fileUploads.Remove (f : fileUploads) (up : fileUpload) : fileUploads :=
  f.filter (fun fd => !(fd.sameKey up.Folder up.File.Name))

/-- Method `fileUploads.Has`. -/
def fileUploads.Has (f : fileUploads) (folderName name : String) : Bool :=
  f.any (fun fd => fd.sameKey folderName name)

/-- Method `fileUploads.UpdateNewer`: the first record with the key of `up`
and an older `LastActive` is overwritten by `up`. -/
def fileUploads.UpdateNewer : fileUploads → fileUpload → fileUploads × Bool
  | [], _ => ([], false)
  | fd :: f, up =>
    if fd.sameKey up.Folder up.File.Name && decide (fd.LastActive < up.LastActive) then
      (up :: f, true)
    else
      let r := fileUploads.UpdateNewer f up
      (fd :: r.1, r.2)

/-- Method `fileUploads.Items`. -/
def fileUploads.Items (f : fileUploads) (folderName : String) : fileItems :=
  (f.filter (fun fd => decide (fd.Folder = folderName))).map (fun fd => fd.File)

/-! ## `folders` (lines 1077-1125) -/

/-- Method `folders.Has`. -/
def folders.Has (f : folders) (name : String) : Bool :=
  f.any (fun fd => decide (fd.Name = name))

/-- The zero value `folder{}`. -/
def folder.zero : folder :=
  { Name := "", CreateDate := 0, MaxFileSize := none, MaxFileCount := none,
    MaxTotalSize := none, MaxLifeTime := none, MaxUpBytesPerSec := none,
    MaxDlBytesPerSec := none, MaxActiveUploads := none, MaxActiveDownloads := none,
    CaptchaForAnonymous := false, CaptchaForLoggedUsers := false, IsPrivate := false,
    IsAdminOnlyReadable := false, Password := none, Users := none }

/-- Method `folders.Get`: the first folder of that name, else the zero folder. -/
def folders.Get (f : folders) (name : String) : folder :=
  match f.find? (fun fd => decide (fd.Name = name)) with
  | some fd => fd
  | none => folder.zero

/-- Method `folders.Set`: overwrites the first folder of that name. -/
def folders.Set : folders → folder → folders
  | [], _ => []
  | ffd :: f, fd => if fd.Name = ffd.Name then fd :: f else ffd :: folders.Set f fd

/-! ## `filepath.Clean` and `torDropDB.clean` (lines 968-976) -/

/-- One component of the scan of `filepath.Clean`: empty components and `.`
are skipped, `..` backtracks over the last component kept (or is kept itself
when the path is not rooted and nothing is left to drop), anything else is
kept. `out` is the stack of the components kept, last first. -/
def cleanStep (rooted : Bool) (out : List (List Char)) (c : List Char) : List (List Char) :=
  if c = [] then out
  else if c = ['.'] then out
  else if c = ['.', '.'] then
    match out with
    | top :: rest => if top = ['.', '.'] then c :: out else rest
    | [] => if rooted then out else [c]
  else c :: out

/-- Splits a list of characters at every `sep`. -/
def splitOnChar (sep : Char) : List Char → List (List Char)
  | [] => [[]]
  | ch :: cs =>
    if ch = sep then [] :: splitOnChar sep cs
    else
      match splitOnChar sep cs with
      | c :: r => (ch :: c) :: r
      | [] => [[ch]]

/-- Go `filepath.Clean` for slash-separated paths. -/
def filepathClean (path : List Char) : List Char :=
  if path = [] then ['.']
  else
    let rooted : Bool := decide (path.head? = some '/')
    let out := (splitOnChar '/' path).foldl (cleanStep rooted) []
    let joined := List.intercalate ['/'] out.reverse
    if rooted then '/' :: joined
    else if out = [] then ['.'] else joined

/-- Go `strings.Split(s, sep)[0]` for a one-character separator. -/
def firstSegment (sep : Char) (s : List Char) : List Char :=
  s.takeWhile (fun ch => decide (ch ≠ sep))

/-- Method `torDropDB.clean`. -/
def clean (s : String) : String :=
  if s = "" then s
  else String.mk (firstSegment '\\' (firstSegment '/' (filepathClean s.toList)))

/-! ## `torDropDB` (lines 818-1005) -/

/-- Method `torDropDB.Folder`. -/
def torDropDB.Folder (t : torDropDB) (name : String) : Option folder :=
  if t.Folders.Has name then some (t.Folders.Get name) else none

/-- Method `torDropDB.HasUpload`. -/
def torDropDB.HasUpload (t : torDropDB) (folderName name : String) : Bool :=
  fileUploads.Has t.Uploads folderName name

/-- Method `torDropDB.UploadCount`. -/
def torDropDB.UploadCount (t : torDropDB) (folderName : String) : Int :=
  if folderName = "" then (t.Uploads.length : Int)
  else ((fileUploads.Items t.Uploads folderName).length : Int)

/-- Method `torDropDB.GetItems`; its error result is always nil. When the
`Items` map has no entry for the folder the function returns at once, before
the in-flight uploads are looked at. -/
def torDropDB.GetItems (t : torDropDB) (folderName : String) (uploading : Bool) :
    fileItems × Option Err :=
  match mapGet t.Items folderName with
  | none => ([], none)
  | some x =>
    if uploading then (x ++ fileUploads.Items t.Uploads folderName, none)
    else (x, none)

/-- Method `torDropDB.GetItem`. -/
def torDropDB.GetItem (t : torDropDB) (folderName name : String) : Except Err fileItem :=
  match mapGet t.Items folderName with
  | none => .error (.folderNotFound folderName)
  | some items =>
    if !(fileItems.Has items name) then .error (.fileNotFound name folderName)
    else .ok (fileItems.Get items name)

/-- Method `torDropDB.AddItem`. -/
def torDropDB.AddItem (t : torDropDB) (folderName : String) (item : fileItem) :
    Option Err × torDropDB :=
  if folderName = "" then (some .folderNameEmpty, t)
  else if (t.Folder folderName).isNone then (some (.folderDoesNotExist folderName), t)
  else if item.Name = "" then (some .itemNameEmpty, t)
  else
    let items := (mapGet t.Items folderName).getD []
    (none, { t with Items := mapSet t.Items folderName (items ++ [item]) })

/-- Method `torDropDB.CreateFolder`; `now` is the reading of `time.Now()`. -/
def torDropDB.CreateFolder (t : torDropDB) (now : Int) (fd : folder) : Option Err × torDropDB :=
  let fd := { fd with Name := clean fd.Name }
  if fd.Name = "" then (some .folderNameEmpty, t)
  else if t.Folders.Has fd.Name then (some (.folderExists fd.Name), t)
  else (none, { t with Folders := t.Folders ++ [{ fd with CreateDate := now }] })

/-- Method `torDropDB.CompleteUpload`. -/
def torDropDB.CompleteUpload (t : torDropDB) (ev : fileUpload) : torDropDB :=
  { t with Uploads := fileUploads.Remove t.Uploads ev }

/-- Method `torDropDB.UploadEventNewer`. -/
def torDropDB.UploadEventNewer (t : torDropDB) (ev : fileUpload) : Bool × torDropDB :=
  let r := fileUploads.UpdateNewer t.Uploads ev
  (r.2, { t with Uploads := r.1 })

/-- Method `torDropDB.ClearUploads`: the uploads handed to `each`, and the
registry without uploads. -/
def torDropDB.ClearUploads (t : torDropDB) : List fileUpload × torDropDB :=
  (t.Uploads, { t with Uploads := [] })

/-- Method `torDropDB.ClearLifetimeExceededUploads`: the uploads handed to
`exceeded`, and the registry that keeps the others. -/
def torDropDB.ClearLifetimeExceededUploads (t : torDropDB) (lifetime now : Int) :
    List fileUpload × torDropDB :=
  (t.Uploads.filter (fun up => decide (up.LastActive + lifetime < now)),
   { t with Uploads := t.Uploads.filter (fun up => !decide (up.LastActive + lifetime < now)) })

/-- The largest `time.Duration`, `1<<63 - 1` nanoseconds (about 292 years). -/
def maxDuration : Int := 9223372036854775807

/-- The smallest `time.Duration`, `-1 << 63` nanoseconds. -/
def minDuration : Int := -9223372036854775808

/-- Library method `time.Time.Sub`: the duration `t - u`; when the difference
does not fit a `time.Duration` the largest (or the smallest) duration is
returned. -/
def timeSub (t u : Int) : Int :=
  if t - u > maxDuration then maxDuration
  else if t - u < minDuration then minDuration
  else t - u

/-- Body of the loop of `torDropDB.ClearLifetimeExceededItems` for one entry
of the `Items` map: the items handed to `exceeded` and the entry afterwards.
The test of line 859 is `time.Now().Sub(i.CreateDate) > lm`. -/
def clearFolderItems (t : torDropDB) (now : Int) (e : String × fileItems) :
    List (String × fileItem) × (String × fileItems) :=
  match t.Folder e.1 with
  | none => ([], e)
  | some fd =>
    match fd.MaxLifeTime with
    | none => ([], e)
    | some lm =>
      ((e.2.filter (fun i => decide (timeSub now i.CreateDate > lm))).map (fun i => (e.1, i)),
       (e.1, e.2.filter (fun i => !decide (timeSub now i.CreateDate > lm))))

/-- Method `torDropDB.ClearLifetimeExceededItems`. -/
def torDropDB.ClearLifetimeExceededItems (t : torDropDB) (now : Int) :
    List (String × fileItem) × torDropDB :=
  let r := t.Items.map (clearFolderItems t now)
  ((r.map (fun x => x.1)).flatten, { t with Items := r.map (fun x => x.2) })

/-! ## `torDropFileServer` (lines 175-816) -/

/-- Go conversion `int(x)` of a `uint64` on a 64-bit platform. -/
def toInt (x : Nat) : Int :=
  if x % u64 < 2 ^ 63 then ((x % u64 : Nat) : Int) else ((x % u64 : Nat) : Int) - ((u64 : Nat) : Int)

/-- Body shared by `setUploadLimit` and `setDownloadLimit`, on the registry
it is given. -/
def setLimit (m : List (String × Int)) (folderName : String) (n : Int) : List (String × Int) :=
  match mapGet m folderName with
  | some x =>
    if x = n then m
    else if n = 0 then mapDelete m folderName
    else mapSet m folderName n
  | none =>
    if n = 0 then mapDelete m folderName
    else mapSet m folderName n

/-- Method `torDropFileServer.setUploadLimit`. -/
def torDropFileServer.setUploadLimit (t : torDropFileServer) (folderName : String) (n : Int) :
    torDropFileServer :=
  { t with folderUploadManagers := setLimit t.folderUploadManagers folderName n }

/-- Method `torDropFileServer.setDownloadLimit`. -/
def torDropFileServer.setDownloadLimit (t : torDropFileServer) (folderName : String) (n : Int) :
    torDropFileServer :=
  { t with folderDownloadManagers := setLimit t.folderDownloadManagers folderName n }

/-- The two limiter updates that `CreateFolder` and `UpdateFolder` run after
the registry accepted `fd`. -/
def torDropFileServer.applyLimits (t : torDropFileServer) (fd : folder) : torDropFileServer :=
  let t1 := match fd.MaxDlBytesPerSec with
    | some n => t.setDownloadLimit fd.Name (toInt n)
    | none => t
  match fd.MaxUpBytesPerSec with
  | some n => t1.setUploadLimit fd.Name (toInt n)
  | none => t1

/-- Method `torDropFileServer.CreateFolder`; `saveOk` is the outcome of
`save`. -/
def torDropFileServer.CreateFolder (t : torDropFileServer) (now : Int) (saveOk : Bool)
    (fd : folder) : Option Err × torDropFileServer :=
  match t.db.CreateFolder now fd with
  | (some e, _) => (some e, t)
  | (none, db) =>
    let t1 := ({ t with db := db }).applyLimits fd
    (if saveOk then none else some .io, t1)

/-- Lines 735-740 of `UploadItem`: the cap on the uploads in flight. -/
def checkActiveDownloads (t : torDropDB) (fd : folder) : Option Err :=
  match fd.MaxActiveDownloads with
  | some c =>
    if c > 0 ∧ t.UploadCount fd.Name ≥ c then some .maxActiveDownloadsExceeded else none
  | none => none

/-- Lines 752-759 of `UploadItem`: the cap on the size of one file. -/
def checkFileSize (fd : folder) (fsize : Nat) : Option Err :=
  match fd.MaxFileSize with
  | some mfs => if fsize > mfs ∧ mfs > 0 then some (.tooLarge mfs) else none
  | none => none

/-- Lines 760-766 of `UploadItem`: the cap on the number of files. -/
def checkFileCount (fd : folder) (items : fileItems) : Option Err :=
  match fd.MaxFileCount with
  | some mfc => if items.length + 1 > mfc ∧ mfc > 0 then some .cannotAcceptMoreFiles else none
  | none => none

/-- Lines 767-774 of `UploadItem`: the cap on the total size, in `uint64`
arithmetic. -/
def checkTotalSize (fd : folder) (items : fileItems) (fsize : Nat) : Option Err :=
  match fd.MaxTotalSize with
  | some mts =>
    if u64add (fileItems.Size items) fsize > mts ∧ mts > 0 then
      some (.totalExceeded fsize (u64sub mts (fileItems.Size items)))
    else none
  | none => none

/-- Method `torDropFileServer.UploadItem` up to the launch of the pipeline:
the admission checks and the append of the upload record. The reply is the
admission error, or `none` when the upload is admitted (the caller then waits
for the completion channel). -/
def torDropFileServer.UploadItem (t : torDropFileServer) (now : Int) (folderName : String)
    (item : fileItem) : Option Err × torDropFileServer :=
  if folderName = "" then (some .folderNameEmpty, t)
  else if item.Name = "" then (some .fileNameEmpty, t)
  else if item.Size < 1 then (some .contentLengthZero, t)
  else
    match t.db.Folder folderName with
    | none => (some (.folderDoesNotExist folderName), t)
    | some fd =>
      match checkActiveDownloads t.db fd with
      | some err => (some err, t)
      | none =>
        match t.db.GetItems folderName true with
        | (_, some err) => (some err, t)
        | (items, none) =>
          if fileItems.Has items item.Name then (some (.alreadyExistsOrUploading item.Name), t)
          else
            match checkFileSize fd item.Size with
            | some err => (some err, t)
            | none =>
              match checkFileCount fd items with
              | some err => (some err, t)
              | none =>
                match checkTotalSize fd items item.Size with
                | some err => (some err, t)
                | none =>
                  let up : fileUpload :=
                    { TmpFile := "", Folder := folderName, File := item, LastActive := now,
                      Error := none }
                  (none, { t with db := { t.db with Uploads := t.db.Uploads ++ [up] } })

/-- The `case ev := <-t.uploadEvents` branch of `Listen`. `renameOk` and
`saveOk` are the outcomes of `os.Rename` and of `save`. -/
def torDropFileServer.handleUploadEvent (t : torDropFileServer) (renameOk saveOk : Bool)
    (ev : fileUpload) : List Effect × torDropFileServer :=
  if ev.File.IsComplete then
    let t1 := { t with db := t.db.CompleteUpload ev }
    match ev.Error with
    | some msg => ([.completed ev.Folder ev.File.Name (some (.source msg))], t1)
    | none =>
      match t1.db.GetItem ev.Folder ev.File.Name with
      | .ok _ =>
        ([.completed ev.Folder ev.File.Name (some (.alreadyExists ev.File.Name)),
          .removeFile ev.TmpFile], t1)
      | .error _ =>
        if !renameOk then
          ([.mkdirAll ev.Folder, .rename ev.TmpFile ev.Folder ev.File.Name,
            .completed ev.Folder ev.File.Name (some .io), .removeFile ev.TmpFile], t1)
        else
          match t1.db.AddItem ev.Folder ev.File with
          | (some err, _) =>
            ([.mkdirAll ev.Folder, .rename ev.TmpFile ev.Folder ev.File.Name,
              .completed ev.Folder ev.File.Name (some err),
              .removeStored ev.Folder ev.File.Name], t1)
          | (none, db) =>
            ([.mkdirAll ev.Folder, .rename ev.TmpFile ev.Folder ev.File.Name, .save,
              .completed ev.Folder ev.File.Name (if saveOk then none else some .io)],
             { t1 with db := db })
  else
    ([], { t with db := (t.db.UploadEventNewer ev).2 })

/-- Lines 673-680 of `OpenItem`: the cap on the downloads in progress. -/
def checkActiveUploads (t : torDropFileServer) (fd : folder) : Option Err :=
  match fd.MaxActiveUploads with
  | some c =>
    if c > 0 ∧ (mapGet t.activeDownloads fd.Name).getD 0 ≥ c then
      some .maxActiveUploadsExceeded
    else none
  | none => none

/-- Method `torDropFileServer.OpenItem`; `openOk` is the outcome of `os.Open`.
The counter is raised before the file is opened. -/
def torDropFileServer.OpenItem (t : torDropFileServer) (openOk : Bool)
    (folderName fileName : String) : Option Err × torDropFileServer :=
  if folderName = "" then (some .folderNameEmpty, t)
  else if fileName = "" then (some .fileNameEmpty, t)
  else
    match t.db.GetItem folderName fileName with
    | .error err => (some err, t)
    | .ok _ =>
      match t.db.Folder folderName with
      | none => (some (.folderDoesNotExist folderName), t)
      | some fd =>
        match checkActiveUploads t fd with
        | some err => (some err, t)
        | none =>
          let x := (mapGet t.activeDownloads fd.Name).getD 0
          let t1 := { t with activeDownloads := mapSet t.activeDownloads fd.Name (x + 1) }
          (if openOk then none else some .io, t1)

/-- The closure that `readDownloader.Close` sends to the serializer, for the
stream of folder `fd`. -/
def torDropFileServer.closeDownload (t : torDropFileServer) (fd : String) : torDropFileServer :=
  let x := (mapGet t.activeDownloads fd).getD 0
  if x > 0 then { t with activeDownloads := mapSet t.activeDownloads fd (x - 1) }
  else t

/-- The stall threshold of `Listen`: `time.Minute * 15` in nanoseconds. -/
def stallLifetime : Int := 15 * 60 * 1000000000

/-- The `case <-tm.C` branch of `Listen`: both sweeps. -/
def torDropFileServer.updateTick (t : torDropFileServer) (now : Int) :
    List Effect × torDropFileServer :=
  let r1 := t.db.ClearLifetimeExceededUploads stallLifetime now
  let r2 := r1.2.ClearLifetimeExceededItems now
  ((r1.1.map (fun up => [Effect.completed up.Folder up.File.Name (some .cancelledTooSlow),
      Effect.removeFile up.TmpFile])).flatten
    ++ r2.1.map (fun x => Effect.removeStored x.1 x.2.Name) ++ [.save],
   { t with db := r2.2 })

/-! ## Runs of the serializer -/

/-- One thing the serializer dequeues, with the readings of the clock and of
the file system it meets while handling it. -/
inductive Op where
  | createFolder (fd : folder) (now : Int) (saveOk : Bool)
  | uploadItem (folderName : String) (item : fileItem) (now : Int)
  | uploadEvent (ev : fileUpload) (renameOk saveOk : Bool)
  | openItem (folderName fileName : String) (openOk : Bool)
  | closeDownload (fd : String)
  | updateTick (now : Int)
deriving DecidableEq, Repr

/-- The state after the serializer handled `op`. -/
def step (t : torDropFileServer) : Op → torDropFileServer
  | .createFolder fd now saveOk => (t.CreateFolder now saveOk fd).2
  | .uploadItem folderName item now => (t.UploadItem now folderName item).2
  | .uploadEvent ev renameOk saveOk => (t.handleUploadEvent renameOk saveOk ev).2
  | .openItem folderName fileName openOk => (t.OpenItem openOk folderName fileName).2
  | .closeDownload fd => t.closeDownload fd
  | .updateTick now => (t.updateTick now).2

/-- The state after the serializer handled `ops` in order. -/
def run (t : torDropFileServer) (ops : List Op) : torDropFileServer :=
  ops.foldl step t

/-! ## Invariant of the runs and concrete registries -/

/-- Invariant of the runs: every upload belongs to a folder of the registry,
and a folder with a positive write-side cap holds at most that many uploads. -/
def UploadsInv (t : torDropFileServer) : Prop :=
  (∀ up ∈ t.db.Uploads, folders.Has t.db.Folders up.Folder = true) ∧
  (∀ name fd c, t.db.Folder name = some fd → fd.MaxActiveDownloads = some c → 0 < c →
      ((fileUploads.Items t.db.Uploads name).length : Int) ≤ c)

/-- Invariant of the runs on the active-download counters: no counter is
negative, only folders of the registry have a counter above 0, and a folder
with a positive read-side cap has a counter of at most the cap. -/
def DownloadsInv (t : torDropFileServer) : Prop :=
  (∀ name, 0 ≤ (mapGet t.activeDownloads name).getD 0) ∧
  (∀ name, folders.Has t.db.Folders name = false → (mapGet t.activeDownloads name).getD 0 = 0) ∧
  (∀ name fd c, t.db.Folder name = some fd → fd.MaxActiveUploads = some c → 0 < c →
      (mapGet t.activeDownloads name).getD 0 ≤ c)

/-- The number of streams of folder `name` handed out and not yet closed
after the serializer handled `ops` from `t`, where `k` such streams were open
at the start; `none` when `ops` closes a stream of `name` while none is
open. -/
def openStreams (name : String) : torDropFileServer → List Op → Nat → Option Nat
  | _, [], k => some k
  | t, .openItem folderName fileName openOk :: ops, k =>
    if folderName = name ∧ (t.OpenItem openOk folderName fileName).1 = none then
      openStreams name (step t (.openItem folderName fileName openOk)) ops (k + 1)
    else openStreams name (step t (.openItem folderName fileName openOk)) ops k
  | t, .closeDownload fd :: ops, k =>
    if fd = name then
      (if k = 0 then none else openStreams name (step t (.closeDownload fd)) ops (k - 1))
    else openStreams name (step t (.closeDownload fd)) ops k
  | t, op :: ops, k => openStreams name (step t op) ops k

/-- No `os.Open` fails in the run. -/
def noFailedOpen (ops : List Op) : Bool :=
  ops.all (fun op => match op with
    | .openItem _ _ openOk => openOk
    | _ => true)

/-- A folder named `f` without any policy. -/
def exFolder : folder := { folder.zero with Name := "f" }

/-- An item header as the upload handler builds it. -/
def exItem (name : String) (size : Nat) : fileItem :=
  { Name := name, Path := "/", CreateDate := 5, Size := size, Uploaded := 0 }

/-- The terminal event of the pipeline of `exItem name size` in folder `f`:
every byte written, no error. -/
def exDone (name : String) (size : Nat) : fileUpload :=
  { TmpFile := "/tmp/tor-drop1", Folder := "f",
    File := { exItem name size with Uploaded := size }, LastActive := 9, Error := none }

/-- A server whose registry holds the folder `fd` and the completed `items`
under the key `f`. -/
def exServer (fd : folder) (items : fileItems) : torDropFileServer :=
  { newFileServer with db := { Uploads := [], Folders := [fd], Items := [("f", items)] } }

/-- The run that creates the folder `fd` (named `f`) and admits the upload of
an item `a` of 15 bytes into it. -/
def traceFirstUpload (fd : folder) : List Op :=
  [.createFolder fd 1 true, .uploadItem "f" (exItem "a" 15) 2]

/-- The run `traceFirstUpload fd` followed by the request to upload a second
item `b` of 15 bytes. -/
def traceSecondUpload (fd : folder) : List Op :=
  traceFirstUpload fd ++ [.uploadItem "f" (exItem "b" 15) 3]

/-- The run `traceSecondUpload fd` followed by the terminal events, without
error, of the uploads of `a` and of `b`. -/
def traceTwoUploads (fd : folder) : List Op :=
  traceSecondUpload fd ++
    [.uploadEvent (exDone "a" 15) true true, .uploadEvent (exDone "b" 15) true true]

/-! ## Folder and item administration (lines 414-649, 894-966) -/

/-- Method `torDropDB.UpdateFolder`. -/
def torDropDB.UpdateFolder (t : torDropDB) (fd : folder) (users : Bool) :
    Option Err × torDropDB :=
  match t.Folder fd.Name with
  | none => (some (.folderGone fd.Name), t)
  | some x =>
    let fd1 : folder := if users then fd else { fd with Users := x.Users }
    let fd2 : folder := { fd1 with CreateDate := x.CreateDate }
    (none, { t with Folders := folders.Set t.Folders fd2 })

/-- Method `torDropDB.RmFolder`. -/
def torDropDB.RmFolder (t : torDropDB) (name : String) : Option Err × torDropDB :=
  if !(folders.Has t.Folders name) then (some (.folderNotFound name), t)
  else
    let n := t.Folders.filter (fun f => !decide (f.Name = name))
    (none, { Uploads := t.Uploads, Folders := n, Items := mapDelete t.Items name })

/-- Method `torDropDB.RmItem`. -/
def torDropDB.RmItem (t : torDropDB) (folderName name : String) : Option Err × torDropDB :=
  match mapGet t.Items folderName with
  | none => (some (.folderNotFound folderName), t)
  | some items =>
    if !(fileItems.Has items name) then (some (.fileNotFound name folderName), t)
    else
      let n := items.filter (fun i => !decide (i.Name = name))
      (none, { t with Items := mapSet t.Items folderName n })

/-- Method `torDropFileServer.UpdateFolder`; `saveOk` is the outcome of
`save`. -/
def torDropFileServer.UpdateFolder (t : torDropFileServer) (saveOk : Bool) (fd : folder)
    (users : Bool) : Option Err × torDropFileServer :=
  match t.db.UpdateFolder fd users with
  | (some e, _) => (some e, t)
  | (none, db) =>
    let t1 := ({ t with db := db }).applyLimits fd
    (if saveOk then none else some .io, t1)

/-- Method `torDropFileServer.RmFolder`; `rmOk` is the outcome of
`os.RemoveAll` on the directory of the folder, `saveOk` that of `save`. -/
def torDropFileServer.RmFolder (t : torDropFileServer) (rmOk saveOk : Bool) (name : String) :
    Option Err × torDropFileServer :=
  match t.db.RmFolder name with
  | (some e, _) => (some e, t)
  | (none, db) =>
    let t1 : torDropFileServer :=
      { db := db, folderUploadManagers := mapDelete t.folderUploadManagers name,
        folderDownloadManagers := mapDelete t.folderDownloadManagers name,
        activeDownloads := t.activeDownloads }
    (if !rmOk then some .io else if saveOk then none else some .io, t1)

/-- Method `torDropFileServer.RmItem`; `rmOk` is the outcome of `os.Remove`
on the stored file, `saveOk` that of `save`. -/
def torDropFileServer.RmItem (t : torDropFileServer) (rmOk saveOk : Bool)
    (folderName name : String) : Option Err × torDropFileServer :=
  match t.db.RmItem folderName name with
  | (some e, _) => (some e, t)
  | (none, db) =>
    (if !rmOk then some .io else if saveOk then none else some .io, { t with db := db })

/-- Method `torDropFileServer.AddFolderLogin`. The login is written only when
the users map of the folder has no binding for it. -/
def torDropFileServer.AddFolderLogin (t : torDropFileServer) (saveOk : Bool)
    (folderName user pwd : String) : Option Err × torDropFileServer :=
  if folderName = "" then (some .folderNameEmpty, t)
  else if user = "" then (some .userNameEmpty, t)
  else
    match t.db.Folder folderName with
    | none => (some (.folderNotFound folderName), t)
    | some fd =>
      let users := fd.Users.getD []
      match mapGet users user with
      | some _ => (none, t)
      | none =>
        match t.db.UpdateFolder { fd with Users := some (mapSet users user [pwd]) } true with
        | (some e, _) => (some e, t)
        | (none, db) => (if saveOk then none else some .io, { t with db := db })

/-- Method `torDropFileServer.RmFolderLogin`. `fd` is a copy of the stored
folder that shares its users map: `delete(fd.Users, user)` removes the login
from the map of the stored folder, while `fd.Users = nil` changes the copy
only, so the stored folder keeps the map, empty or not. -/
def torDropFileServer.RmFolderLogin (t : torDropFileServer) (saveOk : Bool)
    (folderName user : String) : Option Err × torDropFileServer :=
  match t.db.Folder folderName with
  | none => (some (.folderNotFound folderName), t)
  | some fd =>
    match fd.Users with
    | none => (if saveOk then none else some .io, t)
    | some m =>
      let stored : folder := { fd with Users := some (mapDelete m user) }
      (if saveOk then none else some .io,
       { t with db := { t.db with Folders := folders.Set t.db.Folders stored } })

/-- Lines 611-617 of `WriteItem`: the cap on the size of one file. -/
def writeCheckFileSize (fd : folder) (fsize : Nat) : Option Err :=
  match fd.MaxFileSize with
  | some mfs => if fsize > mfs then some (.tooLarge mfs) else none
  | none => none

/-- Lines 618-624 of `WriteItem`: the cap on the number of files. -/
def writeCheckFileCount (fd : folder) (items : fileItems) : Option Err :=
  match fd.MaxFileCount with
  | some mfc => if items.length + 1 > mfc then some .cannotAcceptMoreFiles else none
  | none => none

/-- Lines 625-632 of `WriteItem`: the cap on the total size. -/
def writeCheckTotalSize (fd : folder) (items : fileItems) (fsize : Nat) : Option Err :=
  match fd.MaxTotalSize with
  | some mts =>
    if u64add (fileItems.Size items) fsize > mts then
      some (.totalExceeded fsize (u64sub mts (fileItems.Size items)))
    else none
  | none => none

/-- Method `torDropFileServer.WriteItem` for a content of `fsize` bytes;
`writeOk` is the outcome of `ioutil.WriteFile`. The item must exist already,
and the rewritten item is handed to `AddItem`, which appends it. -/
def torDropFileServer.WriteItem (t : torDropFileServer) (now : Int) (writeOk : Bool)
    (folderName name : String) (fsize : Nat) : Option Err × torDropFileServer :=
  if folderName = "" then (some .folderNameEmpty, t)
  else if name = "" then (some .fileNameEmpty, t)
  else
    match t.db.GetItem folderName name with
    | .error err => (some err, t)
    | .ok item =>
      if t.db.HasUpload folderName name then (some (.alreadyBeingUploaded item.Name), t)
      else
        match t.db.Folder folderName with
        | none => (some .nilDereference, t)
        | some fd =>
          match t.db.GetItems folderName true with
          | (_, some err) => (some err, t)
          | (items, none) =>
            match writeCheckFileSize fd fsize with
            | some err => (some err, t)
            | none =>
              match writeCheckFileCount fd items with
              | some err => (some err, t)
              | none =>
                match writeCheckTotalSize fd items fsize with
                | some err => (some err, t)
                | none =>
                  if !writeOk then (some .io, t)
                  else
                    let item1 : fileItem := { item with Size := fsize, CreateDate := now }
                    match t.db.AddItem folderName item1 with
                    | (err, db) => (err, { t with db := db })

/-! ## Calls of the engine -/

/-- One call of the engine: something the serializer handles already (`Op`),
or one of the administration calls, with the readings of the clock and of the
file system it meets. -/
inductive Call where
  | serializer (op : Op)
  | updateFolder (fd : folder) (users : Bool) (saveOk : Bool)
  | rmFolder (name : String) (rmOk saveOk : Bool)
  | rmItem (folderName name : String) (rmOk saveOk : Bool)
  | addFolderLogin (folderName user pwd : String) (saveOk : Bool)
  | rmFolderLogin (folderName user : String) (saveOk : Bool)
  | writeItem (folderName name : String) (fsize : Nat) (now : Int) (writeOk : Bool)
deriving DecidableEq, Repr

/-- The state after the engine handled the call. -/
def stepCall (t : torDropFileServer) : Call → torDropFileServer
  | .serializer op => step t op
  | .updateFolder fd users saveOk => (t.UpdateFolder saveOk fd users).2
  | .rmFolder name rmOk saveOk => (t.RmFolder rmOk saveOk name).2
  | .rmItem folderName name rmOk saveOk => (t.RmItem rmOk saveOk folderName name).2
  | .addFolderLogin folderName user pwd saveOk => (t.AddFolderLogin saveOk folderName user pwd).2
  | .rmFolderLogin folderName user saveOk => (t.RmFolderLogin saveOk folderName user).2
  | .writeItem folderName name fsize now writeOk =>
      (t.WriteItem now writeOk folderName name fsize).2

/-- The state after the engine handled the calls in order. -/
def runCalls (t : torDropFileServer) (calls : List Call) : torDropFileServer :=
  calls.foldl stepCall t

/-- A registry for the sweeps: folder `f` keeps its items for one second and
holds an item created at 5 ns and one created at 2 s; one upload was last
active at 9 ns, another at 1000 s. -/
def exSweepDB : torDropDB :=
  { Uploads := [exDone "c" 3, { exDone "d" 3 with LastActive := 1000000000000 }],
    Folders := [{ exFolder with MaxLifeTime := some 1000000000 }],
    Items := [("f", [exItem "a" 15, { exItem "b" 3 with CreateDate := 2000000000 }])] }

/-- A registry whose folder `f` has the largest duration as lifetime and
holds one item created at the instant 0. -/
def exOldDB : torDropDB :=
  { Uploads := [], Folders := [{ exFolder with MaxLifeTime := some 9223372036854775807 }],
    Items := [("f", [{ exItem "a" 15 with CreateDate := 0 }])] }

/-! ## The temp directory -/

/-- The paths in the temp directory after the file-system effects of one
step of the serializer: `removeFile p` deletes `p`, and a `rename` takes its
source out of the directory when it succeeds (`renameOk`). -/
def tmpDirAfter (renameOk : Bool) : List String → List Effect → List String
  | tmp, [] => tmp
  | tmp, .removeFile p :: r => tmpDirAfter renameOk (tmp.filter (fun q => !decide (q = p))) r
  | tmp, .rename p _ _ :: r =>
    tmpDirAfter renameOk (if renameOk then tmp.filter (fun q => !decide (q = p)) else tmp) r
  | tmp, _ :: r => tmpDirAfter renameOk tmp r

/-- The terminal event of the pipeline of `exItem name size` in folder `f`
whose source ended with an error after every byte was written. -/
def exFailed (name : String) (size : Nat) : fileUpload :=
  { exDone name size with Error := some "unexpected EOF" }

/-- A folder `f` created at 1 with a file-size cap and the login `bob`. -/
def exFolderF : folder :=
  { exFolder with CreateDate := 1, MaxFileSize := some 250, Users := some [("bob", ["x"])] }

/-- A folder `g` created at 2 without any policy. -/
def exFolderG : folder := { exFolder with Name := "g", CreateDate := 2 }

/-- A server with the folders `g` and `f`, in this order, and items in both. -/
def exAdminServer : torDropFileServer :=
  { newFileServer with db :=
    { Uploads := [], Folders := [exFolderG, exFolderF],
      Items := [("g", [exItem "a" 1]), ("f", [exItem "a" 15, exItem "b" 3])] } }

/-! ## Invariants of the calls -/

/-- The names of the completed items of every entry of `Items` are pairwise
distinct. -/
def ItemNamesDistinct (t : torDropFileServer) : Prop :=
  ∀ kv ∈ t.db.Items, (kv.2.map (fun i => i.Name)).Nodup

/-- The call is a `WriteItem`. -/
def Call.isWriteItem : Call → Bool
  | .writeItem _ _ _ _ _ => true
  | _ => false

/-- The names of the folders of the registry, each with its creation date. -/
def folderStamps (t : torDropFileServer) : List (String × Int) :=
  t.db.Folders.map (fun fd => (fd.Name, fd.CreateDate))

/-- What a call does to the list of the folder names and of the clock
readings at which each was created: `CreateFolder` adds the cleaned name with
the reading of the clock when the name is not empty and not taken,
`RmFolder` drops the name, no other call changes the list. -/
def stampsAfter (g : List (String × Int)) : Call → List (String × Int)
  | .serializer (.createFolder fd now _) =>
    if clean fd.Name = "" ∨ clean fd.Name ∈ g.map (fun s => s.1) then g
    else g ++ [(clean fd.Name, now)]
  | .rmFolder name _ _ => g.filter (fun s => !decide (s.1 = name))
  | _ => g

/-- The calls that create folder `f`, upload the item `a` of 15 bytes into
it until completion, and then write 3 bytes to the item `a` with
`WriteItem`. -/
def traceWriteItem : List Call :=
  [.serializer (.createFolder exFolder 1 true), .serializer (.uploadItem "f" (exItem "a" 15) 2),
   .serializer (.uploadEvent (exDone "a" 15) true true), .writeItem "f" "a" 3 9 true]

/-! ## Listing (lines 434-443) -/

/-- Method `torDropFileServer.Items`: the closure sent to the serializer
copies what `GetItems` returns and forwards its error. -/
def torDropFileServer.Items (t : torDropFileServer) (folderName : String) (uploading : Bool) :
    fileItems × Option Err :=
  match t.db.GetItems folderName uploading with
  | (x, err) => ([] ++ x, err)

/-! ## The handlers of `app.go` (lines 241-244, 461-501, 583-599) -/

/-- The `userLogin` struct. -/
structure userLogin where
  Login : String
  Password : String
deriving DecidableEq, Repr

/-- What the cookie store holds for a request: the values of the session
`pwd` and of the session `user`, by folder name; `none` stands for a
`session.Get` that returns an error. -/
structure sessionValues where
  pwd : Option (List (String × String))
  user : Option (List (String × userLogin))
deriving DecidableEq, Repr

/-- The errors of `hasAuthFolder`, one constructor per `fmt.Errorf` site (the
two session-store sites share one). -/
inductive AuthErr where
  | folderNotFound (name : String)
  | sessionStoreFailed
  | invalidPassword
  | invalidLogin
deriving DecidableEq, Repr

/-- Lines 487-494 of `hasAuthFolder`: the test of the login stored in the
session against the users map of the folder. -/
def loginMatches (users : List (String × List String)) (p : userLogin) : Bool :=
  if p.Login ≠ "" ∧ ((mapGet users p.Login).getD []).length > 0 then
    ((mapGet users p.Login).getD []).any (fun pwd => decide (pwd = p.Password))
  else false

/-- Method `torDropApp.hasAuthFolder` for a session that is not the one of
the administrator; the reply `none` grants the access. -/
def hasAuthFolder (t : torDropFileServer) (s : sessionValues) (folderName : String) :
    Option AuthErr :=
  match t.db.Folder folderName with
  | none => some (.folderNotFound folderName)
  | some fd =>
    if fd.Password ≠ none ∧ fd.Password ≠ some "" then
      match s.pwd with
      | none => some .sessionStoreFailed
      | some vals =>
        let loginOk : Bool :=
          match mapGet vals folderName with
          | some p => decide (some p = fd.Password)
          | none => false
        if !loginOk then some .invalidPassword else none
    else if (fd.Users.getD []).length > 0 then
      match s.user with
      | none => some .sessionStoreFailed
      | some vals =>
        let loginOk : Bool :=
          match mapGet vals folderName with
          | some p => loginMatches (fd.Users.getD []) p
          | none => false
        if !loginOk then some .invalidLogin else none
    else none

/-- Library function `filepath.Base` on a system whose separator is `/`, on
the bytes of the path (`/` is the byte 47, `.` the byte 46): the empty path
gives `.`, trailing separators are dropped, the bytes after the last
separator are kept, and a path of separators only gives `/`. -/
def filepathBase (path : List Nat) : List Nat :=
  if path = [] then [46]
  else
    let p := (path.reverse.dropWhile (fun b => decide (b = 47))).reverse
    let b := (p.reverse.takeWhile (fun b => !decide (b = 47))).reverse
    if b = [] then [47] else b

/-- Lines 588-591 of `FolderListing`: the name of the item built for the
uploaded file `filename`, on bytes as `len` and the slice `fn[:220]` are. -/
def uploadFileName (filename : List Nat) : List Nat :=
  let fn := filepathBase filename
  if fn.length > 220 then fn.take 220 else fn

/-! ## The pipeline of an upload (lines 778-813) -/

/-- An event that the pipeline of the upload admitted for the header `item`
into `folderName` sends to the serializer. The goroutine keeps the record
`up` that `UploadItem` built (`up.File = item`, `up.Folder = folderName`),
sets `up.TmpFile` to the name `tmp` of its temp file, and before each send
sets `up.LastActive` to the reading `now` of the clock, `up.File.Uploaded` to
the count of the bytes written, and, when the copy ended, `up.Error` to its
result `err`. No other field of `up.File` is assigned. -/
def pipelineEvent (folderName : String) (item : fileItem) (tmp : String) (now : Int)
    (count : Nat) (err : Option String) : fileUpload :=
  { TmpFile := tmp, Folder := folderName, File := { item with Uploaded := count },
    LastActive := now, Error := err }

/-! ## Concrete registries, sessions and runs for the handlers and events -/

/-- A server whose folder `f` has a users map with one login, the empty
string, as `CreateFolder` stores it when the folder value carries it. -/
def exEmptyLoginServer : torDropFileServer :=
  exServer { exFolder with Users := some [("", ["x"])] } []

/-- A session that holds the login `login` with the password `x` for the
folder `f`. -/
def exSession (login : String) : sessionValues :=
  { pwd := some [], user := some [("f", { Login := login, Password := "x" })] }

/-- The event of the pipeline of `exItem name size` in folder `f` whose
source ended with an error after 7 bytes, at the clock reading 9. -/
def exBroken (name : String) (size : Nat) : fileUpload :=
  { TmpFile := "/tmp/tor-drop1", Folder := "f",
    File := { exItem name size with Uploaded := 7 }, LastActive := 9,
    Error := some "unexpected EOF" }

/-- The run that creates folder `f` at 1, admits at 5 the upload of the item
`a` whose header carries the date 5, meets an update tick at 100, and then
handles the terminal event that the pipeline sent at 120. -/
def traceLateCompletion : List Op :=
  [.createFolder exFolder 1 true, .uploadItem "f" (exItem "a" 15) 5, .updateTick 100,
   .uploadEvent (pipelineEvent "f" (exItem "a" 15) "/tmp/tor-drop1" 120 15 none) true true]

/-- The folder `f` with an upload rate of 100 and a download rate of 200
bytes per second. -/
def exCapped : folder :=
  { exFolder with MaxUpBytesPerSec := some 100, MaxDlBytesPerSec := some 200 }

/-- The calls that create the folder `exCapped` and then update it with a
folder value whose two rates are absent. -/
def traceUncap : List Call :=
  [.serializer (.createFolder exCapped 1 true), .updateFolder exFolder false true]

/-- The calls that create folder `f` without a cap, admit the uploads of `a`
and of `b` into it, remove the folder while both are in flight, and create
`f` again with `MaxActiveDownloads = 1`. -/
def traceRecreate : List Call :=
  [.serializer (.createFolder exFolder 1 true),
   .serializer (.uploadItem "f" (exItem "a" 15) 2),
   .serializer (.uploadItem "f" (exItem "b" 15) 3),
   .rmFolder "f" true true,
   .serializer (.createFolder { exFolder with MaxActiveDownloads := some 1 } 4 true)]

/-! ## Strings in the snapshot file (`save`, `load`, lines 148-168) -/

/-- Library function `utf8.DecodeRuneInString`, reduced to the width it
reports, on the bytes of the string: the number of bytes of the UTF-8
encoding at the head of the string, and 0 when the head is not a valid
encoding (the library then returns `RuneError` with the width 1). -/
def utf8Width : List Nat → Nat
  | [] => 0
  | b0 :: r =>
    if b0 < 128 then 1
    else if 194 ≤ b0 ∧ b0 ≤ 223 then
      match r with
      | b1 :: _ => if 128 ≤ b1 ∧ b1 ≤ 191 then 2 else 0
      | _ => 0
    else if 224 ≤ b0 ∧ b0 ≤ 239 then
      match r with
      | b1 :: b2 :: _ =>
        if (if b0 = 224 then 160 else 128) ≤ b1 ∧ b1 ≤ (if b0 = 237 then 159 else 191) ∧
            128 ≤ b2 ∧ b2 ≤ 191 then 3
        else 0
      | _ => 0
    else if 240 ≤ b0 ∧ b0 ≤ 244 then
      match r with
      | b1 :: b2 :: b3 :: _ =>
        if (if b0 = 240 then 144 else 128) ≤ b1 ∧ b1 ≤ (if b0 = 244 then 143 else 191) ∧
            128 ≤ b2 ∧ b2 ≤ 191 ∧ 128 ≤ b3 ∧ b3 ≤ 191 then 4
        else 0
      | _ => 0
    else 0

/-- The bytes that `load` reads back for a string that `save` wrote, `skip`
being the number of bytes still to copy of the encoding under way. `save`
hands the registry to `json.Encoder.Encode`, which writes the bytes of a valid
UTF-8 encoding as they are (or as an escape of the same character) and every
other byte as the escape of U+FFFD; `load` hands the file to
`json.Decoder.Decode`, which reads the characters back, U+FFFD as the bytes
239 191 189. -/
def reloadBytes : Nat → List Nat → List Nat
  | _, [] => []
  | skip + 1, b :: r => b :: reloadBytes skip r
  | 0, b :: r =>
    if utf8Width (b :: r) = 0 then [239, 191, 189] ++ reloadBytes 0 r
    else b :: reloadBytes (utf8Width (b :: r) - 1) r

/-- A string of the registry as it is after `save` and `load`. -/
def reloadString (s : List Nat) : List Nat := reloadBytes 0 s

/-- The name of an uploaded file: 219 times the letter `a` (byte 97) and then
the letter `é`, whose UTF-8 encoding is the two bytes 195 169. -/
def exLongFileName : List Nat := List.replicate 219 97 ++ [195, 169]

/-! ## Lemmas on the registry and on the steps of the serializer -/

theorem GetItems_snd (t : torDropDB) (folderName : String) (uploading : Bool) :
    (t.GetItems folderName uploading).2 = none := by
  unfold torDropDB.GetItems
  split
  · rfl
  · split <;> rfl

theorem Folder_eq_find (t : torDropDB) (name : String) :
    t.Folder name = t.Folders.find? (fun fd => decide (fd.Name = name)) := by
  unfold torDropDB.Folder folders.Has folders.Get
  cases h : List.find? (fun fd => decide (fd.Name = name)) t.Folders with
  | none =>
    have : t.Folders.any (fun fd => decide (fd.Name = name)) = false := by
      rw [List.find?_eq_none] at h
      simpa [List.any_eq_false] using h
    simp [this]
  | some fd =>
    have hm := List.mem_of_find?_eq_some h
    have hp := List.find?_some h
    have : t.Folders.any (fun fd => decide (fd.Name = name)) = true := by
      rw [List.any_eq_true]
      exact ⟨fd, hm, hp⟩
    simp [this]

theorem Folder_name (t : torDropDB) (name : String) (fd : folder)
    (h : t.Folder name = some fd) : fd.Name = name := by
  rw [Folder_eq_find] at h
  simpa using List.find?_some h

theorem Folder_mem (t : torDropDB) (name : String) (fd : folder)
    (h : t.Folder name = some fd) : fd ∈ t.Folders := by
  rw [Folder_eq_find] at h
  exact List.mem_of_find?_eq_some h

theorem checkActiveDownloads_some (t : torDropDB) (fd : folder) (e : Err)
    (h : checkActiveDownloads t fd = some e) : e = .maxActiveDownloadsExceeded := by
  unfold checkActiveDownloads at h
  split at h
  · split at h <;> simp_all
  · simp at h

theorem checkFileSize_some (fd : folder) (fsize : Nat) (e : Err)
    (h : checkFileSize fd fsize = some e) :
    ∃ mfs, fd.MaxFileSize = some mfs ∧ mfs < fsize ∧ 0 < mfs ∧ e = .tooLarge mfs := by
  unfold checkFileSize at h
  split at h
  · next mfs hm =>
    split at h
    · next hc => exact ⟨mfs, hm, hc.1, hc.2, by simpa using h.symm⟩
    · simp at h
  · simp at h

theorem checkFileCount_some (fd : folder) (items : fileItems) (e : Err)
    (h : checkFileCount fd items = some e) : e = .cannotAcceptMoreFiles := by
  unfold checkFileCount at h
  split at h
  · split at h <;> simp_all
  · simp at h

theorem checkTotalSize_some (fd : folder) (items : fileItems) (fsize : Nat) (e : Err)
    (h : checkTotalSize fd items fsize = some e) :
    ∃ mts, fd.MaxTotalSize = some mts ∧ mts < u64add (fileItems.Size items) fsize ∧ 0 < mts ∧
      e = .totalExceeded fsize (u64sub mts (fileItems.Size items)) := by
  unfold checkTotalSize at h
  split at h
  · next mts hm =>
    split at h
    · next hc => exact ⟨mts, hm, hc.1, hc.2, by simpa using h.symm⟩
    · simp at h
  · simp at h

theorem Items_length_append (u : fileUploads) (up : fileUpload) (n : String) :
    (fileUploads.Items (u ++ [up]) n).length =
      (fileUploads.Items u n).length + (if up.Folder = n then 1 else 0) := by
  unfold fileUploads.Items
  by_cases h : up.Folder = n <;> simp [List.filter_append, List.filter_cons, h]

theorem Items_length_filter_le (u : fileUploads) (p : fileUpload → Bool) (n : String) :
    (fileUploads.Items (u.filter p) n).length ≤ (fileUploads.Items u n).length := by
  unfold fileUploads.Items
  simp only [List.length_map]
  exact (List.Sublist.filter _ (List.filter_sublist u)).length_le

theorem UpdateNewer_Items_length (u : fileUploads) (ev : fileUpload) (n : String) :
    (fileUploads.Items (fileUploads.UpdateNewer u ev).1 n).length =
      (fileUploads.Items u n).length := by
  induction u with
  | nil => simp [fileUploads.UpdateNewer]
  | cons fd f ih =>
    unfold fileUploads.UpdateNewer
    split
    · next h =>
      simp only [fileUpload.sameKey, Bool.and_eq_true, decide_eq_true_eq] at h
      by_cases hf : ev.Folder = n <;> simp [fileUploads.Items, List.filter_cons, h.1.1, hf]
    · simp only [fileUploads.Items, List.length_map] at ih
      by_cases hf : fd.Folder = n <;> simp [fileUploads.Items, List.filter_cons, hf, ih]

theorem UpdateNewer_mem (u : fileUploads) (ev x : fileUpload)
    (hx : x ∈ (fileUploads.UpdateNewer u ev).1) : ∃ y ∈ u, y.Folder = x.Folder := by
  induction u with
  | nil => simp [fileUploads.UpdateNewer] at hx
  | cons fd f ih =>
    unfold fileUploads.UpdateNewer at hx
    split at hx
    · next h =>
      simp only [fileUpload.sameKey, Bool.and_eq_true, decide_eq_true_eq] at h
      rcases List.mem_cons.1 hx with rfl | hm
      · exact ⟨fd, List.mem_cons_self _ _, h.1.1⟩
      · exact ⟨x, List.mem_cons_of_mem _ hm, rfl⟩
    · rcases List.mem_cons.1 hx with rfl | hm
      · exact ⟨x, List.mem_cons_self _ _, rfl⟩
      · obtain ⟨y, hy, hyx⟩ := ih hm
        exact ⟨y, List.mem_cons_of_mem _ hy, hyx⟩

theorem Has_eq_isSome (t : torDropDB) (name : String) :
    folders.Has t.Folders name = (t.Folder name).isSome := by
  unfold torDropDB.Folder
  cases folders.Has t.Folders name <;> simp

theorem Items_nil_of_not_Has (t : torDropFileServer)
    (hA : ∀ up ∈ t.db.Uploads, folders.Has t.db.Folders up.Folder = true) (n : String)
    (hn : folders.Has t.db.Folders n = false) : fileUploads.Items t.db.Uploads n = [] := by
  unfold fileUploads.Items
  simp only [List.map_eq_nil_iff, List.filter_eq_nil_iff, decide_eq_true_eq]
  intro up hup hf
  have := hA up hup
  rw [hf, hn] at this
  exact Bool.noConfusion this

theorem UploadsInv_of_same (t t1 : torDropFileServer) (h : UploadsInv t)
    (hF : t1.db.Folders = t.db.Folders)
    (hmem : ∀ x ∈ t1.db.Uploads, ∃ y ∈ t.db.Uploads, y.Folder = x.Folder)
    (hlen : ∀ n, (fileUploads.Items t1.db.Uploads n).length ≤
        (fileUploads.Items t.db.Uploads n).length) : UploadsInv t1 := by
  refine ⟨?_, ?_⟩
  · intro up hup
    obtain ⟨y, hy, hyx⟩ := hmem up hup
    rw [hF, ← hyx]
    exact h.1 y hy
  · intro name fd c hfd hc hpos
    have hfd' : t.db.Folder name = some fd := by
      rw [Folder_eq_find] at hfd ⊢
      rw [← hF]; exact hfd
    have := h.2 name fd c hfd' hc hpos
    have := hlen name
    omega

theorem applyLimits_db (t : torDropFileServer) (fd : folder) : (t.applyLimits fd).db = t.db := by
  unfold torDropFileServer.applyLimits torDropFileServer.setDownloadLimit
    torDropFileServer.setUploadLimit
  cases fd.MaxDlBytesPerSec <;> cases fd.MaxUpBytesPerSec <;> rfl

theorem applyLimits_activeDownloads (t : torDropFileServer) (fd : folder) :
    (t.applyLimits fd).activeDownloads = t.activeDownloads := by
  unfold torDropFileServer.applyLimits torDropFileServer.setDownloadLimit
    torDropFileServer.setUploadLimit
  cases fd.MaxDlBytesPerSec <;> cases fd.MaxUpBytesPerSec <;> rfl

theorem CreateFolder_db (t : torDropFileServer) (now : Int) (saveOk : Bool) (fd : folder) :
    (t.CreateFolder now saveOk fd).2.db = t.db ∨
    (clean fd.Name ≠ "" ∧ folders.Has t.db.Folders (clean fd.Name) = false ∧
      (t.CreateFolder now saveOk fd).2.db =
        { t.db with Folders := t.db.Folders ++
            [{ fd with Name := clean fd.Name, CreateDate := now }] }) := by
  unfold torDropFileServer.CreateFolder torDropDB.CreateFolder
  by_cases h1 : clean fd.Name = ""
  · left; simp [h1]
  · by_cases h2 : folders.Has t.db.Folders (clean fd.Name) = true
    · left; simp [h1, h2]
    · right
      simp only [Bool.not_eq_true] at h2
      simp [h1, h2, applyLimits_db]

theorem UploadItem_cases (t : torDropFileServer) (now : Int) (folderName : String)
    (item : fileItem) :
    (t.UploadItem now folderName item).2 = t ∨
    (∃ fd, folderName ≠ "" ∧ t.db.Folder folderName = some fd ∧
      checkActiveDownloads t.db fd = none ∧
      (t.UploadItem now folderName item).2 =
        { t with db := { t.db with Uploads := t.db.Uploads ++
            [{ TmpFile := "", Folder := folderName, File := item, LastActive := now,
               Error := none }] } }) := by
  unfold torDropFileServer.UploadItem
  repeat' split
  all_goals first
    | (left; rfl)
    | (right; exact ⟨_, by assumption, by assumption, by assumption, rfl⟩)

theorem AddItem_frame (t : torDropDB) (folderName : String) (item : fileItem) :
    (t.AddItem folderName item).2.Folders = t.Folders ∧
    (t.AddItem folderName item).2.Uploads = t.Uploads := by
  unfold torDropDB.AddItem
  repeat' split
  all_goals exact ⟨rfl, rfl⟩

theorem handleUploadEvent_db (t : torDropFileServer) (renameOk saveOk : Bool)
    (ev : fileUpload) :
    (t.handleUploadEvent renameOk saveOk ev).2.db.Folders = t.db.Folders ∧
    ((t.handleUploadEvent renameOk saveOk ev).2.db.Uploads = fileUploads.Remove t.db.Uploads ev ∨
     (t.handleUploadEvent renameOk saveOk ev).2.db.Uploads =
        (fileUploads.UpdateNewer t.db.Uploads ev).1) := by
  have hA := AddItem_frame (t.db.CompleteUpload ev) ev.Folder ev.File
  rcases hadd : (t.db.CompleteUpload ev).AddItem ev.Folder ev.File with ⟨e, db⟩
  rw [hadd] at hA
  unfold torDropFileServer.handleUploadEvent
  dsimp only
  rw [hadd]
  cases e <;> dsimp only <;> repeat' split
  all_goals first
    | exact ⟨rfl, Or.inl rfl⟩
    | exact ⟨rfl, Or.inr rfl⟩
    | exact ⟨hA.1, Or.inl hA.2⟩

theorem updateTick_db (t : torDropFileServer) (now : Int) :
    (t.updateTick now).2.db.Folders = t.db.Folders ∧
    (t.updateTick now).2.db.Uploads =
      t.db.Uploads.filter (fun up => !decide (up.LastActive + stallLifetime < now)) := by
  exact ⟨rfl, rfl⟩

theorem OpenItem_db (t : torDropFileServer) (openOk : Bool) (folderName fileName : String) :
    (t.OpenItem openOk folderName fileName).2.db = t.db := by
  unfold torDropFileServer.OpenItem
  repeat' split
  all_goals rfl

theorem closeDownload_db (t : torDropFileServer) (fd : String) :
    (t.closeDownload fd).db = t.db := by
  unfold torDropFileServer.closeDownload
  simp only
  split <;> rfl

theorem find_append_singleton (l : folders) (fd : folder) (name : String) :
    (l ++ [fd]).find? (fun x => decide (x.Name = name)) =
      if folders.Has l name then l.find? (fun x => decide (x.Name = name))
      else if fd.Name = name then some fd else none := by
  induction l with
  | nil => simp [folders.Has, List.find?]; split <;> simp_all
  | cons a l ih =>
    by_cases ha : a.Name = name
    · simp [folders.Has, List.find?, ha]
    · simp only [folders.Has] at ih
      simp [folders.Has, List.find?, ha, ih]

theorem UploadsInv_step (t : torDropFileServer) (op : Op) (h : UploadsInv t) :
    UploadsInv (step t op) := by
  cases op with
  | createFolder fd now saveOk =>
    simp only [step]
    rcases CreateFolder_db t now saveOk fd with hdb | ⟨hne, hhas, hdb⟩
    · exact UploadsInv_of_same t _ h (by rw [hdb]) (fun x hx => ⟨x, by rw [← hdb]; exact hx, rfl⟩)
        (fun n => by rw [hdb])
    · refine ⟨?_, ?_⟩
      · intro up hup
        rw [hdb] at hup ⊢
        have := h.1 up hup
        simp only [folders.Has, List.any_append, Bool.or_eq_true] at this ⊢
        exact Or.inl this
      · intro name fd' c hfd hc hpos
        rw [Folder_eq_find, hdb] at hfd
        simp only [find_append_singleton] at hfd
        rw [hdb]
        by_cases hh : folders.Has t.db.Folders name = true
        · rw [if_pos hh, ← Folder_eq_find] at hfd
          exact h.2 name fd' c hfd hc hpos
        · simp only [Bool.not_eq_true] at hh
          rw [Items_nil_of_not_Has t h.1 name hh]
          simp only [List.length_nil, Nat.cast_zero]
          omega
  | uploadItem folderName item now =>
    simp only [step]
    rcases UploadItem_cases t now folderName item with hsame | ⟨fd, hne, hfd, hchk, heq⟩
    · rw [hsame]; exact h
    · rw [heq]
      refine ⟨?_, ?_⟩
      · intro up hup
        simp only [List.mem_append, List.mem_singleton] at hup
        rcases hup with hup | rfl
        · exact h.1 up hup
        · simp only [Has_eq_isSome, hfd, Option.isSome_some]
      · intro name fd' c hfd' hc hpos
        have hfd'' : t.db.Folder name = some fd' := by
          rw [Folder_eq_find] at hfd' ⊢; exact hfd'
        have hold := h.2 name fd' c hfd'' hc hpos
        simp only [Items_length_append]
        by_cases hn : folderName = name
        · subst hn
          rw [hfd] at hfd''
          cases hfd''
          have hname := Folder_name _ _ _ hfd
          unfold checkActiveDownloads at hchk
          simp only [hc, hname, torDropDB.UploadCount, hne, if_false] at hchk
          split at hchk
          · simp at hchk
          · next hcond =>
            simp only [if_true, Nat.cast_add, Nat.cast_one]
            simp only [not_and, not_le, ge_iff_le, gt_iff_lt] at hcond
            have := hcond hpos
            omega
        · simp only [if_neg hn, Nat.add_zero]
          exact hold
  | uploadEvent ev renameOk saveOk =>
    simp only [step]
    obtain ⟨hF, hU | hU⟩ := handleUploadEvent_db t renameOk saveOk ev
    · refine UploadsInv_of_same t _ h hF ?_ ?_
      · intro x hx
        rw [hU] at hx
        exact ⟨x, (List.mem_filter.1 hx).1, rfl⟩
      · intro n; rw [hU]; exact Items_length_filter_le _ _ _
    · refine UploadsInv_of_same t _ h hF ?_ ?_
      · intro x hx
        rw [hU] at hx
        exact UpdateNewer_mem _ _ _ hx
      · intro n; rw [hU, UpdateNewer_Items_length]
  | openItem folderName fileName openOk =>
    simp only [step]
    have hdb := OpenItem_db t openOk folderName fileName
    exact UploadsInv_of_same t _ h (by rw [hdb]) (fun x hx => ⟨x, by rw [← hdb]; exact hx, rfl⟩)
      (fun n => by rw [hdb])
  | closeDownload fd =>
    simp only [step]
    have hdb := closeDownload_db t fd
    exact UploadsInv_of_same t _ h (by rw [hdb]) (fun x hx => ⟨x, by rw [← hdb]; exact hx, rfl⟩)
      (fun n => by rw [hdb])
  | updateTick now =>
    simp only [step]
    obtain ⟨hF, hU⟩ := updateTick_db t now
    refine UploadsInv_of_same t _ h hF ?_ ?_
    · intro x hx
      rw [hU] at hx
      exact ⟨x, (List.mem_filter.1 hx).1, rfl⟩
    · intro n; rw [hU]; exact Items_length_filter_le _ _ _

theorem UploadsInv_run (ops : List Op) (t : torDropFileServer) (h : UploadsInv t) :
    UploadsInv (run t ops) := by
  induction ops generalizing t with
  | nil => exact h
  | cons op ops ih => exact ih (step t op) (UploadsInv_step t op h)

theorem UploadsInv_of_no_uploads (t : torDropFileServer) (h : t.db.Uploads = []) :
    UploadsInv t := by
  refine ⟨?_, ?_⟩
  · intro up hup; rw [h] at hup; exact absurd hup (List.not_mem_nil _)
  · intro name fd c _ _ hpos
    rw [h]
    simp only [fileUploads.Items, List.filter_nil, List.map_nil, List.length_nil, Nat.cast_zero]
    omega

theorem Has_append (x y : fileItems) (name : String) :
    fileItems.Has (x ++ y) name = (fileItems.Has x name || fileItems.Has y name) := by
  simp [fileItems.Has, List.any_append]

theorem uploads_Items_Has (u : fileUploads) (folderName name : String) :
    fileItems.Has (fileUploads.Items u folderName) name = fileUploads.Has u folderName name := by
  induction u with
  | nil => rfl
  | cons a u ih =>
    simp only [fileItems.Has, fileUploads.Items, fileUploads.Has] at ih ⊢
    by_cases h : a.Folder = folderName
    · simp [List.filter_cons, h, fileUpload.sameKey, ih]
    · simp [List.filter_cons, h, fileUpload.sameKey, ih]

/-- When the `Items` map has an entry for the folder, `UploadItem` refuses a
name that a completed item or an upload in flight already has: the path that
the entry-less folder of `C1_inflight_duplicate_admitted` misses. -/
theorem UploadItem_duplicate_of_entry (t : torDropFileServer) (now : Int)
    (folderName : String) (item : fileItem) (fd : folder) (x : fileItems)
    (hfn : folderName ≠ "") (hin : item.Name ≠ "") (hsz : 1 ≤ item.Size)
    (hfd : t.db.Folder folderName = some fd)
    (hconc : checkActiveDownloads t.db fd = none)
    (hx : mapGet t.db.Items folderName = some x)
    (hdup : fileItems.Has x item.Name = true ∨
      fileUploads.Has t.db.Uploads folderName item.Name = true) :
    t.UploadItem now folderName item = (some (.alreadyExistsOrUploading item.Name), t) := by
  have hsz' : ¬ item.Size < 1 := by omega
  have hg : t.db.GetItems folderName true =
      (x ++ fileUploads.Items t.db.Uploads folderName, none) := by
    simp [torDropDB.GetItems, hx]
  have hhas : fileItems.Has (x ++ fileUploads.Items t.db.Uploads folderName) item.Name = true := by
    rw [Has_append, uploads_Items_Has]
    rcases hdup with h | h <;> simp [h]
  unfold torDropFileServer.UploadItem
  simp [hfn, hin, hsz', hfd, hconc, hg, hhas]

theorem mapGet_mapSet {α : Type} (m : List (String × α)) (k k1 : String) (v : α) :
    mapGet (mapSet m k v) k1 = if k = k1 then some v else mapGet m k1 := by
  induction m with
  | nil => simp [mapSet, mapGet]
  | cons a m ih =>
    obtain ⟨k', v'⟩ := a
    unfold mapSet
    by_cases h : k' = k
    · rw [if_pos h]
      unfold mapGet
      by_cases h1 : k = k1
      · simp [h1]
      · have : ¬ k' = k1 := fun e => h1 (h ▸ e)
        simp [h1, this]
    · rw [if_neg h]
      unfold mapGet
      by_cases h2 : k' = k1
      · have : ¬ k = k1 := fun e => h (h2.trans e.symm)
        simp [h2, this]
      · simp [h2, ih]

theorem CreateFolder_activeDownloads (t : torDropFileServer) (now : Int) (saveOk : Bool)
    (fd : folder) : (t.CreateFolder now saveOk fd).2.activeDownloads = t.activeDownloads := by
  unfold torDropFileServer.CreateFolder
  split
  · rfl
  · simp [applyLimits_activeDownloads]

theorem UploadItem_frame (t : torDropFileServer) (now : Int) (folderName : String)
    (item : fileItem) :
    (t.UploadItem now folderName item).2.activeDownloads = t.activeDownloads ∧
    (t.UploadItem now folderName item).2.db.Folders = t.db.Folders := by
  rcases UploadItem_cases t now folderName item with h | ⟨fd, -, -, -, h⟩ <;> rw [h] <;>
    exact ⟨rfl, rfl⟩

theorem handleUploadEvent_activeDownloads (t : torDropFileServer) (renameOk saveOk : Bool)
    (ev : fileUpload) :
    (t.handleUploadEvent renameOk saveOk ev).2.activeDownloads = t.activeDownloads := by
  unfold torDropFileServer.handleUploadEvent
  dsimp only
  repeat' split
  all_goals rfl

theorem OpenItem_cases (t : torDropFileServer) (openOk : Bool) (folderName fileName : String) :
    (t.OpenItem openOk folderName fileName).2 = t ∨
    (∃ fd, t.db.Folder folderName = some fd ∧ checkActiveUploads t fd = none ∧
      (t.OpenItem openOk folderName fileName).2 =
        { db := t.db, folderUploadManagers := t.folderUploadManagers,
          folderDownloadManagers := t.folderDownloadManagers,
          activeDownloads :=
            mapSet t.activeDownloads fd.Name ((mapGet t.activeDownloads fd.Name).getD 0 + 1) }) := by
  unfold torDropFileServer.OpenItem
  repeat' split
  all_goals first
    | (left; rfl)
    | (right; exact ⟨_, by assumption, by assumption, rfl⟩)

theorem DownloadsInv_of_same (t t1 : torDropFileServer) (h : DownloadsInv t)
    (hF : t1.db.Folders = t.db.Folders) (hA : t1.activeDownloads = t.activeDownloads) :
    DownloadsInv t1 := by
  refine ⟨?_, ?_, ?_⟩
  · intro name; rw [hA]; exact h.1 name
  · intro name hn; rw [hA]; rw [hF] at hn; exact h.2.1 name hn
  · intro name fd c hfd hc hpos
    rw [hA]
    have hfd' : t.db.Folder name = some fd := by
      rw [Folder_eq_find] at hfd ⊢
      rw [← hF]; exact hfd
    exact h.2.2 name fd c hfd' hc hpos

theorem DownloadsInv_step (t : torDropFileServer) (op : Op) (h : DownloadsInv t) :
    DownloadsInv (step t op) := by
  cases op with
  | createFolder fd now saveOk =>
    simp only [step]
    have hA := CreateFolder_activeDownloads t now saveOk fd
    rcases CreateFolder_db t now saveOk fd with hdb | ⟨hne, hhas, hdb⟩
    · exact DownloadsInv_of_same t _ h (by rw [hdb]) hA
    · refine ⟨?_, ?_, ?_⟩
      · intro name; rw [hA]; exact h.1 name
      · intro name hn
        rw [hA]
        rw [hdb] at hn
        simp only [folders.Has, List.any_append, Bool.or_eq_false_iff] at hn
        exact h.2.1 name hn.1
      · intro name fd' c hfd hc hpos
        rw [hA]
        rw [Folder_eq_find, hdb] at hfd
        simp only [find_append_singleton] at hfd
        by_cases hh : folders.Has t.db.Folders name = true
        · rw [if_pos hh, ← Folder_eq_find] at hfd
          exact h.2.2 name fd' c hfd hc hpos
        · simp only [Bool.not_eq_true] at hh
          rw [h.2.1 name hh]
          omega
  | uploadItem folderName item now =>
    simp only [step]
    obtain ⟨hA, hF⟩ := UploadItem_frame t now folderName item
    exact DownloadsInv_of_same t _ h hF hA
  | uploadEvent ev renameOk saveOk =>
    simp only [step]
    exact DownloadsInv_of_same t _ h (handleUploadEvent_db t renameOk saveOk ev).1
      (handleUploadEvent_activeDownloads t renameOk saveOk ev)
  | openItem folderName fileName openOk =>
    simp only [step]
    rcases OpenItem_cases t openOk folderName fileName with hsame | ⟨fd, hfd, hchk, heq⟩
    · rw [hsame]; exact h
    · rw [heq]
      have hname := Folder_name _ _ _ hfd
      rw [hname]
      refine ⟨?_, ?_, ?_⟩
      · intro name
        simp only [mapGet_mapSet]
        have h1 := h.1 name
        have h2 := h.1 folderName
        split
        · simp only [Option.getD_some]; omega
        · exact h1
      · intro name hn
        simp only [mapGet_mapSet]
        split
        · next he =>
          subst he
          rw [Has_eq_isSome] at hn
          simp [hfd] at hn
        · exact h.2.1 name hn
      · intro name fd' c hfd' hc hpos
        simp only [mapGet_mapSet]
        split
        · next he =>
          subst he
          have hfd'' : t.db.Folder folderName = some fd' := hfd'
          rw [hfd] at hfd''
          cases hfd''
          unfold checkActiveUploads at hchk
          simp only [hc, hname] at hchk
          split at hchk
          · simp at hchk
          · next hcond =>
            simp only [not_and, not_le, ge_iff_le, gt_iff_lt] at hcond
            have := hcond hpos
            simp only [Option.getD_some]
            omega
        · exact h.2.2 name fd' c hfd' hc hpos
  | closeDownload fd =>
    simp only [step]
    unfold torDropFileServer.closeDownload
    simp only
    split
    · next hpos =>
      refine ⟨?_, ?_, ?_⟩
      · intro name
        simp only [mapGet_mapSet]
        split
        · simp only [Option.getD_some]; omega
        · exact h.1 name
      · intro name hn
        simp only [mapGet_mapSet]
        split
        · next he =>
          subst he
          have := h.2.1 fd hn
          omega
        · exact h.2.1 name hn
      · intro name fd' c hfd' hc hc0
        simp only [mapGet_mapSet]
        split
        · next he =>
          subst he
          have := h.2.2 fd fd' c hfd' hc hc0
          simp only [Option.getD_some]
          omega
        · exact h.2.2 name fd' c hfd' hc hc0
    · exact h
  | updateTick now =>
    simp only [step]
    exact DownloadsInv_of_same t _ h (updateTick_db t now).1 rfl

theorem DownloadsInv_run (ops : List Op) (t : torDropFileServer) (h : DownloadsInv t) :
    DownloadsInv (run t ops) := by
  induction ops generalizing t with
  | nil => exact h
  | cons op ops ih => exact ih (step t op) (DownloadsInv_step t op h)

theorem DownloadsInv_new : DownloadsInv newFileServer := by
  refine ⟨?_, ?_, ?_⟩
  · intro name; simp [newFileServer, mapGet]
  · intro name _; simp [newFileServer, mapGet]
  · intro name fd c hfd; simp [newFileServer, torDropDB.Folder, folders.Has] at hfd

/-- The part of claim C8 that the code keeps: along every run from the empty
registry the counter of a folder with `MaxActiveUploads = c > 0` stays
between 0 and `c`; `OpenItem` goes past the cap check only with a counter
below `c`; a close lowers a positive counter by exactly one and leaves a
counter of 0 alone. -/
theorem activeDownloads_bounds :
    (∀ (ops : List Op) (name : String) (fd : folder) (c : Int),
        (run newFileServer ops).db.Folder name = some fd →
        fd.MaxActiveUploads = some c → 0 < c →
        0 ≤ (mapGet (run newFileServer ops).activeDownloads name).getD 0 ∧
        (mapGet (run newFileServer ops).activeDownloads name).getD 0 ≤ c) ∧
    (∀ (t : torDropFileServer) (openOk : Bool) (folderName fileName : String) (fd : folder)
        (c : Int), t.db.Folder folderName = some fd → fd.MaxActiveUploads = some c → 0 < c →
        (t.OpenItem openOk folderName fileName).1 = none →
        (mapGet t.activeDownloads folderName).getD 0 < c) ∧
    (∀ (t : torDropFileServer) (name : String),
        (mapGet (t.closeDownload name).activeDownloads name).getD 0 =
          (if 0 < (mapGet t.activeDownloads name).getD 0
            then (mapGet t.activeDownloads name).getD 0 - 1
            else (mapGet t.activeDownloads name).getD 0)) := by
  refine ⟨?_, ?_, ?_⟩
  · intro ops name fd c hfd hc hpos
    have h := DownloadsInv_run ops newFileServer DownloadsInv_new
    exact ⟨h.1 name, h.2.2 name fd c hfd hc hpos⟩
  · intro t openOk folderName fileName fd c hfd hc hpos hres
    have hname := Folder_name _ _ _ hfd
    by_contra hge
    have hchk : checkActiveUploads t fd = some .maxActiveUploadsExceeded := by
      unfold checkActiveUploads
      simp only [hc, hname]
      rw [if_pos ⟨hpos, by omega⟩]
    unfold torDropFileServer.OpenItem at hres
    simp only [hfd, hchk] at hres
    revert hres
    repeat' split
    all_goals simp
  · intro t name
    unfold torDropFileServer.closeDownload
    simp only
    by_cases hpos : 0 < (mapGet t.activeDownloads name).getD 0
    · simp [hpos, mapGet_mapSet]
    · simp [hpos]

theorem OpenItem_true_cases (t : torDropFileServer) (folderName fileName : String) :
    ((t.OpenItem true folderName fileName).1 ≠ none ∧
      (t.OpenItem true folderName fileName).2 = t) ∨
    ((t.OpenItem true folderName fileName).1 = none ∧
      (t.OpenItem true folderName fileName).2.activeDownloads =
        mapSet t.activeDownloads folderName
          ((mapGet t.activeDownloads folderName).getD 0 + 1)) := by
  unfold torDropFileServer.OpenItem
  simp only [if_true]
  repeat' split
  all_goals first
    | (left; exact ⟨by simp, rfl⟩)
    | (right
       have hn := Folder_name _ _ _ (by assumption)
       simp [hn])

theorem GetItem_error (t : torDropDB) (folderName name : String) (e : Err)
    (h : t.GetItem folderName name = .error e) :
    e = .folderNotFound folderName ∨ e = .fileNotFound name folderName := by
  unfold torDropDB.GetItem at h
  split at h
  · left; cases h; rfl
  · split at h
    · right; cases h; rfl
    · cases h

theorem counter_openStreams (name : String) (ops : List Op) :
    ∀ (t : torDropFileServer) (k k1 : Nat), noFailedOpen ops = true →
      (mapGet t.activeDownloads name).getD 0 = (k : Int) →
      openStreams name t ops k = some k1 →
      (mapGet (run t ops).activeDownloads name).getD 0 = (k1 : Int) := by
  induction ops with
  | nil =>
    intro t k k1 _ hk hs
    simp only [openStreams, Option.some.injEq] at hs
    subst hs
    exact hk
  | cons op ops ih =>
    intro t k k1 hno hk hs
    have hno' : noFailedOpen ops = true := by
      simp only [noFailedOpen, List.all_cons, Bool.and_eq_true] at hno ⊢
      exact hno.2
    show (mapGet (run (step t op) ops).activeDownloads name).getD 0 = (k1 : Int)
    cases op with
    | createFolder fd now saveOk =>
      simp only [openStreams] at hs
      refine ih _ k k1 hno' ?_ hs
      simp only [step, CreateFolder_activeDownloads]; exact hk
    | uploadItem folderName item now =>
      simp only [openStreams] at hs
      refine ih _ k k1 hno' ?_ hs
      simp only [step, (UploadItem_frame t now folderName item).1]; exact hk
    | uploadEvent ev renameOk saveOk =>
      simp only [openStreams] at hs
      refine ih _ k k1 hno' ?_ hs
      simp only [step, handleUploadEvent_activeDownloads]; exact hk
    | updateTick now =>
      simp only [openStreams] at hs
      refine ih _ k k1 hno' ?_ hs
      exact hk
    | openItem folderName fileName openOk =>
      have hok : openOk = true := by
        simp only [noFailedOpen, List.all_cons, Bool.and_eq_true] at hno
        exact hno.1
      subst hok
      simp only [openStreams] at hs
      rcases OpenItem_true_cases t folderName fileName with ⟨hne, hsame⟩ | ⟨hnone, hact⟩
      · rw [if_neg (fun h => hne h.2)] at hs
        refine ih _ k k1 hno' ?_ hs
        simp only [step, hsame]; exact hk
      · by_cases hf : folderName = name
        · rw [if_pos ⟨hf, hnone⟩] at hs
          refine ih _ (k + 1) k1 hno' ?_ hs
          subst hf
          simp only [step, hact, mapGet_mapSet, if_true, Option.getD_some, hk]
          push_cast
          rfl
        · rw [if_neg (fun h => hf h.1)] at hs
          refine ih _ k k1 hno' ?_ hs
          simp only [step, hact, mapGet_mapSet, if_neg hf]; exact hk
    | closeDownload fd =>
      simp only [openStreams] at hs
      by_cases hf : fd = name
      · rw [if_pos hf] at hs
        by_cases hk0 : k = 0
        · rw [if_pos hk0] at hs; exact absurd hs (by simp)
        · rw [if_neg hk0] at hs
          refine ih _ (k - 1) k1 hno' ?_ hs
          subst hf
          have hpos : (mapGet t.activeDownloads fd).getD 0 > 0 := by omega
          simp only [step, torDropFileServer.closeDownload, hpos, if_true, mapGet_mapSet,
            Option.getD_some]
          omega
      · rw [if_neg hf] at hs
        refine ih _ k k1 hno' ?_ hs
        simp only [step, torDropFileServer.closeDownload]
        split
        · simp only [mapGet_mapSet, if_neg hf]; exact hk
        · exact hk

/-- The last part of claim C8 under the assumption that no `os.Open` fails:
after a run from the empty registry in which streams of folder `name` are
closed only while one is open, once all are closed (`openStreams` is 0) the
counter of the folder is 0 and `OpenItem` on a folder with a positive cap is
not refused for concurrency. -/
theorem open_after_all_closed (ops : List Op) (name fileName : String) (openOk : Bool)
    (fd : folder) (c : Int) (hno : noFailedOpen ops = true)
    (hs : openStreams name newFileServer ops 0 = some 0)
    (hfd : (run newFileServer ops).db.Folder name = some fd)
    (hc : fd.MaxActiveUploads = some c) (hpos : 0 < c) :
    (mapGet (run newFileServer ops).activeDownloads name).getD 0 = 0 ∧
    ((run newFileServer ops).OpenItem openOk name fileName).1 ≠
      some .maxActiveUploadsExceeded := by
  have h0 := counter_openStreams name ops newFileServer 0 0 hno (by simp [newFileServer, mapGet]) hs
  simp only [Nat.cast_zero] at h0
  refine ⟨h0, ?_⟩
  have hname := Folder_name _ _ _ hfd
  have hchk : checkActiveUploads (run newFileServer ops) fd = none := by
    unfold checkActiveUploads
    simp only [hc, hname, h0]
    rw [if_neg (by omega)]
  unfold torDropFileServer.OpenItem
  simp only [hfd, hchk]
  split
  · simp
  · split
    · simp
    · split
      · next e he => rcases GetItem_error _ _ _ _ he with h | h <;> simp [h]
      · cases openOk <;> simp

theorem foldl_u64add (items : fileItems) (a : Nat)
    (h : a + (items.map (fun i => i.Size)).sum < u64) :
    items.foldl (fun curSize i => u64add curSize i.Size) a =
      a + (items.map (fun i => i.Size)).sum := by
  induction items generalizing a with
  | nil => simp
  | cons i items ih =>
    simp only [List.map_cons, List.sum_cons] at h
    have h1 : u64add a i.Size = a + i.Size := by
      unfold u64add
      exact Nat.mod_eq_of_lt (by omega)
    simp only [List.foldl_cons, List.map_cons, List.sum_cons, h1]
    rw [ih (a + i.Size) (by omega)]
    omega

theorem Size_eq_sum (items : fileItems) (h : (items.map (fun i => i.Size)).sum < u64) :
    fileItems.Size items = (items.map (fun i => i.Size)).sum := by
  unfold fileItems.Size
  rw [foldl_u64add items 0 (by omega)]
  omega

/-- The total-size check of `UploadItem` where `uint64` arithmetic does not
wrap (the cap fits `uint64`, the sizes `T` of the items are within the cap
and `T + s` fits `uint64`): the upload is refused exactly when `T + s > c`,
and the refusal reports `c - T` bytes as available. This is the part of
claim C4 that the code keeps. -/
theorem checkTotalSize_exact (fd : folder) (items : fileItems) (s c : Nat)
    (hc : fd.MaxTotalSize = some c) (hpos : 0 < c) (hcap : c < u64)
    (hT : (items.map (fun i => i.Size)).sum ≤ c)
    (hs : (items.map (fun i => i.Size)).sum + s < u64) :
    (c < (items.map (fun i => i.Size)).sum + s →
      checkTotalSize fd items s =
        some (.totalExceeded s (c - (items.map (fun i => i.Size)).sum))) ∧
    ((items.map (fun i => i.Size)).sum + s ≤ c → checkTotalSize fd items s = none) := by
  have hsize := Size_eq_sum items (by omega)
  have hadd : u64add (fileItems.Size items) s = (items.map (fun i => i.Size)).sum + s := by
    unfold u64add
    rw [hsize]
    exact Nat.mod_eq_of_lt hs
  have hsub : u64sub c (fileItems.Size items) = c - (items.map (fun i => i.Size)).sum := by
    unfold u64sub
    rw [hsize, Nat.mod_eq_of_lt hcap, Nat.mod_eq_of_lt (lt_of_le_of_lt hT hcap)]
    have h1 : c + (u64 - (items.map (fun i => i.Size)).sum) =
        (c - (items.map (fun i => i.Size)).sum) + u64 := by omega
    rw [h1, Nat.add_mod_right]
    exact Nat.mod_eq_of_lt (by omega)
  constructor
  · intro h
    unfold checkTotalSize
    simp only [hc, hadd, hsub]
    rw [if_pos ⟨h, hpos⟩]
  · intro h
    unfold checkTotalSize
    simp only [hc, hadd]
    rw [if_neg (by omega)]

/-- What an admission by `UploadItem` implies when the `Items` map has an
entry `x` for the folder: the completed items, the uploads in flight and the
new item together are within a positive `MaxFileCount`, and (where the
`uint64` sum does not wrap) their sizes are within a positive `MaxTotalSize`.
The entry-less folder of `C2_count_cap_exceeded` and `C3_total_cap_exceeded`
misses both. -/
theorem UploadItem_caps_of_entry (t : torDropFileServer) (now : Int) (folderName : String)
    (item : fileItem) (fd : folder) (x : fileItems)
    (hfd : t.db.Folder folderName = some fd)
    (hx : mapGet t.db.Items folderName = some x)
    (hadm : (t.UploadItem now folderName item).1 = none) :
    (∀ c, fd.MaxFileCount = some c → 0 < c →
        x.length + (fileUploads.Items t.db.Uploads folderName).length + 1 ≤ c) ∧
    (∀ c, fd.MaxTotalSize = some c → 0 < c →
        ((x ++ fileUploads.Items t.db.Uploads folderName).map (fun i => i.Size)).sum
          + item.Size < u64 →
        ((x ++ fileUploads.Items t.db.Uploads folderName).map (fun i => i.Size)).sum
          + item.Size ≤ c) := by
  have hg : t.db.GetItems folderName true =
      (x ++ fileUploads.Items t.db.Uploads folderName, none) := by
    simp [torDropDB.GetItems, hx]
  unfold torDropFileServer.UploadItem at hadm
  simp only [hfd, hg] at hadm
  have hcount : checkFileCount fd (x ++ fileUploads.Items t.db.Uploads folderName) = none := by
    revert hadm
    repeat' split
    all_goals simp_all
  have htotal : checkTotalSize fd (x ++ fileUploads.Items t.db.Uploads folderName) item.Size
      = none := by
    revert hadm
    repeat' split
    all_goals simp_all
  constructor
  · intro c hc hpos
    unfold checkFileCount at hcount
    simp only [hc] at hcount
    split at hcount
    · simp at hcount
    · next hcond =>
      simp only [not_and, not_lt, gt_iff_lt, List.length_append] at hcond
      by_contra hlt
      have := hcond (by omega)
      omega
  · intro c hc hpos hfit
    have hsize := Size_eq_sum (x ++ fileUploads.Items t.db.Uploads folderName) (by omega)
    unfold checkTotalSize at htotal
    simp only [hc, hsize] at htotal
    have hadd : u64add ((x ++ fileUploads.Items t.db.Uploads folderName).map
        (fun i => i.Size)).sum item.Size =
        ((x ++ fileUploads.Items t.db.Uploads folderName).map (fun i => i.Size)).sum
          + item.Size := by
      unfold u64add
      exact Nat.mod_eq_of_lt hfit
    rw [hadd] at htotal
    split at htotal
    · simp at htotal
    · next hcond =>
      simp only [not_and, not_lt, gt_iff_lt] at hcond
      by_contra hlt
      have := hcond (by omega)
      omega

theorem mapSet_append_of_not_mem {α : Type} (m : List (String × α)) (k : String) (v : α)
    (h : k ∉ m.map (fun kv => kv.1)) : mapSet m k v = m ++ [(k, v)] := by
  induction m with
  | nil => rfl
  | cons a m ih =>
    obtain ⟨k', v'⟩ := a
    simp only [List.map_cons, List.mem_cons, not_or] at h
    have hk : ¬ k' = k := fun e => h.1 e.symm
    simp [mapSet, hk, ih h.2]

/-! ## The scenarios of the tests, on the model -/

/-- The run of `TestMaxTotalSize` on the model: with a cap of 20 bytes, an
upload of 50 bytes is refused with 20 bytes available, two uploads of 10
bytes are admitted and complete, and a third is refused with 0 bytes
available. -/
theorem scenario_total_size :
    ((run newFileServer [.createFolder { exFolder with MaxTotalSize := some 20 } 1 true]).UploadItem
        2 "f" (exItem "file1.txt" 50)).1 = some (.totalExceeded 50 20) ∧
    ((run newFileServer [.createFolder { exFolder with MaxTotalSize := some 20 } 1 true,
        .uploadItem "f" (exItem "file2.txt" 10) 2, .uploadEvent (exDone "file2.txt" 10) true true,
        .uploadItem "f" (exItem "file3.txt" 10) 3,
        .uploadEvent (exDone "file3.txt" 10) true true]).UploadItem
        4 "f" (exItem "file4.txt" 10)).1 = some (.totalExceeded 10 0) ∧
    ((mapGet (run newFileServer [.createFolder { exFolder with MaxTotalSize := some 20 } 1 true,
        .uploadItem "f" (exItem "file2.txt" 10) 2, .uploadEvent (exDone "file2.txt" 10) true true,
        .uploadItem "f" (exItem "file3.txt" 10) 3,
        .uploadEvent (exDone "file3.txt" 10) true true]).db.Items "f").getD []).map
      (fun i => i.Name) = ["file2.txt", "file3.txt"] := by
  decide

/-- The run of `TestMaxFileCount` on the model: with a cap of 2 files, two
uploads one after the other are admitted and complete, the third is refused. -/
theorem scenario_file_count :
    ((run newFileServer [.createFolder { exFolder with MaxFileCount := some 2 } 1 true,
        .uploadItem "f" (exItem "file1.txt" 5) 2, .uploadEvent (exDone "file1.txt" 5) true true,
        .uploadItem "f" (exItem "file2.txt" 500) 3,
        .uploadEvent (exDone "file2.txt" 500) true true]).UploadItem
        4 "f" (exItem "file3.txt" 500)).1 = some .cannotAcceptMoreFiles := by
  decide

/-! ## Admission of uploads -/

/-- Claim C1, evaluated on the code at the input that breaks it. The folder
`f` was just created and holds the in-flight upload `a`; a second
`UploadItem` of the name `a` is admitted instead of being rejected as a
duplicate, and the uploads of `f` then hold the name `a` twice. -/
theorem C1_inflight_duplicate_admitted :
    fileUploads.Has (run newFileServer (traceFirstUpload exFolder)).db.Uploads "f" "a" = true ∧
    ((run newFileServer (traceFirstUpload exFolder)).UploadItem 3 "f" (exItem "a" 15)).1 = none ∧
    (fileUploads.Items
        ((run newFileServer (traceFirstUpload exFolder)).UploadItem 3 "f"
          (exItem "a" 15)).2.db.Uploads "f").map (fun i => i.Name) = ["a", "a"] := by
  decide

/-- Claim C2, evaluated on the code at the input that breaks it. The folder
`f` is created with `MaxFileCount = 1` and holds one in-flight upload; the
`UploadItem` of a second item is admitted instead of being rejected with the
count error, and once both uploads completed the folder holds two items. -/
theorem C2_count_cap_exceeded :
    ((run newFileServer (traceFirstUpload { exFolder with MaxFileCount := some 1 })).UploadItem 3
        "f" (exItem "b" 15)).1 = none ∧
    ((mapGet (run newFileServer
        (traceTwoUploads { exFolder with MaxFileCount := some 1 })).db.Items "f").getD []).length
      + (fileUploads.Items (run newFileServer
        (traceTwoUploads { exFolder with MaxFileCount := some 1 })).db.Uploads "f").length = 2 := by
  decide

/-- Claim C3, evaluated on the code at the input that breaks it. The folder
`f` is created with `MaxTotalSize = 20`; two uploads of 15 bytes are admitted
while both are in flight, and after both completed the completed items of `f`
sum to 30 bytes. -/
theorem C3_total_cap_exceeded :
    (((mapGet (run newFileServer
        (traceTwoUploads { exFolder with MaxTotalSize := some 20 })).db.Items "f").getD []).map
      (fun i => i.Size)).sum = 30 := by
  decide

/-- Claim C4, evaluated on the code at the inputs that break it. With a cap
of 20 bytes and items of 30 bytes in the folder, the rejection reports
`2 ^ 64 - 10` bytes as available, more than the cap; with items of 10 bytes
in the folder, an item of `2 ^ 64 - 5` bytes is admitted although the exact
sum exceeds the cap. -/
theorem C4_total_check_wraps :
    ((exServer { exFolder with MaxTotalSize := some 20 }
        [exItem "a" 15, exItem "b" 15]).UploadItem 3 "f" (exItem "c" 1)).1
      = some (.totalExceeded 1 18446744073709551606) ∧
    ((exServer { exFolder with MaxTotalSize := some 20 }
        [exItem "a" 10]).UploadItem 3 "f" (exItem "c" 18446744073709551611)).1 = none := by
  decide

/-- Claim C5. For an upload that passes the checks before the size check
(names not empty, size at least 1, folder found, write-side cap not reached,
name not taken): when the folder has `MaxFileSize = c > 0` and the item is
larger than `c`, `UploadItem` replies the too-large error carrying `c` and
leaves the server unchanged; when `MaxFileSize` is absent, or 0, or at least
the size of the item, the reply is not a too-large error. -/
theorem UploadItem_too_large (t : torDropFileServer) (now : Int) (folderName : String)
    (item : fileItem) (fd : folder)
    (hfn : folderName ≠ "") (hin : item.Name ≠ "") (hsz : 1 ≤ item.Size)
    (hfd : t.db.Folder folderName = some fd)
    (hconc : checkActiveDownloads t.db fd = none)
    (hdup : fileItems.Has (t.db.GetItems folderName true).1 item.Name = false) :
    (∀ c, fd.MaxFileSize = some c → 0 < c → c < item.Size →
        t.UploadItem now folderName item = (some (.tooLarge c), t)) ∧
    ((fd.MaxFileSize = none ∨ fd.MaxFileSize = some 0 ∨
        ∃ c, fd.MaxFileSize = some c ∧ item.Size ≤ c) →
        ∀ c, (t.UploadItem now folderName item).1 ≠ some (.tooLarge c)) := by
  have hsz' : ¬ item.Size < 1 := by omega
  have hsnd := GetItems_snd t.db folderName true
  rcases hgi : t.db.GetItems folderName true with ⟨items, e⟩
  rw [hgi] at hsnd hdup
  simp only at hsnd hdup
  subst hsnd
  constructor
  · intro c hc hpos hlt
    unfold torDropFileServer.UploadItem
    simp [hfn, hin, hsz', hfd, hconc, hgi, hdup, checkFileSize, hc, hpos, hlt]
  · intro hcase c
    have hfs : checkFileSize fd item.Size = none := by
      unfold checkFileSize
      rcases hcase with h | h | ⟨c', h, hle⟩
      · simp [h]
      · simp [h]
      · simp [h]; omega
    unfold torDropFileServer.UploadItem
    simp only [hfn, hin, hsz', hfd, hconc, hgi, hdup, hfs, if_false]
    cases h1 : checkFileCount fd items with
    | some e1 => simp [checkFileCount_some _ _ _ h1]
    | none =>
      cases h2 : checkTotalSize fd items item.Size with
      | some e2 =>
        obtain ⟨mts, -, -, -, he⟩ := checkTotalSize_some _ _ _ _ h2
        simp [he]
      | none => simp

/-- Scenario 1 of the specification as an instance of `UploadItem_too_large`:
with `MaxFileSize = 250`, an item of 800 bytes is refused with the cap 250. -/
theorem UploadItem_too_large_witness :
    (exServer { exFolder with MaxFileSize := some 250 } []).UploadItem 3 "f"
        (exItem "toolarge.txt" 800)
      = (some (.tooLarge 250), exServer { exFolder with MaxFileSize := some 250 } []) :=
  (UploadItem_too_large (exServer { exFolder with MaxFileSize := some 250 } []) 3 "f"
    (exItem "toolarge.txt" 800) { exFolder with MaxFileSize := some 250 }
    (by decide) (by decide) (by decide) (by decide) (by decide) (by decide)).1 250
    (by decide) (by decide) (by decide)

/-- Claim C6. `UploadItem` is atomic at admission: when it replies an
error the server state is the one before the call; when it admits, the
uploads are the previous ones followed by one record for the folder name and
the item submitted, and folders, completed items and the active-download
counters are unchanged. -/
theorem UploadItem_atomic (t : torDropFileServer) (now : Int) (folderName : String)
    (item : fileItem) :
    (∀ e, (t.UploadItem now folderName item).1 = some e →
        (t.UploadItem now folderName item).2 = t) ∧
    ((t.UploadItem now folderName item).1 = none →
        (t.UploadItem now folderName item).2.db.Uploads =
          t.db.Uploads ++ [{ TmpFile := "", Folder := folderName, File := item,
                             LastActive := now, Error := none }] ∧
        (t.UploadItem now folderName item).2.db.Folders = t.db.Folders ∧
        (t.UploadItem now folderName item).2.db.Items = t.db.Items ∧
        (t.UploadItem now folderName item).2.activeDownloads = t.activeDownloads) := by
  unfold torDropFileServer.UploadItem
  constructor
  · intro e
    repeat' split
    all_goals simp
  · repeat' split
    all_goals simp

/-- Instances of `UploadItem_atomic`: a refused upload (the name is taken)
leaves the server as it was, an admitted one appends its record. -/
theorem UploadItem_atomic_witness :
    ((exServer exFolder [exItem "a" 15]).UploadItem 3 "f" (exItem "a" 7)).2
      = exServer exFolder [exItem "a" 15] ∧
    ((exServer exFolder [exItem "a" 15]).UploadItem 3 "f" (exItem "b" 7)).2.db.Uploads
      = [{ TmpFile := "", Folder := "f", File := exItem "b" 7, LastActive := 3,
           Error := none }] :=
  ⟨(UploadItem_atomic (exServer exFolder [exItem "a" 15]) 3 "f" (exItem "a" 7)).1
      (.alreadyExistsOrUploading "a") (by decide),
   ((UploadItem_atomic (exServer exFolder [exItem "a" 15]) 3 "f" (exItem "b" 7)).2
      (by decide)).1⟩

/-- The part of claim C7 that the code keeps. Along every run of the
serializer that starts without uploads (the empty registry, or a registry
just loaded) and in which folders are created but never updated or removed, a
folder whose `MaxActiveDownloads` is `c > 0` holds at most `c` in-flight
uploads; and for a well-formed request on such a folder (names not empty,
size at least 1) `UploadItem` replies the concurrency error exactly when the
folder already holds `c` or more in-flight uploads. -/
theorem upload_concurrency_cap :
    (∀ (t0 : torDropFileServer) (ops : List Op) (name : String) (fd : folder) (c : Int),
        t0.db.Uploads = [] →
        (run t0 ops).db.Folder name = some fd →
        fd.MaxActiveDownloads = some c → 0 < c →
        ((fileUploads.Items (run t0 ops).db.Uploads name).length : Int) ≤ c) ∧
    (∀ (t : torDropFileServer) (now : Int) (folderName : String) (item : fileItem)
        (fd : folder) (c : Int),
        folderName ≠ "" → item.Name ≠ "" → 1 ≤ item.Size →
        t.db.Folder folderName = some fd → fd.MaxActiveDownloads = some c → 0 < c →
        ((t.UploadItem now folderName item).1 = some .maxActiveDownloadsExceeded ↔
          c ≤ ((fileUploads.Items t.db.Uploads folderName).length : Int))) := by
  constructor
  · intro t0 ops name fd c h0 hfd hc hpos
    exact (UploadsInv_run ops t0 (UploadsInv_of_no_uploads t0 h0)).2 name fd c hfd hc hpos
  · intro t now folderName item fd c hfn hin hsz hfd hc hpos
    have hsz' : ¬ item.Size < 1 := by omega
    have hname := Folder_name _ _ _ hfd
    have hsnd := GetItems_snd t.db folderName true
    rcases hgi : t.db.GetItems folderName true with ⟨items, e⟩
    rw [hgi] at hsnd
    simp only at hsnd
    subst hsnd
    by_cases hge : c ≤ ((fileUploads.Items t.db.Uploads folderName).length : Int)
    · have hchk : checkActiveDownloads t.db fd = some .maxActiveDownloadsExceeded := by
        unfold checkActiveDownloads
        simp [hc, hname, torDropDB.UploadCount, hfn, hpos, hge]
      unfold torDropFileServer.UploadItem
      simp [hfn, hin, hsz', hfd, hchk, hge]
    · have hchk : checkActiveDownloads t.db fd = none := by
        unfold checkActiveDownloads
        simp [hc, hname, torDropDB.UploadCount, hfn, hpos, hge]
      unfold torDropFileServer.UploadItem
      simp only [hfn, hin, hsz', hfd, hchk, hgi, if_false, hge, iff_false]
      split
      · simp
      · cases h0 : checkFileSize fd item.Size with
        | some e0 =>
          obtain ⟨mfs, -, -, -, he⟩ := checkFileSize_some _ _ _ h0
          simp [he]
        | none =>
          cases h1 : checkFileCount fd items with
          | some e1 => simp [checkFileCount_some _ _ _ h1]
          | none =>
            cases h2 : checkTotalSize fd items item.Size with
            | some e2 =>
              obtain ⟨mts, -, -, -, he⟩ := checkTotalSize_some _ _ _ _ h2
              simp [he]
            | none => simp

/-- Instances of `upload_concurrency_cap` for a folder with
`MaxActiveDownloads = 1`: after the run that admits one upload and tries a
second the folder holds at most one upload, and the second request is
answered with the concurrency error. -/
theorem upload_concurrency_cap_witness :
    ((fileUploads.Items (run newFileServer
        (traceSecondUpload { exFolder with MaxActiveDownloads := some 1 })).db.Uploads "f").length
      : Int) ≤ 1 ∧
    ((run newFileServer
        (traceFirstUpload { exFolder with MaxActiveDownloads := some 1 })).UploadItem 3 "f"
      (exItem "b" 15)).1 = some .maxActiveDownloadsExceeded :=
  ⟨upload_concurrency_cap.1 newFileServer
      (traceSecondUpload { exFolder with MaxActiveDownloads := some 1 }) "f"
      { exFolder with MaxActiveDownloads := some 1, CreateDate := 1 } 1
      (by decide) (by decide) (by decide) (by decide),
   (upload_concurrency_cap.2
      (run newFileServer (traceFirstUpload { exFolder with MaxActiveDownloads := some 1 })) 3 "f"
      (exItem "b" 15) { exFolder with MaxActiveDownloads := some 1, CreateDate := 1 } 1
      (by decide) (by decide) (by decide) (by decide) (by decide) (by decide)).2 (by decide)⟩

/-! ## Downloads -/

/-- Claim C8, evaluated on the code at the input that breaks it. Folder `f`
has `MaxActiveUploads = 1` and the item `a`; an `OpenItem` whose `os.Open`
fails replies an error, so no stream is handed out, yet the next `OpenItem`
of the same existing item is refused for concurrency. -/
theorem C8_open_refused_without_open_stream :
    ((exServer { exFolder with MaxActiveUploads := some 1 } [exItem "a" 10]).OpenItem false
        "f" "a").1 = some .io ∧
    (((exServer { exFolder with MaxActiveUploads := some 1 } [exItem "a" 10]).OpenItem false
        "f" "a").2.OpenItem true "f" "a").1 = some .maxActiveUploadsExceeded := by
  decide

/-- Claim C9, evaluated on the code at the input that breaks it. When the
stored file cannot be opened `OpenItem` replies an error, and the
active-download counter of the folder has gone from 0 to 1. -/
theorem C9_counter_raised_on_open_error :
    ((exServer exFolder [exItem "a" 10]).OpenItem false "f" "a").1 = some .io ∧
    (mapGet (exServer exFolder [exItem "a" 10]).activeDownloads "f").getD 0 = 0 ∧
    (mapGet ((exServer exFolder [exItem "a" 10]).OpenItem false "f" "a").2.activeDownloads
        "f").getD 0 = 1 := by
  decide

/-! ## The sweeps -/

theorem clearFolderItems_key (t : torDropDB) (now : Int) (e : String × fileItems) :
    (clearFolderItems t now e).2.1 = e.1 := by
  unfold clearFolderItems
  repeat' split
  all_goals rfl

theorem clearFolderItems_callbacks_key (t : torDropDB) (now : Int) (e : String × fileItems) :
    ∀ x ∈ (clearFolderItems t now e).1, x.1 = e.1 := by
  unfold clearFolderItems
  repeat' split
  all_goals try simp
  all_goals try (intro a b x _ _ h _; exact h.symm)

theorem mapGet_map_clear (t : torDropDB) (now : Int) (m : List (String × fileItems))
    (name : String) :
    mapGet (m.map (fun e => (clearFolderItems t now e).2)) name =
      (mapGet m name).map (fun items => (clearFolderItems t now (name, items)).2.2) := by
  induction m with
  | nil => rfl
  | cons e m ih =>
    obtain ⟨k, v⟩ := e
    have hk := clearFolderItems_key t now (k, v)
    simp only at hk
    by_cases h : k = name
    · subst h
      simp [mapGet, hk]
    · simp [mapGet, hk, h, ih]

theorem mapGet_none_of_not_mem {α : Type} (m : List (String × α)) (name : String)
    (h : name ∉ m.map (fun kv => kv.1)) : mapGet m name = none := by
  induction m with
  | nil => rfl
  | cons e m ih =>
    obtain ⟨k, v⟩ := e
    simp only [List.map_cons, List.mem_cons, not_or] at h
    have hk : ¬ k = name := fun e => h.1 e.symm
    simp [mapGet, hk, ih h.2]

theorem callbacks_filter (t : torDropDB) (now : Int) (m : List (String × fileItems))
    (name : String) (hnd : (m.map (fun kv => kv.1)).Nodup) :
    ((m.map (fun e => (clearFolderItems t now e).1)).flatten).filter
        (fun x => decide (x.1 = name)) =
      match mapGet m name with
      | none => []
      | some items => (clearFolderItems t now (name, items)).1 := by
  induction m with
  | nil => rfl
  | cons e m ih =>
    obtain ⟨k, v⟩ := e
    simp only [List.map_cons, List.nodup_cons] at hnd
    have hkeys := clearFolderItems_callbacks_key t now (k, v)
    simp only at hkeys
    simp only [List.map_cons, List.flatten_cons, List.filter_append]
    by_cases h : k = name
    · subst h
      have hrest := ih hnd.2
      rw [mapGet_none_of_not_mem m k hnd.1] at hrest
      simp only at hrest
      rw [hrest, List.append_nil]
      have : List.filter (fun x => decide (x.1 = k)) (clearFolderItems t now (k, v)).1 =
          (clearFolderItems t now (k, v)).1 := by
        rw [List.filter_eq_self]
        intro x hx
        simp [hkeys x hx]
      simp [this, mapGet]
    · have : List.filter (fun x => decide (x.1 = name)) (clearFolderItems t now (k, v)).1 = [] := by
        rw [List.filter_eq_nil_iff]
        intro x hx
        simp [hkeys x hx, h]
      rw [this, List.nil_append, ih hnd.2]
      simp [mapGet, h]

/-- The saturated difference of `time.Time.Sub` against a lifetime `L` that
is a `time.Duration`: it is at most `L` exactly when the difference of the
instants is at most `L` or `L` is the largest duration. -/
theorem timeSub_le_iff (now c L : Int) (hL : minDuration ≤ L) :
    timeSub now c ≤ L ↔ (now - c ≤ L ∨ maxDuration ≤ L) := by
  unfold timeSub
  unfold minDuration at hL
  unfold maxDuration minDuration
  split
  · omega
  · split <;> omega

/-- Claim C11 as stated fails on the code. The folder `f` has the largest
duration as lifetime and an item created at the instant 0; the sweep runs at
the instant `10 ^ 19` ns, so `now - CreateDate` exceeds the lifetime; the
item is kept and no callback is run, since `time.Time.Sub` returns the
largest duration. -/
theorem sweep_keeps_item_beyond_largest_duration :
    (exOldDB.Folder "f").map (fun fd => fd.MaxLifeTime) = some (some 9223372036854775807) ∧
    ((10000000000000000000 : Int) - 0 > 9223372036854775807) ∧
    mapGet (exOldDB.ClearLifetimeExceededItems 10000000000000000000).2.Items "f" =
      some [{ exItem "a" 15 with CreateDate := 0 }] ∧
    (exOldDB.ClearLifetimeExceededItems 10000000000000000000).1 = [] := by
  decide

/-- Claim C11 as amended. The item sweep at the clock reading `now`, on a
registry whose `Items` map has distinct keys: for a folder that has
`MaxLifeTime = L`, the items left are those whose age `timeSub now CreateDate`
(the difference that `time.Time.Sub` returns, at most the largest duration)
is at most `L`, in their previous order, and the callback is run once for each
other item of the folder, in order; for a name that is no folder or a folder
without `MaxLifeTime`, the items are unchanged and no callback is run.
Folders and uploads are unchanged. The age is at most the largest duration;
it is `now - CreateDate` when that fits a duration, the largest duration when
it is above and the smallest when it is below; so for a lifetime `L` below
the largest duration the items left are those with `now - CreateDate ≤ L`. -/
theorem ClearLifetimeExceededItems_spec (t : torDropDB) (now : Int)
    (hnd : (t.Items.map (fun kv => kv.1)).Nodup) :
    (∀ (name : String) (fd : folder) (L : Int),
        t.Folder name = some fd → fd.MaxLifeTime = some L →
        mapGet (t.ClearLifetimeExceededItems now).2.Items name =
          (mapGet t.Items name).map
            (fun items => items.filter (fun i => decide (timeSub now i.CreateDate ≤ L))) ∧
        (t.ClearLifetimeExceededItems now).1.filter (fun x => decide (x.1 = name)) =
          (((mapGet t.Items name).getD []).filter
            (fun i => decide (timeSub now i.CreateDate > L))).map (fun i => (name, i))) ∧
    (∀ (name : String),
        (t.Folder name = none ∨ ∃ fd, t.Folder name = some fd ∧ fd.MaxLifeTime = none) →
        mapGet (t.ClearLifetimeExceededItems now).2.Items name = mapGet t.Items name ∧
        (t.ClearLifetimeExceededItems now).1.filter (fun x => decide (x.1 = name)) = []) ∧
    (t.ClearLifetimeExceededItems now).2.Folders = t.Folders ∧
    (t.ClearLifetimeExceededItems now).2.Uploads = t.Uploads ∧
    (∀ c L : Int, minDuration ≤ L → L < maxDuration →
      (timeSub now c ≤ L ↔ now - c ≤ L)) ∧
    (∀ c : Int, timeSub now c ≤ maxDuration) ∧
    (∀ c : Int, minDuration ≤ now - c → now - c ≤ maxDuration → timeSub now c = now - c) ∧
    (∀ c : Int, maxDuration < now - c → timeSub now c = maxDuration) ∧
    (∀ c : Int, now - c < minDuration → timeSub now c = minDuration) := by
  refine ⟨?_, ?_, rfl, rfl, ?_, ?_, ?_, ?_, ?_⟩
  · intro name fd L hfd hL
    have hfilter : ∀ items : fileItems,
        items.filter (fun i => !decide (timeSub now i.CreateDate > L)) =
          items.filter (fun i => decide (timeSub now i.CreateDate ≤ L)) := by
      intro items
      congr 1
      funext i
      have : (timeSub now i.CreateDate ≤ L) ↔ ¬ (timeSub now i.CreateDate > L) := by omega
      simp only [this, decide_not]
    constructor
    · simp only [torDropDB.ClearLifetimeExceededItems, List.map_map]
      have := mapGet_map_clear t now t.Items name
      simp only [Function.comp_def] at this ⊢
      rw [this]
      cases mapGet t.Items name with
      | none => rfl
      | some items => simp [clearFolderItems, hfd, hL, hfilter]
    · simp only [torDropDB.ClearLifetimeExceededItems, List.map_map]
      have := callbacks_filter t now t.Items name hnd
      simp only [Function.comp_def] at this ⊢
      rw [this]
      cases mapGet t.Items name with
      | none => rfl
      | some items => simp [clearFolderItems, hfd, hL]
  · intro name hcase
    constructor
    · simp only [torDropDB.ClearLifetimeExceededItems, List.map_map]
      have := mapGet_map_clear t now t.Items name
      simp only [Function.comp_def] at this ⊢
      rw [this]
      cases mapGet t.Items name with
      | none => rfl
      | some items =>
        rcases hcase with h | ⟨fd, h, hL⟩
        · simp [clearFolderItems, h]
        · simp [clearFolderItems, h, hL]
    · simp only [torDropDB.ClearLifetimeExceededItems, List.map_map]
      have := callbacks_filter t now t.Items name hnd
      simp only [Function.comp_def] at this ⊢
      rw [this]
      cases mapGet t.Items name with
      | none => rfl
      | some items =>
        rcases hcase with h | ⟨fd, h, hL⟩
        · simp [clearFolderItems, h]
        · simp [clearFolderItems, h, hL]
  · intro c L hlo hhi
    rw [timeSub_le_iff now c L hlo]
    constructor
    · rintro (h | h)
      · exact h
      · omega
    · intro h
      exact Or.inl h
  · intro c
    unfold timeSub maxDuration minDuration
    split
    · exact le_refl _
    · split <;> omega
  · intro c hlo hhi
    unfold timeSub
    rw [if_neg (by omega), if_neg (by omega)]
  · intro c h
    unfold timeSub
    rw [if_pos h]
  · intro c h
    unfold timeSub
    unfold minDuration at h
    unfold maxDuration minDuration
    rw [if_neg (by omega), if_pos h]

/-- Instance of `ClearLifetimeExceededItems_spec`: at 2.5 s the sweep of
`exSweepDB` keeps the items of `f` that are at most one second old and runs
the callback on the others. -/
theorem ClearLifetimeExceededItems_spec_witness :
    mapGet (exSweepDB.ClearLifetimeExceededItems 2500000000).2.Items "f" =
        some [{ exItem "b" 3 with CreateDate := 2000000000 }] ∧
    (exSweepDB.ClearLifetimeExceededItems 2500000000).1.filter (fun x => decide (x.1 = "f")) =
        [("f", exItem "a" 15)] :=
  ⟨((ClearLifetimeExceededItems_spec exSweepDB 2500000000 (by decide)).1 "f"
      { exFolder with MaxLifeTime := some 1000000000 } 1000000000 (by decide)
      (by decide)).1.trans (by decide),
   ((ClearLifetimeExceededItems_spec exSweepDB 2500000000 (by decide)).1 "f"
      { exFolder with MaxLifeTime := some 1000000000 } 1000000000 (by decide)
      (by decide)).2.trans (by decide)⟩

/-- Claim C12. The sweep of stalled uploads at the clock reading `now` with
the threshold of `Listen` (15 minutes): the uploads left are the previous
ones with `now - LastActive ≤ 15 min`, in their previous order; the callback
is run once for each other upload, in order, and the update tick turns each
run into a cancellation on the completion channel and the removal of the temp
file of the record; folders and completed items are unchanged by the sweep. -/
theorem ClearLifetimeExceededUploads_spec (t : torDropFileServer) (now : Int) :
    (t.db.ClearLifetimeExceededUploads stallLifetime now).2.Uploads =
      t.db.Uploads.filter (fun up => decide (now - up.LastActive ≤ 15 * 60 * 1000000000)) ∧
    (t.db.ClearLifetimeExceededUploads stallLifetime now).1 =
      t.db.Uploads.filter (fun up => decide (now - up.LastActive > 15 * 60 * 1000000000)) ∧
    (t.db.ClearLifetimeExceededUploads stallLifetime now).2.Items = t.db.Items ∧
    (t.db.ClearLifetimeExceededUploads stallLifetime now).2.Folders = t.db.Folders ∧
    (t.updateTick now).2.db.Uploads =
      t.db.Uploads.filter (fun up => decide (now - up.LastActive ≤ 15 * 60 * 1000000000)) ∧
    (t.updateTick now).1.filter (fun e => match e with
        | .completed _ _ (some .cancelledTooSlow) => true
        | _ => false) =
      (t.db.Uploads.filter (fun up => decide (now - up.LastActive > 15 * 60 * 1000000000))).map
        (fun up => Effect.completed up.Folder up.File.Name (some .cancelledTooSlow)) := by
  have h1 : ∀ l : fileUploads,
      l.filter (fun up => !decide (up.LastActive + stallLifetime < now)) =
        l.filter (fun up => decide (now - up.LastActive ≤ 15 * 60 * 1000000000)) := by
    intro l
    congr 1
    funext up
    have : (now - up.LastActive ≤ 15 * 60 * 1000000000) ↔
        ¬ (up.LastActive + stallLifetime < now) := by
      unfold stallLifetime; omega
    simp only [this, decide_not]
  have h2 : ∀ l : fileUploads,
      l.filter (fun up => decide (up.LastActive + stallLifetime < now)) =
        l.filter (fun up => decide (now - up.LastActive > 15 * 60 * 1000000000)) := by
    intro l
    congr 1
    funext up
    have : (now - up.LastActive > 15 * 60 * 1000000000) ↔
        (up.LastActive + stallLifetime < now) := by
      unfold stallLifetime; omega
    simp only [this]
  refine ⟨h1 _, h2 _, rfl, rfl, ?_, ?_⟩
  · simp only [torDropFileServer.updateTick, torDropDB.ClearLifetimeExceededUploads,
      torDropDB.ClearLifetimeExceededItems]
    exact h1 _
  · simp only [torDropFileServer.updateTick, torDropDB.ClearLifetimeExceededUploads, h2]
    generalize t.db.Uploads.filter
      (fun up => decide (now - up.LastActive > 15 * 60 * 1000000000)) = l
    simp only [List.filter_append]
    have ha : ∀ l : fileUploads,
        ((l.map (fun up => [Effect.completed up.Folder up.File.Name (some .cancelledTooSlow),
          Effect.removeFile up.TmpFile])).flatten).filter (fun e => match e with
            | .completed _ _ (some .cancelledTooSlow) => true
            | _ => false) =
        l.map (fun up => Effect.completed up.Folder up.File.Name (some .cancelledTooSlow)) := by
      intro l
      induction l with
      | nil => rfl
      | cons a l ih => simp [List.filter_cons, ih]
    have hb : ∀ l : List (String × fileItem),
        (l.map (fun x => Effect.removeStored x.1 x.2.Name)).filter (fun e => match e with
            | .completed _ _ (some .cancelledTooSlow) => true
            | _ => false) = [] := by
      intro l
      induction l with
      | nil => rfl
      | cons a l ih => simp [List.filter_cons, ih]
    rw [ha, hb]
    simp

/-! ## Terminal events and the temp directory -/

theorem tmpDirAfter_sub (renameOk : Bool) (effs : List Effect) :
    ∀ (tmp : List String) (x : String), x ∈ tmpDirAfter renameOk tmp effs →
      x ∈ tmp ∧ Effect.removeFile x ∉ effs ∧
        (renameOk = true → ∀ a b, Effect.rename x a b ∉ effs) := by
  induction effs with
  | nil => intro tmp x hx; exact ⟨hx, by simp, by simp⟩
  | cons e effs ih =>
    intro tmp x hx
    cases e with
    | removeFile p =>
      simp only [tmpDirAfter] at hx
      obtain ⟨h1, h2, h3⟩ := ih _ x hx
      simp only [List.mem_filter, Bool.not_eq_true', decide_eq_false_iff_not] at h1
      refine ⟨h1.1, ?_, ?_⟩
      · simp only [List.mem_cons, not_or]
        exact ⟨fun h => h1.2 (by cases h; rfl), h2⟩
      · intro hr a b
        simp only [List.mem_cons, not_or]
        exact ⟨by simp, h3 hr a b⟩
    | rename p a b =>
      simp only [tmpDirAfter] at hx
      obtain ⟨h1, h2, h3⟩ := ih _ x hx
      cases renameOk with
      | false =>
        simp only [Bool.false_eq_true, if_false] at h1
        exact ⟨h1, by simp [h2], by simp⟩
      | true =>
        simp only [if_true, List.mem_filter, Bool.not_eq_true', decide_eq_false_iff_not] at h1
        refine ⟨h1.1, by simp [h2], ?_⟩
        intro _ a1 b1
        simp only [List.mem_cons, not_or]
        exact ⟨fun h => h1.2 (by cases h; rfl), h3 rfl a1 b1⟩
    | completed a b c =>
      simp only [tmpDirAfter] at hx
      obtain ⟨h1, h2, h3⟩ := ih _ x hx
      exact ⟨h1, by simp [h2], fun hr a1 b1 => by simp [h3 hr a1 b1]⟩
    | mkdirAll a =>
      simp only [tmpDirAfter] at hx
      obtain ⟨h1, h2, h3⟩ := ih _ x hx
      exact ⟨h1, by simp [h2], fun hr a1 b1 => by simp [h3 hr a1 b1]⟩
    | removeStored a b =>
      simp only [tmpDirAfter] at hx
      obtain ⟨h1, h2, h3⟩ := ih _ x hx
      exact ⟨h1, by simp [h2], fun hr a1 b1 => by simp [h3 hr a1 b1]⟩
    | save =>
      simp only [tmpDirAfter] at hx
      obtain ⟨h1, h2, h3⟩ := ih _ x hx
      exact ⟨h1, by simp [h2], fun hr a1 b1 => by simp [h3 hr a1 b1]⟩

theorem Remove_not_Has (u : fileUploads) (ev : fileUpload) :
    fileUploads.Has (fileUploads.Remove u ev) ev.Folder ev.File.Name = false := by
  simp only [fileUploads.Has, fileUploads.Remove, List.any_eq_false, List.mem_filter,
    Bool.not_eq_true', Bool.not_eq_true]
  intro x hx
  exact hx.2

/-- The part of claim C13 that the code keeps. A terminal event without
error (completion, rename failure, duplicate found at completion) leaves
neither the temp file of the event in the temp directory nor a record of its
key in the uploads; a terminal event with an error removes the record; and
the update tick leaves neither the record of a stalled upload in the uploads
nor the temp file named by that record in the temp directory. -/
theorem terminal_cleanup (t : torDropFileServer) (renameOk saveOk : Bool) (ev : fileUpload)
    (tmp : List String) (now : Int) :
    (ev.File.IsComplete = true → ev.Error = none →
      ev.TmpFile ∉ tmpDirAfter renameOk tmp (t.handleUploadEvent renameOk saveOk ev).1) ∧
    (ev.File.IsComplete = true →
      fileUploads.Has (t.handleUploadEvent renameOk saveOk ev).2.db.Uploads ev.Folder
        ev.File.Name = false) ∧
    (∀ up ∈ t.db.Uploads, up.LastActive + stallLifetime < now →
      up ∉ (t.updateTick now).2.db.Uploads ∧
      up.TmpFile ∉ tmpDirAfter renameOk tmp (t.updateTick now).1) := by
  refine ⟨?_, ?_, ?_⟩
  · intro hc he hmem
    obtain ⟨-, h2, h3⟩ := tmpDirAfter_sub renameOk _ tmp ev.TmpFile hmem
    revert h2 h3
    unfold torDropFileServer.handleUploadEvent
    simp only [hc, he, if_true]
    cases hg : (t.db.CompleteUpload ev).GetItem ev.Folder ev.File.Name with
    | ok a => simp
    | error e =>
      cases renameOk with
      | false => simp
      | true =>
        rcases hadd : (t.db.CompleteUpload ev).AddItem ev.Folder ev.File with ⟨e1, db⟩
        cases e1 <;> simp
  · intro hc
    have hrem : (t.handleUploadEvent renameOk saveOk ev).2.db.Uploads =
        fileUploads.Remove t.db.Uploads ev := by
      have hA := AddItem_frame (t.db.CompleteUpload ev) ev.Folder ev.File
      rcases hadd : (t.db.CompleteUpload ev).AddItem ev.Folder ev.File with ⟨e, db⟩
      rw [hadd] at hA
      unfold torDropFileServer.handleUploadEvent
      simp only [hc, if_true]
      rw [hadd]
      cases e <;> dsimp only <;> repeat' split
      all_goals first
        | rfl
        | exact hA.2
    rw [hrem]
    exact Remove_not_Has _ _
  · intro up hup hstall
    constructor
    · rw [(updateTick_db t now).2]
      simp [List.mem_filter, hstall]
    · intro hmem
      obtain ⟨-, h2, -⟩ := tmpDirAfter_sub renameOk _ tmp up.TmpFile hmem
      apply h2
      simp only [torDropFileServer.updateTick, torDropDB.ClearLifetimeExceededUploads,
        List.mem_append, List.mem_flatten, List.mem_map, List.mem_filter, decide_eq_true_eq]
      left; left
      exact ⟨_, ⟨up, ⟨hup, hstall⟩, rfl⟩, by simp⟩

/-- Claim C13, evaluated on the code at the input that breaks it. The upload
of `a` into folder `f` is in flight with its temp file in the temp directory;
the terminal event that carries an error of the source removes the record
from the uploads and sends the error on the completion channel, and the temp
file is still in the temp directory. -/
theorem C13_temp_file_left_after_source_error :
    ((run newFileServer (traceFirstUpload exFolder)).handleUploadEvent true true
        (exFailed "a" 15)).1 = [.completed "f" "a" (some (.source "unexpected EOF"))] ∧
    fileUploads.Has ((run newFileServer (traceFirstUpload exFolder)).handleUploadEvent true true
        (exFailed "a" 15)).2.db.Uploads "f" "a" = false ∧
    (exFailed "a" 15).TmpFile ∈ tmpDirAfter true [(exFailed "a" 15).TmpFile]
      ((run newFileServer (traceFirstUpload exFolder)).handleUploadEvent true true
        (exFailed "a" 15)).1 := by
  decide

/-! ## Folder administration -/

/-- Claim C14. `CreateFolder` of `fd`, with `n` the cleaned name of `fd`:
when `n` is empty the reply is the empty-name error and when a folder named
`n` exists it is the duplicate error, the server being unchanged in both
cases; otherwise the folders are the previous ones followed by `fd` with the
name `n` and the creation date `now`, whatever date `fd` carried, and items,
uploads and counters are unchanged. -/
theorem CreateFolder_spec (t : torDropFileServer) (now : Int) (saveOk : Bool) (fd : folder) :
    (clean fd.Name = "" → t.CreateFolder now saveOk fd = (some .folderNameEmpty, t)) ∧
    (clean fd.Name ≠ "" → folders.Has t.db.Folders (clean fd.Name) = true →
      t.CreateFolder now saveOk fd = (some (.folderExists (clean fd.Name)), t)) ∧
    (clean fd.Name ≠ "" → folders.Has t.db.Folders (clean fd.Name) = false →
      (t.CreateFolder now saveOk fd).1 = (if saveOk then none else some .io) ∧
      (t.CreateFolder now saveOk fd).2.db.Folders =
        t.db.Folders ++ [{ fd with Name := clean fd.Name, CreateDate := now }] ∧
      (t.CreateFolder now saveOk fd).2.db.Items = t.db.Items ∧
      (t.CreateFolder now saveOk fd).2.db.Uploads = t.db.Uploads ∧
      (t.CreateFolder now saveOk fd).2.activeDownloads = t.activeDownloads) := by
  refine ⟨?_, ?_, ?_⟩
  · intro h
    simp [torDropFileServer.CreateFolder, torDropDB.CreateFolder, h]
  · intro h1 h2
    simp [torDropFileServer.CreateFolder, torDropDB.CreateFolder, h1, h2]
  · intro h1 h2
    simp [torDropFileServer.CreateFolder, torDropDB.CreateFolder, h1, h2, applyLimits_db,
      applyLimits_activeDownloads]

/-- Instances of `CreateFolder_spec`: an empty name and a name that cleans to
the empty string are refused, a second folder `f` is refused, and a folder
`g/sub` with a creation date of its own is stored as `g` with the date of the
clock. -/
theorem CreateFolder_spec_witness :
    newFileServer.CreateFolder 7 true { exFolder with Name := "/etc" }
      = (some .folderNameEmpty, newFileServer) ∧
    (exServer exFolder []).CreateFolder 7 true exFolder
      = (some (.folderExists "f"), exServer exFolder []) ∧
    ((exServer exFolder []).CreateFolder 7 true
        { exFolder with Name := "g/sub", CreateDate := 3 }).2.db.Folders
      = (exServer exFolder []).db.Folders ++
          [{ ({ exFolder with Name := "g/sub", CreateDate := 3 } : folder) with
              Name := clean "g/sub", CreateDate := 7 }] :=
  ⟨(CreateFolder_spec newFileServer 7 true { exFolder with Name := "/etc" }).1 (by decide),
   (CreateFolder_spec (exServer exFolder []) 7 true exFolder).2.1 (by decide) (by decide),
   ((CreateFolder_spec (exServer exFolder []) 7 true
      { exFolder with Name := "g/sub", CreateDate := 3 }).2.2 (by decide) (by decide)).2.1⟩

theorem mem_takeWhile_imp {α : Type} (p : α → Bool) (l : List α) (x : α)
    (h : x ∈ l.takeWhile p) : x ∈ l ∧ p x = true := by
  induction l with
  | nil => simp at h
  | cons a l ih =>
    by_cases hp : p a = true
    · simp only [List.takeWhile_cons, hp, if_true, List.mem_cons] at h
      rcases h with rfl | h
      · exact ⟨List.mem_cons_self _ _, hp⟩
      · exact ⟨List.mem_cons_of_mem _ (ih h).1, (ih h).2⟩
    · simp [List.takeWhile_cons, hp] at h

/-- The part of claim C15 that the code keeps, first half: a cleaned name
holds neither `/` nor `\`. -/
theorem clean_no_separator (s : String) :
    '/' ∉ (clean s).toList ∧ '\\' ∉ (clean s).toList := by
  unfold clean
  by_cases h : s = ""
  · subst h; simp
  · rw [if_neg h]
    simp only [firstSegment]
    constructor
    · intro hm
      have h1 := (mem_takeWhile_imp _ _ _ hm).1
      have h2 := (mem_takeWhile_imp _ _ _ h1).2
      simp at h2
    · intro hm
      have h2 := (mem_takeWhile_imp _ _ _ hm).2
      simp at h2

/-- The part of claim C15 that the code keeps, second half: when
`CreateFolder` replies no error, the cleaned name, under which it stores the
folder, is not empty. -/
theorem CreateFolder_name_nonempty (t : torDropFileServer) (now : Int) (saveOk : Bool)
    (fd : folder) (h : (t.CreateFolder now saveOk fd).1 = none) : clean fd.Name ≠ "" := by
  intro he
  simp [torDropFileServer.CreateFolder, torDropDB.CreateFolder, he] at h

/-- Claim C15, evaluated on the code at the inputs that break it. The names
`..`, `../../etc` and `.` are accepted by `CreateFolder`, and the folder is
stored under the name `..` (twice) and `.`. -/
theorem C15_dot_names_accepted :
    (newFileServer.CreateFolder 1 true { exFolder with Name := ".." }).1 = none ∧
    (newFileServer.CreateFolder 1 true { exFolder with Name := ".." }).2.db.Folders.map
      (fun fd => fd.Name) = [".."] ∧
    (newFileServer.CreateFolder 1 true { exFolder with Name := "../../etc" }).2.db.Folders.map
      (fun fd => fd.Name) = [".."] ∧
    (newFileServer.CreateFolder 1 true { exFolder with Name := "." }).2.db.Folders.map
      (fun fd => fd.Name) = ["."] := by
  decide

theorem first_match (l : folders) (n : String) (h : folders.Has l n = true) :
    ∃ l1 x l2, l = l1 ++ x :: l2 ∧ x.Name = n ∧ (∀ y ∈ l1, y.Name ≠ n) ∧
      folders.Get l n = x ∧ ∀ g : folder, g.Name = n → folders.Set l g = l1 ++ g :: l2 := by
  induction l with
  | nil => simp [folders.Has] at h
  | cons a l ih =>
    by_cases ha : a.Name = n
    · refine ⟨[], a, l, rfl, ha, by simp, ?_, ?_⟩
      · simp [folders.Get, List.find?, ha]
      · intro g hg
        simp [folders.Set, hg, ha]
    · have hl : folders.Has l n = true := by
        simpa [folders.Has, ha] using h
      obtain ⟨l1, x, l2, hdec, hx, hl1, hget, hset⟩ := ih hl
      refine ⟨a :: l1, x, l2, by simp [hdec], hx, ?_, ?_, ?_⟩
      · intro y hy
        rcases List.mem_cons.1 hy with rfl | hy
        · exact ha
        · exact hl1 y hy
      · simp only [folders.Get, List.find?, ha, decide_False] at hget ⊢
        exact hget
      · intro g hg
        have hne : ¬ g.Name = a.Name := fun e => ha (e ▸ hg)
        simp [folders.Set, hne, hset g hg]

theorem Folder_some_Has (t : torDropDB) (name : String) (x : folder)
    (h : t.Folder name = some x) : folders.Has t.Folders name = true ∧
      folders.Get t.Folders name = x := by
  unfold torDropDB.Folder at h
  by_cases hh : folders.Has t.Folders name = true
  · rw [if_pos hh] at h
    exact ⟨hh, by simpa using h⟩
  · rw [if_neg hh] at h
    cases h

theorem Folder_none_Has (t : torDropDB) (name : String)
    (h : t.Folder name = none) : folders.Has t.Folders name = false := by
  rw [Has_eq_isSome, h]
  rfl

/-- Claim C18. `UpdateFolder` of `fd`: when no folder is named `fd.Name` the
reply is the not-found error and the server is unchanged; otherwise the first
folder `x` of that name is replaced, at its place, by `fd` with the creation
date of `x` and, unless `users` is set, the users map of `x`; the folders
before and after it, the items, the uploads and the counters are unchanged. -/
theorem UpdateFolder_spec (t : torDropFileServer) (saveOk : Bool) (fd : folder) (users : Bool) :
    (t.db.Folder fd.Name = none →
      t.UpdateFolder saveOk fd users = (some (.folderGone fd.Name), t)) ∧
    (∀ x, t.db.Folder fd.Name = some x →
      ∃ l1 l2, t.db.Folders = l1 ++ x :: l2 ∧ (∀ y ∈ l1, y.Name ≠ fd.Name) ∧
        (t.UpdateFolder saveOk fd users).2.db.Folders =
          l1 ++ { fd with CreateDate := x.CreateDate,
                          Users := if users then fd.Users else x.Users } :: l2 ∧
        (t.UpdateFolder saveOk fd users).2.db.Items = t.db.Items ∧
        (t.UpdateFolder saveOk fd users).2.db.Uploads = t.db.Uploads ∧
        (t.UpdateFolder saveOk fd users).2.activeDownloads = t.activeDownloads ∧
        (t.UpdateFolder saveOk fd users).1 = (if saveOk then none else some .io)) := by
  constructor
  · intro h
    simp [torDropFileServer.UpdateFolder, torDropDB.UpdateFolder, h]
  · intro x hx
    obtain ⟨hhas, hget⟩ := Folder_some_Has _ _ _ hx
    obtain ⟨l1, x1, l2, hdec, -, hl1, hget1, hset⟩ := first_match t.db.Folders fd.Name hhas
    have hxx : x1 = x := by rw [← hget1, hget]
    subst hxx
    refine ⟨l1, l2, hdec, hl1, ?_, ?_, ?_, ?_, ?_⟩
    · cases users
      · simp [torDropFileServer.UpdateFolder, torDropDB.UpdateFolder, hx, applyLimits_db]
        exact hset _ rfl
      · simp [torDropFileServer.UpdateFolder, torDropDB.UpdateFolder, hx, applyLimits_db]
        exact hset _ rfl
    · simp [torDropFileServer.UpdateFolder, torDropDB.UpdateFolder, hx, applyLimits_db]
    · simp [torDropFileServer.UpdateFolder, torDropDB.UpdateFolder, hx, applyLimits_db]
    · simp [torDropFileServer.UpdateFolder, torDropDB.UpdateFolder, hx,
        applyLimits_activeDownloads]
    · simp [torDropFileServer.UpdateFolder, torDropDB.UpdateFolder, hx]

/-- Instances of `UpdateFolder_spec` on `exAdminServer`: an update of the
unknown folder `h` is refused; an update of `f` that carries a creation date
of 99, a file-count cap and no users keeps the date 1 and the login `bob` of
the stored folder, takes the caps of the update, and leaves `g` in front. -/
theorem UpdateFolder_spec_witness :
    exAdminServer.UpdateFolder true { exFolder with Name := "h" } false
      = (some (.folderGone "h"), exAdminServer) ∧
    ∃ l1 l2, exAdminServer.db.Folders = l1 ++ exFolderF :: l2 ∧
      (∀ y ∈ l1, y.Name ≠ "f") ∧
      (exAdminServer.UpdateFolder true
          { exFolder with CreateDate := 99, MaxFileCount := some 3 } false).2.db.Folders =
        l1 ++ { ({ exFolder with CreateDate := 99, MaxFileCount := some 3 } : folder) with
                  CreateDate := exFolderF.CreateDate,
                  Users := if false then none else exFolderF.Users } :: l2 ∧
      (exAdminServer.UpdateFolder true
          { exFolder with CreateDate := 99, MaxFileCount := some 3 } false).2.db.Items =
        exAdminServer.db.Items ∧
      (exAdminServer.UpdateFolder true
          { exFolder with CreateDate := 99, MaxFileCount := some 3 } false).2.db.Uploads =
        exAdminServer.db.Uploads ∧
      (exAdminServer.UpdateFolder true
          { exFolder with CreateDate := 99, MaxFileCount := some 3 } false).2.activeDownloads =
        exAdminServer.activeDownloads ∧
      (exAdminServer.UpdateFolder true
          { exFolder with CreateDate := 99, MaxFileCount := some 3 } false).1 =
        (if true then none else some .io) :=
  ⟨(UpdateFolder_spec exAdminServer true { exFolder with Name := "h" } false).1 (by decide),
   (UpdateFolder_spec exAdminServer true
      { exFolder with CreateDate := 99, MaxFileCount := some 3 } false).2 exFolderF (by decide)⟩

theorem find_filter_ne (l : folders) (name n : String) (h : n ≠ name) :
    (l.filter (fun f => !decide (f.Name = name))).find? (fun fd => decide (fd.Name = n)) =
      l.find? (fun fd => decide (fd.Name = n)) := by
  induction l with
  | nil => rfl
  | cons a l ih =>
    rw [List.filter_cons]
    by_cases ha : a.Name = name
    · have hne : decide (a.Name = n) = false := by
        rw [decide_eq_false_iff_not]
        intro e
        exact h (e.symm.trans ha)
      have h1 : (!decide (a.Name = name)) = false := by
        rw [Bool.not_eq_false', decide_eq_true_eq]
        exact ha
      rw [h1]
      simp only [Bool.false_eq_true, if_false, List.find?_cons, hne, ih]
    · have h1 : (!decide (a.Name = name)) = true := by
        rw [Bool.not_eq_true', decide_eq_false_iff_not]
        exact ha
      rw [h1]
      simp only [if_true, List.find?_cons, ih]

theorem Has_filter_self (l : folders) (name : String) :
    folders.Has (l.filter (fun f => !decide (f.Name = name))) name = false := by
  simp only [folders.Has, List.any_eq_false, List.mem_filter, Bool.not_eq_true',
    decide_eq_false_iff_not, decide_eq_true_eq]
  intro x hx
  exact hx.2

theorem mapGet_mapDelete {α : Type} (m : List (String × α)) (k k1 : String) :
    mapGet (mapDelete m k) k1 = if k = k1 then none else mapGet m k1 := by
  induction m with
  | nil =>
    unfold mapDelete
    simp only [List.filter_nil, mapGet]
    split <;> rfl
  | cons a m ih =>
    obtain ⟨k', v'⟩ := a
    unfold mapDelete at ih ⊢
    rw [List.filter_cons]
    by_cases h : k' = k
    · have h1 : decide ((k', v').1 ≠ k) = false := by
        rw [decide_eq_false_iff_not]
        exact fun hne => hne h
      rw [h1]
      simp only [Bool.false_eq_true, if_false, ih, mapGet]
      by_cases h2 : k = k1
      · simp [h2]
      · have : ¬ k' = k1 := fun e => h2 (h ▸ e)
        simp [h2, this]
    · have h1 : decide ((k', v').1 ≠ k) = true := by
        rw [decide_eq_true_eq]
        exact h
      rw [h1]
      simp only [if_true, mapGet, ih]
      by_cases h2 : k' = k1
      · have : ¬ k = k1 := fun e => h (h2.trans e.symm)
        simp [h2, this]
      · simp [h2]

/-- Claim C19. `RmFolder` of `name`: when no folder has that name the reply
is the not-found error and the server is unchanged; otherwise, whatever the
file system answers, the folder is absent afterwards, the `Items` map has no
entry for `name`, the other folders and the other entries of `Items` are the
previous ones in their previous order, the uploads are unchanged, and a
second `RmFolder` of `name` replies the not-found error. -/
theorem RmFolder_spec (t : torDropFileServer) (rmOk saveOk : Bool) (name : String) :
    (folders.Has t.db.Folders name = false →
      t.RmFolder rmOk saveOk name = (some (.folderNotFound name), t)) ∧
    (folders.Has t.db.Folders name = true →
      (t.RmFolder rmOk saveOk name).2.db.Folder name = none ∧
      mapGet (t.RmFolder rmOk saveOk name).2.db.Items name = none ∧
      (t.RmFolder rmOk saveOk name).2.db.Folders =
        t.db.Folders.filter (fun f => decide (f.Name ≠ name)) ∧
      (t.RmFolder rmOk saveOk name).2.db.Items =
        t.db.Items.filter (fun kv => decide (kv.1 ≠ name)) ∧
      (∀ n, n ≠ name →
        (t.RmFolder rmOk saveOk name).2.db.Folder n = t.db.Folder n ∧
        mapGet (t.RmFolder rmOk saveOk name).2.db.Items n = mapGet t.db.Items n) ∧
      (t.RmFolder rmOk saveOk name).2.db.Uploads = t.db.Uploads ∧
      (∀ rmOk1 saveOk1 : Bool,
        ((t.RmFolder rmOk saveOk name).2.RmFolder rmOk1 saveOk1 name).1 =
          some (.folderNotFound name))) := by
  constructor
  · intro h
    simp [torDropFileServer.RmFolder, torDropDB.RmFolder, h]
  · intro h
    have hF : (t.RmFolder rmOk saveOk name).2.db.Folders =
        t.db.Folders.filter (fun f => !decide (f.Name = name)) := by
      simp [torDropFileServer.RmFolder, torDropDB.RmFolder, h]
    have hI : (t.RmFolder rmOk saveOk name).2.db.Items = mapDelete t.db.Items name := by
      simp [torDropFileServer.RmFolder, torDropDB.RmFolder, h]
    have hU : (t.RmFolder rmOk saveOk name).2.db.Uploads = t.db.Uploads := by
      simp [torDropFileServer.RmFolder, torDropDB.RmFolder, h]
    have hHas : folders.Has (t.RmFolder rmOk saveOk name).2.db.Folders name = false := by
      rw [hF]; exact Has_filter_self _ _
    refine ⟨?_, ?_, ?_, ?_, ?_, hU, ?_⟩
    · simp [torDropDB.Folder, hHas]
    · rw [hI, mapGet_mapDelete]; simp
    · rw [hF]; congr 1; funext f; simp
    · rw [hI]; rfl
    · intro n hn
      constructor
      · rw [Folder_eq_find, Folder_eq_find, hF, find_filter_ne _ _ _ hn]
      · rw [hI, mapGet_mapDelete]
        simp [Ne.symm hn]
    · intro rmOk1 saveOk1
      generalize (t.RmFolder rmOk saveOk name).2 = t1 at hHas
      simp [torDropFileServer.RmFolder, torDropDB.RmFolder, hHas]

/-- Instances of `RmFolder_spec` on `exAdminServer`: removing the unknown
folder `h` is refused, and after removing `f` the folder and its items are
gone while `g` and its items stay. -/
theorem RmFolder_spec_witness :
    exAdminServer.RmFolder true true "h" = (some (.folderNotFound "h"), exAdminServer) ∧
    (exAdminServer.RmFolder true true "f").2.db.Folder "f" = none ∧
    mapGet (exAdminServer.RmFolder true true "f").2.db.Items "f" = none ∧
    (exAdminServer.RmFolder true true "f").2.db.Folders =
      exAdminServer.db.Folders.filter (fun f => decide (f.Name ≠ "f")) :=
  ⟨(RmFolder_spec exAdminServer true true "h").1 (by decide),
   ((RmFolder_spec exAdminServer true true "f").2 (by decide)).1,
   ((RmFolder_spec exAdminServer true true "f").2 (by decide)).2.1,
   ((RmFolder_spec exAdminServer true true "f").2 (by decide)).2.2.1⟩

theorem not_mem_keys_of_mapGet_none {α : Type} (m : List (String × α)) (k : String)
    (h : mapGet m k = none) : k ∉ m.map (fun kv => kv.1) := by
  induction m with
  | nil => simp
  | cons a m ih =>
    obtain ⟨k', v'⟩ := a
    unfold mapGet at h
    by_cases hk : k' = k
    · rw [if_pos hk] at h; cases h
    · rw [if_neg hk] at h
      simp only [List.map_cons, List.mem_cons, not_or]
      exact ⟨fun e => hk e.symm, ih h⟩

/-- Claim C20 as stated fails on the code. Folder `f` of `exAdminServer` has
the login `bob` with the passwords `["x"]`; `AddFolderLogin` of `bob` with
the password `y` replies no error and leaves the server as it was, so the
passwords of `bob` are still `["x"]` and not `["x", "y"]`. -/
theorem AddFolderLogin_existing_login_unchanged :
    exAdminServer.AddFolderLogin true "f" "bob" "y" = (none, exAdminServer) ∧
    ((exAdminServer.AddFolderLogin true "f" "bob" "y").2.db.Folder "f").map
        (fun fd => mapGet (fd.Users.getD []) "bob") = some (some ["x"]) ∧
    ((exAdminServer.AddFolderLogin true "f" "bob" "y").2.db.Folder "f").map
        (fun fd => mapGet (fd.Users.getD []) "bob") ≠ some (some (["x"] ++ ["y"])) := by
  decide

/-- Claim C20 as amended. `AddFolderLogin` on an existing folder `fd` with a
non-empty login: when the users map has no binding for the login, the stored
folder gets, at its place, the users map followed by the binding of the login
to `[pwd]`, its other fields, the other folders, the items and the uploads
being unchanged; when the login is bound already, the reply is no error and
the server is unchanged, the password is not added. -/
theorem AddFolderLogin_spec (t : torDropFileServer) (saveOk : Bool)
    (folderName user pwd : String) (fd : folder)
    (hfn : folderName ≠ "") (hu : user ≠ "") (hfd : t.db.Folder folderName = some fd) :
    (mapGet (fd.Users.getD []) user = none →
      ∃ l1 l2, t.db.Folders = l1 ++ fd :: l2 ∧ (∀ y ∈ l1, y.Name ≠ folderName) ∧
        (t.AddFolderLogin saveOk folderName user pwd).2.db.Folders =
          l1 ++ { fd with Users := some (fd.Users.getD [] ++ [(user, [pwd])]) } :: l2 ∧
        (t.AddFolderLogin saveOk folderName user pwd).2.db.Items = t.db.Items ∧
        (t.AddFolderLogin saveOk folderName user pwd).2.db.Uploads = t.db.Uploads ∧
        (t.AddFolderLogin saveOk folderName user pwd).1 = (if saveOk then none else some .io)) ∧
    (∀ ps, mapGet (fd.Users.getD []) user = some ps →
      t.AddFolderLogin saveOk folderName user pwd = (none, t)) := by
  have hname := Folder_name _ _ _ hfd
  constructor
  · intro hnone
    obtain ⟨hhas, hget⟩ := Folder_some_Has _ _ _ hfd
    obtain ⟨l1, x1, l2, hdec, -, hl1, hget1, hset⟩ := first_match t.db.Folders folderName hhas
    have hxx : x1 = fd := by rw [← hget1, hget]
    subst hxx
    have hms := mapSet_append_of_not_mem _ user [pwd] (not_mem_keys_of_mapGet_none _ _ hnone)
    have hfd' : t.db.Folder x1.Name = some x1 := by rw [hname]; exact hfd
    refine ⟨l1, l2, hdec, hl1, ?_, ?_, ?_, ?_⟩
    · simp [torDropFileServer.AddFolderLogin, hfn, hu, hfd, hnone, torDropDB.UpdateFolder, hfd',
        hms, hname]
      exact hset _ rfl
    · simp [torDropFileServer.AddFolderLogin, hfn, hu, hfd, hnone, torDropDB.UpdateFolder, hfd']
    · simp [torDropFileServer.AddFolderLogin, hfn, hu, hfd, hnone, torDropDB.UpdateFolder, hfd']
    · simp [torDropFileServer.AddFolderLogin, hfn, hu, hfd, hnone, torDropDB.UpdateFolder, hfd']
  · intro ps hps
    simp [torDropFileServer.AddFolderLogin, hfn, hu, hfd, hps]

/-- Instances of `AddFolderLogin_spec` on `exAdminServer`: the new login
`al` of folder `f` is bound to `["y"]` after the login `bob`, and a second
`AddFolderLogin` of `bob` changes nothing. -/
theorem AddFolderLogin_spec_witness :
    (∃ l1 l2, exAdminServer.db.Folders = l1 ++ exFolderF :: l2 ∧ (∀ y ∈ l1, y.Name ≠ "f") ∧
        (exAdminServer.AddFolderLogin true "f" "al" "y").2.db.Folders =
          l1 ++ { exFolderF with Users := some (exFolderF.Users.getD [] ++ [("al", ["y"])]) } :: l2 ∧
        (exAdminServer.AddFolderLogin true "f" "al" "y").2.db.Items = exAdminServer.db.Items ∧
        (exAdminServer.AddFolderLogin true "f" "al" "y").2.db.Uploads = exAdminServer.db.Uploads ∧
        (exAdminServer.AddFolderLogin true "f" "al" "y").1 = (if true then none else some .io)) ∧
    exAdminServer.AddFolderLogin true "f" "bob" "z" = (none, exAdminServer) :=
  ⟨(AddFolderLogin_spec exAdminServer true "f" "al" "y" exFolderF (by decide) (by decide)
      (by decide)).1 (by decide),
   (AddFolderLogin_spec exAdminServer true "f" "bob" "z" exFolderF (by decide) (by decide)
      (by decide)).2 ["x"] (by decide)⟩

/-! ## Invariants of the registry along the calls -/

/-- Claim C16, evaluated on the code at the input that breaks it. After the
upload of `a` into folder `f` completed, `WriteItem` of `a` replies no error
and the completed items of `f` hold the name `a` twice. -/
theorem C16_write_item_repeats_name :
    ((runCalls newFileServer (traceWriteItem.take 3)).WriteItem 9 true "f" "a" 3).1 = none ∧
    ((mapGet (runCalls newFileServer traceWriteItem).db.Items "f").getD []).map
      (fun i => i.Name) = ["a", "a"] := by
  decide

theorem mem_mapSet {α : Type} (m : List (String × α)) (k : String) (v : α) (kv : String × α)
    (h : kv ∈ mapSet m k v) : kv ∈ m ∨ kv = (k, v) := by
  induction m with
  | nil =>
    simp only [mapSet, List.mem_singleton] at h
    exact Or.inr h
  | cons a m ih =>
    obtain ⟨k', v'⟩ := a
    unfold mapSet at h
    by_cases hk : k' = k
    · rw [if_pos hk] at h
      rcases List.mem_cons.1 h with h | h
      · exact Or.inr h
      · exact Or.inl (List.mem_cons_of_mem _ h)
    · rw [if_neg hk] at h
      rcases List.mem_cons.1 h with h | h
      · exact Or.inl (h ▸ List.mem_cons_self _ _)
      · rcases ih h with h | h
        · exact Or.inl (List.mem_cons_of_mem _ h)
        · exact Or.inr h

theorem mem_of_mapGet {α : Type} (m : List (String × α)) (k : String) (v : α)
    (h : mapGet m k = some v) : (k, v) ∈ m := by
  induction m with
  | nil => simp [mapGet] at h
  | cons a m ih =>
    obtain ⟨k', v'⟩ := a
    unfold mapGet at h
    by_cases hk : k' = k
    · rw [if_pos hk] at h
      cases h
      subst hk
      exact List.mem_cons_self _ _
    · rw [if_neg hk] at h
      exact List.mem_cons_of_mem _ (ih h)

theorem ItemNamesDistinct_of_Items (t t1 : torDropFileServer) (h : ItemNamesDistinct t)
    (hI : t1.db.Items = t.db.Items) : ItemNamesDistinct t1 := by
  intro kv hkv
  rw [hI] at hkv
  exact h kv hkv

theorem AddItem_Items (t : torDropDB) (folderName : String) (item : fileItem) :
    (t.AddItem folderName item).2.Items = t.Items ∨
    (t.AddItem folderName item).2.Items =
      mapSet t.Items folderName ((mapGet t.Items folderName).getD [] ++ [item]) := by
  unfold torDropDB.AddItem
  repeat' split
  all_goals first
    | (left; rfl)
    | (right; rfl)

theorem handleUploadEvent_Items (t : torDropFileServer) (renameOk saveOk : Bool)
    (ev : fileUpload) :
    (t.handleUploadEvent renameOk saveOk ev).2.db.Items = t.db.Items ∨
    (fileItems.Has ((mapGet t.db.Items ev.Folder).getD []) ev.File.Name = false ∧
      (t.handleUploadEvent renameOk saveOk ev).2.db.Items =
        mapSet t.db.Items ev.Folder ((mapGet t.db.Items ev.Folder).getD [] ++ [ev.File])) := by
  by_cases hhas : fileItems.Has ((mapGet t.db.Items ev.Folder).getD []) ev.File.Name = true
  · left
    have hget : ∃ a, (t.db.CompleteUpload ev).GetItem ev.Folder ev.File.Name = .ok a := by
      unfold torDropDB.GetItem torDropDB.CompleteUpload
      cases hm : mapGet t.db.Items ev.Folder with
      | none => simp [hm, fileItems.Has] at hhas
      | some items =>
        simp only [hm, Option.getD_some] at hhas
        simp [hhas]
    obtain ⟨a, ha⟩ := hget
    unfold torDropFileServer.handleUploadEvent
    dsimp only
    rw [ha]
    repeat' split
    all_goals first
      | rfl
      | contradiction
  · simp only [Bool.not_eq_true] at hhas
    have hA := AddItem_Items (t.db.CompleteUpload ev) ev.Folder ev.File
    rcases hadd : (t.db.CompleteUpload ev).AddItem ev.Folder ev.File with ⟨e, db⟩
    rw [hadd] at hA
    simp only [torDropDB.CompleteUpload] at hA
    have key : (t.handleUploadEvent renameOk saveOk ev).2.db.Items = t.db.Items ∨
        (t.handleUploadEvent renameOk saveOk ev).2.db.Items = db.Items := by
      unfold torDropFileServer.handleUploadEvent
      dsimp only
      rw [hadd]
      cases e <;> dsimp only <;> repeat' split
      all_goals first
        | (left; rfl)
        | (right; rfl)
    rcases key with h | h
    · exact Or.inl h
    · rcases hA with hA | hA
      · left; rw [h, hA]
      · right; exact ⟨hhas, by rw [h, hA]⟩

theorem nodup_append_item (items : fileItems) (item : fileItem)
    (h : (items.map (fun i => i.Name)).Nodup)
    (hn : fileItems.Has items item.Name = false) :
    ((items ++ [item]).map (fun i => i.Name)).Nodup := by
  simp only [List.map_append, List.map_cons, List.map_nil]
  rw [List.nodup_append]
  refine ⟨h, by simp, ?_⟩
  intro a ha hb
  simp only [List.mem_singleton] at hb
  subst hb
  simp only [fileItems.Has, List.any_eq_false, decide_eq_true_eq] at hn
  simp only [List.mem_map] at ha
  obtain ⟨x, hx, hxe⟩ := ha
  exact hn x hx hxe

theorem dbUpdateFolder_frame (t : torDropDB) (fd : folder) (users : Bool) :
    (t.UpdateFolder fd users).2.Items = t.Items ∧
    (t.UpdateFolder fd users).2.Uploads = t.Uploads := by
  unfold torDropDB.UpdateFolder
  cases t.Folder fd.Name <;> exact ⟨rfl, rfl⟩

theorem dbUpdateFolder_frame_of (t : torDropDB) (fd : folder) (users : Bool) (e : Option Err)
    (db : torDropDB) (h : t.UpdateFolder fd users = (e, db)) :
    db.Items = t.Items ∧ db.Uploads = t.Uploads := by
  have hf := dbUpdateFolder_frame t fd users
  rw [h] at hf
  exact hf

theorem UpdateFolder_Items (t : torDropFileServer) (saveOk : Bool) (fd : folder)
    (users : Bool) : (t.UpdateFolder saveOk fd users).2.db.Items = t.db.Items := by
  have hf := (dbUpdateFolder_frame t.db fd users).1
  rcases hu : t.db.UpdateFolder fd users with ⟨e, db⟩
  rw [hu] at hf
  unfold torDropFileServer.UpdateFolder
  rw [hu]
  cases e with
  | some e => rfl
  | none => simpa [applyLimits_db] using hf

theorem AddFolderLogin_Items (t : torDropFileServer) (saveOk : Bool)
    (folderName user pwd : String) :
    (t.AddFolderLogin saveOk folderName user pwd).2.db.Items = t.db.Items := by
  unfold torDropFileServer.AddFolderLogin
  dsimp only
  repeat' split
  all_goals first
    | rfl
    | exact (dbUpdateFolder_frame_of _ _ _ _ _ (by assumption)).1

theorem ItemNamesDistinct_step (t : torDropFileServer) (c : Call)
    (hc : c.isWriteItem = false) (h : ItemNamesDistinct t) :
    ItemNamesDistinct (stepCall t c) := by
  cases c with
  | serializer op =>
    cases op with
    | createFolder fd now saveOk =>
      simp only [stepCall, step]
      rcases CreateFolder_db t now saveOk fd with hdb | ⟨-, -, hdb⟩
      · exact ItemNamesDistinct_of_Items t _ h (by rw [hdb])
      · exact ItemNamesDistinct_of_Items t _ h (by rw [hdb])
    | uploadItem folderName item now =>
      simp only [stepCall, step]
      rcases UploadItem_cases t now folderName item with hs | ⟨fd, -, -, -, hs⟩
      · rw [hs]; exact h
      · exact ItemNamesDistinct_of_Items t _ h (by rw [hs])
    | uploadEvent ev renameOk saveOk =>
      simp only [stepCall, step]
      rcases handleUploadEvent_Items t renameOk saveOk ev with hI | ⟨hn, hI⟩
      · exact ItemNamesDistinct_of_Items t _ h hI
      · intro kv hkv
        rw [hI] at hkv
        rcases mem_mapSet _ _ _ _ hkv with hm | hm
        · exact h kv hm
        · subst hm
          refine nodup_append_item _ _ ?_ hn
          cases hg : mapGet t.db.Items ev.Folder with
          | none => simp
          | some items => exact h _ (mem_of_mapGet _ _ _ hg)
    | openItem folderName fileName openOk =>
      simp only [stepCall, step]
      exact ItemNamesDistinct_of_Items t _ h (by rw [OpenItem_db])
    | closeDownload fd =>
      simp only [stepCall, step]
      exact ItemNamesDistinct_of_Items t _ h (by rw [closeDownload_db])
    | updateTick now =>
      simp only [stepCall, step]
      intro kv hkv
      simp only [torDropFileServer.updateTick, torDropDB.ClearLifetimeExceededItems,
        torDropDB.ClearLifetimeExceededUploads, List.mem_map] at hkv
      obtain ⟨r, ⟨e, he, hre⟩, hkv⟩ := hkv
      subst hre hkv
      have hsub : ∀ d : torDropDB, List.Sublist (clearFolderItems d now e).2.2 e.2 := by
        intro d
        unfold clearFolderItems
        repeat' split
        all_goals first
          | exact List.Sublist.refl _
          | exact List.filter_sublist _
      exact (h e he).sublist ((hsub _).map _)
  | updateFolder fd users saveOk =>
    simp only [stepCall]
    exact ItemNamesDistinct_of_Items t _ h (UpdateFolder_Items t saveOk fd users)
  | rmFolder name rmOk saveOk =>
    simp only [stepCall]
    intro kv hkv
    have hI : (t.RmFolder rmOk saveOk name).2.db.Items = t.db.Items ∨
        (t.RmFolder rmOk saveOk name).2.db.Items = mapDelete t.db.Items name := by
      by_cases hh : folders.Has t.db.Folders name = true
      · right
        simp [torDropFileServer.RmFolder, torDropDB.RmFolder, hh]
      · left
        simp only [Bool.not_eq_true] at hh
        simp [torDropFileServer.RmFolder, torDropDB.RmFolder, hh]
    rcases hI with hI | hI
    · rw [hI] at hkv; exact h kv hkv
    · rw [hI] at hkv
      exact h kv (List.mem_filter.1 hkv).1
  | rmItem folderName name rmOk saveOk =>
    simp only [stepCall]
    intro kv hkv
    cases hg : mapGet t.db.Items folderName with
    | none =>
      have : (t.RmItem rmOk saveOk folderName name).2 = t := by
        simp [torDropFileServer.RmItem, torDropDB.RmItem, hg]
      rw [this] at hkv
      exact h kv hkv
    | some items =>
      by_cases hh : fileItems.Has items name = true
      · have : (t.RmItem rmOk saveOk folderName name).2.db.Items =
            mapSet t.db.Items folderName (items.filter (fun i => !decide (i.Name = name))) := by
          simp [torDropFileServer.RmItem, torDropDB.RmItem, hg, hh]
        rw [this] at hkv
        rcases mem_mapSet _ _ _ _ hkv with hm | hm
        · exact h kv hm
        · subst hm
          exact (h _ (mem_of_mapGet _ _ _ hg)).sublist ((List.filter_sublist _).map _)
      · have : (t.RmItem rmOk saveOk folderName name).2 = t := by
          simp only [Bool.not_eq_true] at hh
          simp [torDropFileServer.RmItem, torDropDB.RmItem, hg, hh]
        rw [this] at hkv
        exact h kv hkv
  | addFolderLogin folderName user pwd saveOk =>
    simp only [stepCall]
    exact ItemNamesDistinct_of_Items t _ h (AddFolderLogin_Items t saveOk folderName user pwd)
  | rmFolderLogin folderName user saveOk =>
    simp only [stepCall]
    refine ItemNamesDistinct_of_Items t _ h ?_
    unfold torDropFileServer.RmFolderLogin
    repeat' split
    all_goals rfl
  | writeItem folderName name fsize now writeOk =>
    simp [Call.isWriteItem] at hc

/-- The part of claim C16 that the code keeps: along every sequence of calls
from the empty registry that holds no `WriteItem`, the names of the completed
items of each entry of `Items` are pairwise distinct. -/
theorem item_names_distinct (calls : List Call)
    (hc : ∀ c ∈ calls, c.isWriteItem = false) :
    ItemNamesDistinct (runCalls newFileServer calls) := by
  have key : ∀ (calls : List Call) (t : torDropFileServer),
      (∀ c ∈ calls, c.isWriteItem = false) → ItemNamesDistinct t →
      ItemNamesDistinct (runCalls t calls) := by
    intro calls
    induction calls with
    | nil => intro t _ h; exact h
    | cons c calls ih =>
      intro t hc h
      exact ih (stepCall t c) (fun c1 h1 => hc c1 (List.mem_cons_of_mem _ h1))
        (ItemNamesDistinct_step t c (hc c (List.mem_cons_self _ _)) h)
  refine key calls newFileServer hc ?_
  intro kv hkv
  simp [newFileServer] at hkv

theorem Set_stamps (l : folders) (g : folder)
    (h : ∀ x, l.find? (fun fd => decide (fd.Name = g.Name)) = some x →
      x.CreateDate = g.CreateDate) :
    (folders.Set l g).map (fun fd => (fd.Name, fd.CreateDate)) =
      l.map (fun fd => (fd.Name, fd.CreateDate)) := by
  induction l with
  | nil => rfl
  | cons a l ih =>
    unfold folders.Set
    by_cases ha : g.Name = a.Name
    · rw [if_pos ha]
      have hd := h a (by simp [List.find?, ha])
      simp [ha, hd]
    · rw [if_neg ha]
      have hne : ¬ a.Name = g.Name := fun e => ha e.symm
      simp only [List.map_cons, List.cons.injEq, true_and]
      apply ih
      intro x hx
      apply h x
      simp [List.find?, hne, hx]

theorem dbUpdateFolder_stamps (t : torDropDB) (fd : folder) (users : Bool) :
    (t.UpdateFolder fd users).2.Folders.map (fun fd => (fd.Name, fd.CreateDate)) =
      t.Folders.map (fun fd => (fd.Name, fd.CreateDate)) := by
  unfold torDropDB.UpdateFolder
  cases hf : t.Folder fd.Name with
  | none => rfl
  | some x =>
    rw [Folder_eq_find] at hf
    dsimp only
    apply Set_stamps
    intro y hy
    cases users <;> simp at hy <;> rw [hf] at hy <;> cases hy <;> rfl

theorem dbUpdateFolder_stamps_of (t : torDropDB) (fd : folder) (users : Bool) (e : Option Err)
    (db : torDropDB) (h : t.UpdateFolder fd users = (e, db)) :
    db.Folders.map (fun fd => (fd.Name, fd.CreateDate)) =
      t.Folders.map (fun fd => (fd.Name, fd.CreateDate)) := by
  have hf := dbUpdateFolder_stamps t fd users
  rw [h] at hf
  exact hf

theorem UpdateFolder_stamps (t : torDropFileServer) (saveOk : Bool) (fd : folder)
    (users : Bool) : folderStamps (t.UpdateFolder saveOk fd users).2 = folderStamps t := by
  have hf := dbUpdateFolder_stamps t.db fd users
  rcases hu : t.db.UpdateFolder fd users with ⟨e, db⟩
  rw [hu] at hf
  unfold folderStamps torDropFileServer.UpdateFolder
  rw [hu]
  cases e with
  | some e => rfl
  | none => simpa [applyLimits_db] using hf

theorem AddFolderLogin_stamps (t : torDropFileServer) (saveOk : Bool)
    (folderName user pwd : String) :
    folderStamps (t.AddFolderLogin saveOk folderName user pwd).2 = folderStamps t := by
  unfold folderStamps torDropFileServer.AddFolderLogin
  dsimp only
  repeat' split
  all_goals first
    | rfl
    | exact dbUpdateFolder_stamps_of _ _ _ _ _ (by assumption)

theorem RmFolderLogin_stamps (t : torDropFileServer) (saveOk : Bool)
    (folderName user : String) :
    folderStamps (t.RmFolderLogin saveOk folderName user).2 = folderStamps t := by
  unfold folderStamps torDropFileServer.RmFolderLogin
  cases hf : t.db.Folder folderName with
  | none => rfl
  | some fd =>
    have hname := Folder_name t.db folderName fd hf
    rw [Folder_eq_find] at hf
    cases hu : fd.Users with
    | none => simp only [hu]
    | some m =>
      simp only [hu]
      apply Set_stamps
      intro y hy
      simp only [hname] at hy
      rw [hf] at hy
      cases hy
      rfl

theorem filter_eq_self_of_not_Has (l : folders) (name : String)
    (h : folders.Has l name = false) :
    l.filter (fun f => !decide (f.Name = name)) = l := by
  rw [List.filter_eq_self]
  intro a ha
  simp only [folders.Has, List.any_eq_false, decide_eq_true_eq] at h
  simp [h a ha]

theorem RmFolder_stamps (t : torDropFileServer) (rmOk saveOk : Bool) (name : String) :
    folderStamps (t.RmFolder rmOk saveOk name).2 =
      (folderStamps t).filter (fun s => !decide (s.1 = name)) := by
  have hmap : ∀ l : folders,
      (l.filter (fun f => !decide (f.Name = name))).map (fun fd => (fd.Name, fd.CreateDate)) =
        (l.map (fun fd => (fd.Name, fd.CreateDate))).filter (fun s => !decide (s.1 = name)) := by
    intro l
    rw [List.filter_map]
    rfl
  unfold folderStamps
  by_cases hh : folders.Has t.db.Folders name = true
  · rw [← hmap]
    simp [torDropFileServer.RmFolder, torDropDB.RmFolder, hh]
  · simp only [Bool.not_eq_true] at hh
    rw [← hmap, filter_eq_self_of_not_Has _ _ hh]
    simp [torDropFileServer.RmFolder, torDropDB.RmFolder, hh]

theorem dbRmItem_Folders (t : torDropDB) (folderName name : String) :
    (t.RmItem folderName name).2.Folders = t.Folders := by
  unfold torDropDB.RmItem
  repeat' split
  all_goals rfl

theorem RmItem_Folders (t : torDropFileServer) (rmOk saveOk : Bool)
    (folderName name : String) :
    (t.RmItem rmOk saveOk folderName name).2.db.Folders = t.db.Folders := by
  have hf := dbRmItem_Folders t.db folderName name
  rcases hu : t.db.RmItem folderName name with ⟨e, db⟩
  rw [hu] at hf
  unfold torDropFileServer.RmItem
  rw [hu]
  cases e with
  | some e => rfl
  | none => exact hf

theorem WriteItem_Folders (t : torDropFileServer) (now : Int) (writeOk : Bool)
    (folderName name : String) (fsize : Nat) :
    (t.WriteItem now writeOk folderName name fsize).2.db.Folders = t.db.Folders := by
  unfold torDropFileServer.WriteItem
  dsimp only
  repeat' split
  all_goals first
    | rfl
    | exact (AddItem_frame _ _ _).1

theorem Has_iff_mem_stamps (t : torDropFileServer) (name : String) :
    folders.Has t.db.Folders name = true ↔ name ∈ (folderStamps t).map (fun s => s.1) := by
  simp only [folders.Has, folderStamps, List.any_eq_true, decide_eq_true_eq, List.map_map,
    List.mem_map, Function.comp]

theorem CreateFolder_stamps (t : torDropFileServer) (now : Int) (saveOk : Bool) (fd : folder) :
    folderStamps (t.CreateFolder now saveOk fd).2 =
      if clean fd.Name = "" ∨ clean fd.Name ∈ (folderStamps t).map (fun s => s.1)
      then folderStamps t else folderStamps t ++ [(clean fd.Name, now)] := by
  have hiff := Has_iff_mem_stamps t (clean fd.Name)
  by_cases h1 : clean fd.Name = ""
  · rw [if_pos (Or.inl h1)]
    simp [folderStamps, torDropFileServer.CreateFolder, torDropDB.CreateFolder, h1]
  · by_cases h2 : folders.Has t.db.Folders (clean fd.Name) = true
    · rw [if_pos (Or.inr (hiff.1 h2))]
      simp [folderStamps, torDropFileServer.CreateFolder, torDropDB.CreateFolder, h1, h2]
    · rw [if_neg (fun h => h.elim h1 (fun h => h2 (hiff.2 h)))]
      simp only [Bool.not_eq_true] at h2
      simp [folderStamps, torDropFileServer.CreateFolder, torDropDB.CreateFolder, h1, h2,
        applyLimits_db]

theorem stepCall_stamps (t : torDropFileServer) (c : Call) :
    folderStamps (stepCall t c) = stampsAfter (folderStamps t) c := by
  cases c with
  | serializer op =>
    cases op with
    | createFolder fd now saveOk =>
      simp only [stepCall, step, stampsAfter]
      exact CreateFolder_stamps t now saveOk fd
    | uploadItem folderName item now =>
      simp only [stepCall, step, stampsAfter, folderStamps, (UploadItem_frame t now folderName item).2]
    | uploadEvent ev renameOk saveOk =>
      simp only [stepCall, step, stampsAfter, folderStamps,
        (handleUploadEvent_db t renameOk saveOk ev).1]
    | openItem folderName fileName openOk =>
      simp only [stepCall, step, stampsAfter, folderStamps, OpenItem_db]
    | closeDownload fd =>
      simp only [stepCall, step, stampsAfter, folderStamps, closeDownload_db]
    | updateTick now =>
      simp only [stepCall, step, stampsAfter, folderStamps, (updateTick_db t now).1]
  | updateFolder fd users saveOk =>
    simp only [stepCall, stampsAfter]
    exact UpdateFolder_stamps t saveOk fd users
  | rmFolder name rmOk saveOk =>
    simp only [stepCall, stampsAfter]
    exact RmFolder_stamps t rmOk saveOk name
  | rmItem folderName name rmOk saveOk =>
    simp only [stepCall, stampsAfter, folderStamps, RmItem_Folders]
  | addFolderLogin folderName user pwd saveOk =>
    simp only [stepCall, stampsAfter]
    exact AddFolderLogin_stamps t saveOk folderName user pwd
  | rmFolderLogin folderName user saveOk =>
    simp only [stepCall, stampsAfter]
    exact RmFolderLogin_stamps t saveOk folderName user
  | writeItem folderName name fsize now writeOk =>
    simp only [stepCall, stampsAfter, folderStamps, WriteItem_Folders]

theorem stampsAfter_nodup (g : List (String × Int)) (c : Call)
    (h : (g.map (fun s => s.1)).Nodup) : ((stampsAfter g c).map (fun s => s.1)).Nodup := by
  unfold stampsAfter
  split
  · split
    · exact h
    · rename_i hn
      simp only [not_or] at hn
      simp only [List.map_append, List.map_cons, List.map_nil]
      rw [List.nodup_append]
      refine ⟨h, by simp, ?_⟩
      intro a ha hb
      simp only [List.mem_singleton] at hb
      subst hb
      exact hn.2 ha
  · exact h.sublist ((List.filter_sublist _).map _)
  · exact h

theorem runCalls_stamps (calls : List Call) (t : torDropFileServer) :
    folderStamps (runCalls t calls) = calls.foldl stampsAfter (folderStamps t) := by
  induction calls generalizing t with
  | nil => rfl
  | cons c calls ih =>
    simp only [runCalls, List.foldl_cons] at ih ⊢
    rw [ih (stepCall t c), stepCall_stamps]

theorem foldl_stamps_nodup (calls : List Call) (g : List (String × Int))
    (h : (g.map (fun s => s.1)).Nodup) :
    ((calls.foldl stampsAfter g).map (fun s => s.1)).Nodup := by
  induction calls generalizing g with
  | nil => exact h
  | cons c calls ih =>
    simp only [List.foldl_cons]
    exact ih _ (stampsAfter_nodup g c h)

/-- Claim C17. In every state reached from the empty registry by calls of the
engine (among them `CreateFolder`, `UpdateFolder`, `RmFolder`,
`AddFolderLogin` and `RmFolderLogin`), the names of the folders of the
registry are pairwise distinct, and the registry lists exactly the folders
created and not removed since, in the order of their creation, each with the
clock reading that its `CreateFolder` assigned: no later call changes a
creation date. -/
theorem folder_names_distinct_dates_kept (calls : List Call) :
    ((runCalls newFileServer calls).db.Folders.map (fun fd => fd.Name)).Nodup ∧
    (runCalls newFileServer calls).db.Folders.map (fun fd => (fd.Name, fd.CreateDate)) =
      calls.foldl stampsAfter [] := by
  have hs := runCalls_stamps calls newFileServer
  have h0 : folderStamps newFileServer = [] := rfl
  rw [h0] at hs
  have hn := foldl_stamps_nodup calls [] (by simp)
  rw [← hs] at hn
  refine ⟨?_, hs⟩
  simpa [folderStamps, Function.comp] using hn

/-! ## Logins, listing and removal of items -/

theorem Folder_of_first_match (t : torDropDB) (l1 l2 : folders) (g : folder) (n : String)
    (hl : t.Folders = l1 ++ g :: l2) (hg : g.Name = n) (h1 : ∀ y ∈ l1, y.Name ≠ n) :
    t.Folder n = some g := by
  rw [Folder_eq_find, hl, List.find?_append]
  have : l1.find? (fun fd => decide (fd.Name = n)) = none := by
    rw [List.find?_eq_none]
    intro x hx
    simpa using h1 x hx
  rw [this]
  simp [List.find?, hg]

/-- The part of claim C21 that the code keeps. `RmFolderLogin` on a missing
folder replies the not-found error and changes nothing; on an existing folder
`fd` the stored folder afterwards has no binding for the login, every other
login keeps its passwords and every other field is the one of `fd`. The users
map of the stored folder is nil afterwards only when it was nil before. -/
theorem RmFolderLogin_effect (t : torDropFileServer) (saveOk : Bool)
    (folderName user : String) :
    (t.db.Folder folderName = none →
      t.RmFolderLogin saveOk folderName user = (some (.folderNotFound folderName), t)) ∧
    (∀ fd, t.db.Folder folderName = some fd →
      (t.RmFolderLogin saveOk folderName user).1 = (if saveOk then none else some .io) ∧
      ∃ fd1, (t.RmFolderLogin saveOk folderName user).2.db.Folder folderName = some fd1 ∧
        mapGet (fd1.Users.getD []) user = none ∧
        (∀ u, u ≠ user → mapGet (fd1.Users.getD []) u = mapGet (fd.Users.getD []) u) ∧
        { fd1 with Users := fd.Users } = fd ∧
        (fd1.Users = none ↔ fd.Users = none)) := by
  refine ⟨?_, ?_⟩
  · intro h
    simp [torDropFileServer.RmFolderLogin, h]
  · intro fd hfd
    have hname := Folder_name t.db folderName fd hfd
    cases hu : fd.Users with
    | none =>
      have hr : t.RmFolderLogin saveOk folderName user = (if saveOk then none else some .io, t) := by
        simp [torDropFileServer.RmFolderLogin, hfd, hu]
      rw [hr]
      refine ⟨rfl, fd, hfd, ?_, ?_, ?_, ?_⟩
      · simp [hu, mapGet]
      · intro u _; simp [hu]
      · rw [← hu]
      · simp [hu]
    | some m =>
      obtain ⟨hHas, hGet⟩ := Folder_some_Has t.db folderName fd hfd
      obtain ⟨l1, x, l2, hl, -, hl1, hx, hset⟩ := first_match t.db.Folders folderName hHas
      have hr : t.RmFolderLogin saveOk folderName user =
          (if saveOk then none else some .io,
           { t with db := { t.db with Folders :=
              l1 ++ { fd with Users := some (mapDelete m user) } :: l2 } }) := by
        simp only [torDropFileServer.RmFolderLogin, hfd, hu]
        rw [hset { fd with Users := some (mapDelete m user) } hname]
      rw [hr]
      refine ⟨rfl, { fd with Users := some (mapDelete m user) }, ?_, ?_, ?_, ?_, ?_⟩
      · exact Folder_of_first_match _ l1 l2 _ folderName rfl hname hl1
      · simp [mapGet_mapDelete]
      · intro u hne
        have hne1 : ¬ user = u := fun e => hne e.symm
        simp [mapGet_mapDelete, hne1]
      · rw [← hu]
      · simp

/-- Claim C21, evaluated on the code at the input that breaks it. Folder `f`
of `exAdminServer` has the single login `bob`; `RmFolderLogin` of `bob`
replies no error and the users map of the stored folder is the empty map,
not nil. -/
theorem C21_users_left_empty_not_nil :
    (exAdminServer.RmFolderLogin true "f" "bob").1 = none ∧
    ((exAdminServer.RmFolderLogin true "f" "bob").2.db.Folder "f").map (fun fd => fd.Users) =
      some (some []) ∧
    ((exAdminServer.RmFolderLogin true "f" "bob").2.db.Folder "f").map (fun fd => fd.Users) ≠
      some none := by
  decide

/-- The part of claim C22 that the code keeps. Without the uploads, `Items`
returns the completed items of the folder, in order, and no error; with the
uploads, and when the `Items` map has an entry for the folder, it returns
the completed items followed by the file views of the uploads of that folder,
in the order of the uploads. -/
theorem Items_of_entry (t : torDropFileServer) (folderName : String) :
    t.Items folderName false = ((mapGet t.db.Items folderName).getD [], none) ∧
    (∀ x, mapGet t.db.Items folderName = some x →
      t.Items folderName true =
        (x ++ (t.db.Uploads.filter (fun up => decide (up.Folder = folderName))).map
          (fun up => up.File), none)) := by
  refine ⟨?_, ?_⟩
  · unfold torDropFileServer.Items torDropDB.GetItems
    cases mapGet t.db.Items folderName <;> simp
  · intro x hx
    simp [torDropFileServer.Items, torDropDB.GetItems, hx, fileUploads.Items]

/-- Claim C22, evaluated on the code at the inputs that break it. After the
upload of `a` into the folder `f` was admitted, `f` exists, has no completed
item and one upload in flight, and `Items` of `f` with the uploads returns
the empty list; and `Items` of a name that is no folder returns the empty
list and no error. -/
theorem C22_listing_misses_uploads_and_not_found :
    (run newFileServer (traceFirstUpload exFolder)).db.Folder "f" =
      some { exFolder with CreateDate := 1 } ∧
    fileUploads.Items (run newFileServer (traceFirstUpload exFolder)).db.Uploads "f" =
      [exItem "a" 15] ∧
    (run newFileServer (traceFirstUpload exFolder)).Items "f" true = ([], none) ∧
    (run newFileServer (traceFirstUpload exFolder)).db.Folder "nope" = none ∧
    (run newFileServer (traceFirstUpload exFolder)).Items "nope" true = ([], none) := by
  decide

theorem Has_filter_name (items : fileItems) (name : String) :
    fileItems.Has (items.filter (fun i => !decide (i.Name = name))) name = false := by
  simp only [fileItems.Has, List.any_eq_false, List.mem_filter, Bool.not_eq_true',
    decide_eq_false_iff_not, decide_eq_true_eq]
  intro x hx
  exact hx.2

/-- Claim C23 as stated fails on the code. Folder `f` of `exAdminServer` has
the completed item `a`; when `os.Remove` of the stored file fails, `RmItem`
of `a` replies the error although the item exists, and the entry of `a` is
removed from the registry all the same; the same holds when `save` fails. -/
theorem RmItem_fails_with_item_present :
    fileItems.Has ((mapGet exAdminServer.db.Items "f").getD []) "a" = true ∧
    (exAdminServer.RmItem false true "f" "a").1 = some .io ∧
    mapGet (exAdminServer.RmItem false true "f" "a").2.db.Items "f" = some [exItem "b" 3] ∧
    (exAdminServer.RmItem false true "f" "a").2.db ≠ exAdminServer.db ∧
    (exAdminServer.RmItem true false "f" "a").1 = some .io ∧
    mapGet (exAdminServer.RmItem true false "f" "a").2.db.Items "f" = some [exItem "b" 3] := by
  decide

/-- Claim C23 as amended. `RmItem` of `name` in `folderName`, where `rmOk`
and `saveOk` tell whether `os.Remove` of the stored file and `save` succeed:
the reply is nil exactly when the folder has a completed item of that name
and both succeed. When the `Items` map has no entry for the folder or the
entry has no item of that name, the reply is the not-found error and the
server is unchanged. When the entry has such an item, whatever the file
system answers, the reply is nil or the error of the file system, `GetItem`
of the name fails afterwards with the not-found error, the entry of the
folder is the previous one without the items of that name (order kept), and
the other entries, the folders, the uploads, the limiters and the counters
are unchanged. -/
theorem RmItem_spec (t : torDropFileServer) (rmOk saveOk : Bool) (folderName name : String) :
    (mapGet t.db.Items folderName = none →
      t.RmItem rmOk saveOk folderName name = (some (.folderNotFound folderName), t)) ∧
    (∀ items, mapGet t.db.Items folderName = some items → fileItems.Has items name = false →
      t.RmItem rmOk saveOk folderName name = (some (.fileNotFound name folderName), t)) ∧
    (∀ items, mapGet t.db.Items folderName = some items → fileItems.Has items name = true →
      (t.RmItem rmOk saveOk folderName name).1 =
        (if !rmOk then some .io else if saveOk then none else some .io) ∧
      (t.RmItem rmOk saveOk folderName name).2.db.GetItem folderName name =
        .error (.fileNotFound name folderName) ∧
      mapGet (t.RmItem rmOk saveOk folderName name).2.db.Items folderName =
        some (items.filter (fun i => decide (i.Name ≠ name))) ∧
      (∀ n, n ≠ folderName →
        mapGet (t.RmItem rmOk saveOk folderName name).2.db.Items n = mapGet t.db.Items n) ∧
      (t.RmItem rmOk saveOk folderName name).2.db.Folders = t.db.Folders ∧
      (t.RmItem rmOk saveOk folderName name).2.db.Uploads = t.db.Uploads ∧
      (t.RmItem rmOk saveOk folderName name).2.folderUploadManagers = t.folderUploadManagers ∧
      (t.RmItem rmOk saveOk folderName name).2.folderDownloadManagers =
        t.folderDownloadManagers ∧
      (t.RmItem rmOk saveOk folderName name).2.activeDownloads = t.activeDownloads) ∧
    ((t.RmItem rmOk saveOk folderName name).1 = none ↔
      (∃ items, mapGet t.db.Items folderName = some items ∧ fileItems.Has items name = true) ∧
        rmOk = true ∧ saveOk = true) := by
  have h3 : ∀ items, mapGet t.db.Items folderName = some items →
      fileItems.Has items name = true → ∀ r s : Bool,
      t.RmItem r s folderName name =
        (if !r then some .io else if s then none else some .io,
         { db := { Uploads := t.db.Uploads, Folders := t.db.Folders,
                   Items := mapSet t.db.Items folderName
                     (items.filter (fun i => !decide (i.Name = name))) },
           folderUploadManagers := t.folderUploadManagers,
           folderDownloadManagers := t.folderDownloadManagers,
           activeDownloads := t.activeDownloads }) := by
    intro items hg hh r s
    simp [torDropFileServer.RmItem, torDropDB.RmItem, hg, hh]
  have h1 : ∀ r s : Bool, mapGet t.db.Items folderName = none →
      t.RmItem r s folderName name = (some (.folderNotFound folderName), t) := by
    intro r s hg
    simp [torDropFileServer.RmItem, torDropDB.RmItem, hg]
  have h2 : ∀ (r s : Bool) items, mapGet t.db.Items folderName = some items →
      fileItems.Has items name = false →
      t.RmItem r s folderName name = (some (.fileNotFound name folderName), t) := by
    intro r s items hg hh
    simp [torDropFileServer.RmItem, torDropDB.RmItem, hg, hh]
  have hf : ∀ items : fileItems, items.filter (fun i => !decide (i.Name = name)) =
      items.filter (fun i => decide (i.Name ≠ name)) := by
    intro items
    congr 1
    funext i
    simp
  refine ⟨h1 rmOk saveOk, h2 rmOk saveOk, ?_, ?_⟩
  · intro items hg hh
    rw [h3 items hg hh rmOk saveOk]
    refine ⟨rfl, ?_, ?_, ?_, rfl, rfl, rfl, rfl, rfl⟩
    · simp [torDropDB.GetItem, mapGet_mapSet, Has_filter_name]
    · simp [mapGet_mapSet, hf]
    · intro n hn
      have hn1 : ¬ folderName = n := fun e => hn e.symm
      simp [mapGet_mapSet, hn1]
  · constructor
    · intro h
      cases hg : mapGet t.db.Items folderName with
      | none => rw [h1 rmOk saveOk hg] at h; simp at h
      | some items =>
        cases hh : fileItems.Has items name with
        | false => rw [h2 rmOk saveOk items hg hh] at h; simp at h
        | true =>
          rw [h3 items hg hh rmOk saveOk] at h
          refine ⟨⟨items, rfl, hh⟩, ?_⟩
          cases rmOk <;> cases saveOk <;> simp at h ⊢
    · rintro ⟨⟨items, hg, hh⟩, hr, hs⟩
      subst hr hs
      rw [h3 items hg hh true true]
      rfl

/-- Instances of `RmItem_spec` on `exAdminServer`: removing the unknown item
`z` of `f` replies not-found, removing `a` of `f` leaves `b` in `f` and `a`
in `g`, and replies nil when the file system does not fail. -/
theorem RmItem_spec_witness :
    exAdminServer.RmItem true true "f" "z" = (some (.fileNotFound "z" "f"), exAdminServer) ∧
    mapGet (exAdminServer.RmItem true true "f" "a").2.db.Items "f" = some [exItem "b" 3] ∧
    mapGet (exAdminServer.RmItem true true "f" "a").2.db.Items "g" = some [exItem "a" 1] ∧
    (exAdminServer.RmItem true true "f" "a").1 = none :=
  ⟨(RmItem_spec exAdminServer true true "f" "z").2.1 [exItem "a" 15, exItem "b" 3]
      (by decide) (by decide),
   ((RmItem_spec exAdminServer true true "f" "a").2.2.1 [exItem "a" 15, exItem "b" 3]
      (by decide) (by decide)).2.2.1,
   (((RmItem_spec exAdminServer true true "f" "a").2.2.1 [exItem "a" 15, exItem "b" 3]
      (by decide) (by decide)).2.2.2.1 "g" (by decide)).trans (by decide),
   (RmItem_spec exAdminServer true true "f" "a").2.2.2.2
      ⟨⟨[exItem "a" 15, exItem "b" 3], by decide, by decide⟩, rfl, rfl⟩⟩

/-! ## Access to a folder -/

theorem loginMatches_iff (users : List (String × List String)) (p : userLogin) :
    loginMatches users p = true ↔
      p.Login ≠ "" ∧ ∃ ps, mapGet users p.Login = some ps ∧ p.Password ∈ ps := by
  unfold loginMatches
  cases hg : mapGet users p.Login with
  | none => simp
  | some ps =>
    by_cases hl : p.Login = ""
    · simp [hl]
    · simp only [Option.getD_some, ne_eq, hl, not_false_eq_true, true_and, gt_iff_lt,
        Option.some.injEq, exists_eq_left']
      constructor
      · intro h
        split at h
        · simp only [List.any_eq_true, decide_eq_true_eq] at h
          obtain ⟨x, hx, hxe⟩ := h
          exact hxe ▸ hx
        · simp at h
      · intro h
        have hpos : 0 < ps.length := List.length_pos_of_mem h
        rw [if_pos hpos]
        simp only [List.any_eq_true, decide_eq_true_eq]
        exact ⟨p.Password, h, rfl⟩

/-- Claim C24 as stated fails on the code. The folder `f` has no password and
the users map binds the empty login to the password `x`; the session holds
the empty login with the password `x` for `f`, a login of the users map with
its password among the passwords of that login; `hasAuthFolder` refuses the
access with the invalid-login error. -/
theorem hasAuthFolder_empty_login_refused :
    exEmptyLoginServer.db.Folder "f" = some { exFolder with Users := some [("", ["x"])] } ∧
    ({ exFolder with Users := some [("", ["x"])] } : folder).Password = none ∧
    (exSession "").user = some [("f", { Login := "", Password := "x" })] ∧
    mapGet [("", ["x"])] "" = some ["x"] ∧ "x" ∈ ["x"] ∧
    hasAuthFolder exEmptyLoginServer (exSession "") "f" = some .invalidLogin := by
  decide

/-- Claim C24 as amended. For an existing folder `fd` and a session that is
not the one of the administrator, `hasAuthFolder` grants the access exactly
when the folder has a non-empty password and the password that the session
stores for the folder equals it, or the folder has no non-empty password but
has users and the session stores for the folder a login that is not empty, is
bound in the users map, and whose stored password is among the passwords of
that login, or the folder has neither a non-empty password nor users. -/
theorem hasAuthFolder_spec (t : torDropFileServer) (s : sessionValues) (folderName : String)
    (fd : folder) (hfd : t.db.Folder folderName = some fd) :
    hasAuthFolder t s folderName = none ↔
      ((∃ pw, fd.Password = some pw ∧ pw ≠ "" ∧
          s.pwd.bind (fun v => mapGet v folderName) = some pw) ∨
       ((fd.Password = none ∨ fd.Password = some "") ∧ fd.Users.getD [] ≠ [] ∧
          ∃ p, s.user.bind (fun v => mapGet v folderName) = some p ∧ p.Login ≠ "" ∧
            ∃ ps, mapGet (fd.Users.getD []) p.Login = some ps ∧ p.Password ∈ ps) ∨
       ((fd.Password = none ∨ fd.Password = some "") ∧ fd.Users.getD [] = [])) := by
  unfold hasAuthFolder
  rw [hfd]
  dsimp only
  by_cases hp : fd.Password ≠ none ∧ fd.Password ≠ some ""
  · rw [if_pos hp]
    have hno : ¬ (fd.Password = none ∨ fd.Password = some "") := by
      intro h
      rcases h with h | h
      · exact hp.1 h
      · exact hp.2 h
    simp only [hno, false_and, or_false]
    obtain ⟨pw, hpw⟩ := Option.ne_none_iff_exists'.1 hp.1
    have hne : pw ≠ "" := fun e => hp.2 (by rw [hpw, e])
    cases hs : s.pwd with
    | none => simp
    | some vals =>
      cases hv : mapGet vals folderName with
      | none => simp [hv]
      | some q =>
        simp only [hpw, Option.some.injEq, Option.bind_some, hv]
        by_cases hq : q = pw
        · subst hq
          simp [hne, hv]
        · have hq1 : ¬ pw = q := fun e => hq e.symm
          simp [hq, hq1, hv]
  · rw [if_neg hp]
    have hno : fd.Password = none ∨ fd.Password = some "" := by
      by_cases h1 : fd.Password = none
      · exact Or.inl h1
      · by_cases h2 : fd.Password = some ""
        · exact Or.inr h2
        · exact absurd ⟨h1, h2⟩ hp
    have hfirst : ¬ ∃ pw, fd.Password = some pw ∧ pw ≠ "" ∧
        s.pwd.bind (fun v => mapGet v folderName) = some pw := by
      rintro ⟨pw, h1, h2, -⟩
      rcases hno with h | h
      · rw [h] at h1; cases h1
      · rw [h] at h1; cases h1; exact h2 rfl
    simp only [hfirst, hno, true_and, false_or]
    by_cases hu : (fd.Users.getD []).length > 0
    · rw [if_pos hu]
      have hne : fd.Users.getD [] ≠ [] := List.ne_nil_of_length_pos hu
      simp only [hne, not_false_eq_true, true_and, or_false]
      cases hs : s.user with
      | none => simp
      | some vals =>
        cases hv : mapGet vals folderName with
        | none => simp [hv]
        | some p =>
          have key := loginMatches_iff (fd.Users.getD []) p
          simp only [Option.bind_some, hv, Option.some.injEq]
          constructor
          · intro h
            have hm : loginMatches (fd.Users.getD []) p = true := by
              cases hlm : loginMatches (fd.Users.getD []) p with
              | false => simp [hlm] at h
              | true => rfl
            exact ⟨hne, p, by simp [hv], key.1 hm⟩
          · rintro ⟨-, p1, hp1, hrest⟩
            simp [hv] at hp1
            subst hp1
            simp [key.2 hrest]
    · rw [if_neg hu]
      have he : fd.Users.getD [] = [] := by
        cases h : fd.Users.getD [] with
        | nil => rfl
        | cons a l => rw [h] at hu; simp at hu
      simp [he]

/-- Instances of `hasAuthFolder_spec`. Folder `f` of `exAdminServer` has no
password and the login `bob` with the password `x`: the session that stores
`bob` with `x` is granted the access by the second case. Folder `f` of
`exEmptyLoginServer` has users and no password: a session without a stored
login is refused, since none of the three cases holds. -/
theorem hasAuthFolder_spec_witness :
    hasAuthFolder exAdminServer (exSession "bob") "f" = none ∧
    hasAuthFolder exEmptyLoginServer { pwd := some [], user := some [] } "f" ≠ none :=
  ⟨(hasAuthFolder_spec exAdminServer (exSession "bob") "f" exFolderF (by decide)).2
      (Or.inr (Or.inl ⟨Or.inl rfl, by decide,
        ⟨{ Login := "bob", Password := "x" }, by decide, by decide, ["x"], by decide,
          by decide⟩⟩)),
   fun h =>
    absurd ((hasAuthFolder_spec exEmptyLoginServer { pwd := some [], user := some [] } "f"
      { exFolder with Users := some [("", ["x"])] } (by decide)).1 h) (by decide)⟩

/-! ## The name of an uploaded file -/

theorem dropWhile_head_false {α : Type} (p : α → Bool) (l : List α) (a : α) (r : List α)
    (h : l.dropWhile p = a :: r) : p a = false := by
  induction l with
  | nil => simp at h
  | cons x l ih =>
    rw [List.dropWhile_cons] at h
    by_cases hx : p x = true
    · rw [if_pos hx] at h
      exact ih h
    · rw [if_neg hx] at h
      cases h
      simpa using hx

/-- The part of claim C25 that the code keeps. The name built for an
uploaded file is the base name of the file name cut to its first 220 bytes,
it has at most 220 bytes, and when the file name has a byte other than the
separator the name holds no separator. -/
theorem uploadFileName_bounds (filename : List Nat) :
    uploadFileName filename = (filepathBase filename).take 220 ∧
    (uploadFileName filename).length ≤ 220 ∧
    ((∃ b ∈ filename, b ≠ 47) → 47 ∉ uploadFileName filename) := by
  have h1 : uploadFileName filename = (filepathBase filename).take 220 := by
    unfold uploadFileName
    dsimp only
    split
    · rfl
    · rw [List.take_of_length_le (by omega)]
  refine ⟨h1, ?_, ?_⟩
  · rw [h1, List.length_take]
    omega
  · rintro ⟨b, hb, hb47⟩ hmem
    rw [h1] at hmem
    have hmem1 : 47 ∈ filepathBase filename := List.mem_of_mem_take hmem
    have hne : filename ≠ [] := by
      intro e
      rw [e] at hb
      simp at hb
    unfold filepathBase at hmem1
    rw [if_neg hne] at hmem1
    simp only [List.reverse_reverse] at hmem1
    cases hd : filename.reverse.dropWhile (fun b => decide (b = 47)) with
    | nil =>
      rw [List.dropWhile_eq_nil_iff] at hd
      have := hd b (List.mem_reverse.2 hb)
      simp only [decide_eq_true_eq] at this
      exact hb47 this
    | cons a r =>
      have ha := dropWhile_head_false _ _ _ _ hd
      rw [hd] at hmem1
      have ha1 : (!decide (a = 47)) = true := by simp [ha]
      rw [List.takeWhile_cons, if_pos ha1] at hmem1
      simp only [List.reverse_cons, List.append_eq_nil, List.cons_ne_self, and_false,
        if_false, List.mem_append, List.mem_reverse, List.mem_singleton] at hmem1
      rcases hmem1 with h | h
      · have := (mem_takeWhile_imp _ _ _ h).2
        simp at this
      · subst h
        simp at ha

/-- Claim C25, evaluated on the code at the inputs that break it. For the
file name `/` (the byte 47), and for `//`, the name built by the handler is
`/`, which is a path separator; for the file name `..` (bytes 46 46) it is
`..`, under which the stored file is not a child of the directory of the
folder. -/
theorem C25_separator_and_dots_pass :
    uploadFileName [47] = [47] ∧ 47 ∈ uploadFileName [47] ∧
    uploadFileName [47, 47] = [47] ∧
    uploadFileName [46, 46] = [46, 46] := by
  decide

/-! ## Upload events -/

/-- The part of claim C26 that the code keeps. An event whose error slot is
set and that reports at least as many bytes as the size of the item removes
the uploads of its key, forwards the error on the completion channel and
leaves the completed items as they were. -/
theorem error_event_when_complete (t : torDropFileServer) (renameOk saveOk : Bool)
    (ev : fileUpload) (msg : String) (he : ev.Error = some msg)
    (hc : ev.File.IsComplete = true) :
    (t.handleUploadEvent renameOk saveOk ev).1 =
      [.completed ev.Folder ev.File.Name (some (.source msg))] ∧
    (t.handleUploadEvent renameOk saveOk ev).2.db.Uploads = fileUploads.Remove t.db.Uploads ev ∧
    (t.handleUploadEvent renameOk saveOk ev).2.db.Items = t.db.Items := by
  simp [torDropFileServer.handleUploadEvent, hc, he, torDropDB.CompleteUpload]

/-- Claim C26, evaluated on the code at the input that breaks it. The upload
of `a` (15 bytes) into folder `f` is in flight; the event of its pipeline
carries the error of the source and reports 7 bytes. Handling it sends
nothing on the completion channel and the upload is still in the uploads. -/
theorem C26_error_event_below_size_ignored :
    (exBroken "a" 15).Error = some "unexpected EOF" ∧
    ((run newFileServer (traceFirstUpload exFolder)).handleUploadEvent true true
      (exBroken "a" 15)).1 = [] ∧
    fileUploads.Has ((run newFileServer (traceFirstUpload exFolder)).handleUploadEvent true true
      (exBroken "a" 15)).2.db.Uploads "f" "a" = true := by
  decide

theorem GetItem_ok_iff (t : torDropDB) (folderName name : String) :
    (∃ a, t.GetItem folderName name = .ok a) ↔
      fileItems.Has ((mapGet t.Items folderName).getD []) name = true := by
  unfold torDropDB.GetItem
  cases hm : mapGet t.Items folderName with
  | none => simp [fileItems.Has]
  | some items =>
    cases hh : fileItems.Has items name <;> simp [hh]

theorem handleUploadEvent_duplicate (t : torDropFileServer) (renameOk saveOk : Bool)
    (ev : fileUpload) (hc : ev.File.IsComplete = true) (he : ev.Error = none)
    (hh : fileItems.Has ((mapGet t.db.Items ev.Folder).getD []) ev.File.Name = true) :
    t.handleUploadEvent renameOk saveOk ev =
      ([.completed ev.Folder ev.File.Name (some (.alreadyExists ev.File.Name)),
        .removeFile ev.TmpFile], { t with db := t.db.CompleteUpload ev }) := by
  obtain ⟨a, ha⟩ := (GetItem_ok_iff (t.db.CompleteUpload ev) ev.Folder ev.File.Name).2
    (by simpa [torDropDB.CompleteUpload] using hh)
  unfold torDropFileServer.handleUploadEvent
  simp only [hc, he, if_true]
  rw [ha]

theorem handleUploadEvent_appended (t : torDropFileServer) (saveOk : Bool)
    (ev : fileUpload) (hc : ev.File.IsComplete = true) (he : ev.Error = none)
    (hh : fileItems.Has ((mapGet t.db.Items ev.Folder).getD []) ev.File.Name = false)
    (hF : ev.Folder ≠ "") (hN : ev.File.Name ≠ "")
    (hfd : folders.Has t.db.Folders ev.Folder = true) :
    t.handleUploadEvent true saveOk ev =
      ([.mkdirAll ev.Folder, .rename ev.TmpFile ev.Folder ev.File.Name, .save,
        .completed ev.Folder ev.File.Name (if saveOk then none else some .io)],
       { db := { Uploads := fileUploads.Remove t.db.Uploads ev, Folders := t.db.Folders,
                 Items := mapSet t.db.Items ev.Folder
                   ((mapGet t.db.Items ev.Folder).getD [] ++ [ev.File]) },
         folderUploadManagers := t.folderUploadManagers,
         folderDownloadManagers := t.folderDownloadManagers,
         activeDownloads := t.activeDownloads }) := by
  have hno : ∀ a, (t.db.CompleteUpload ev).GetItem ev.Folder ev.File.Name ≠ .ok a := by
    intro a ha
    have := (GetItem_ok_iff (t.db.CompleteUpload ev) ev.Folder ev.File.Name).1 ⟨a, ha⟩
    simp only [torDropDB.CompleteUpload] at this
    rw [hh] at this
    cases this
  have hfd1 : ((t.db.CompleteUpload ev).Folder ev.Folder).isNone = false := by
    have h1 := Has_eq_isSome (t.db.CompleteUpload ev) ev.Folder
    simp only [torDropDB.CompleteUpload] at h1
    rw [hfd] at h1
    cases h2 : (t.db.CompleteUpload ev).Folder ev.Folder with
    | none => simp [torDropDB.CompleteUpload] at h2; rw [h2] at h1; cases h1
    | some x => rfl
  have hadd : (t.db.CompleteUpload ev).AddItem ev.Folder ev.File =
      (none, { Uploads := fileUploads.Remove t.db.Uploads ev, Folders := t.db.Folders,
               Items := mapSet t.db.Items ev.Folder
                 ((mapGet t.db.Items ev.Folder).getD [] ++ [ev.File]) }) := by
    unfold torDropDB.AddItem
    rw [if_neg hF, hfd1]
    simp [hN, torDropDB.CompleteUpload]
  unfold torDropFileServer.handleUploadEvent
  simp only [hc, he, if_true]
  cases hg : (t.db.CompleteUpload ev).GetItem ev.Folder ev.File.Name with
  | ok a => exact absurd hg (hno a)
  | error e =>
    simp only [Bool.not_true, Bool.false_eq_true, if_false]
    rw [hadd]

/-- Claim C27 as stated fails on the code. After the upload of `a` into the
existing folder `f` was admitted, its terminal event without error is handled
with a rename that succeeds and a `save` that fails: the item is appended and
the result forwarded is the error of `save`, not nil. And for a terminal event
whose name is empty, or whose folder name is empty while the registry holds a
folder of that name, the rename succeeds, `AddItem` refuses, nothing is
appended and its error is forwarded. -/
theorem terminal_event_forwards_error_after_rename :
    ((run newFileServer (traceFirstUpload exFolder)).handleUploadEvent true false
      (exDone "a" 15)).1 =
      [.mkdirAll "f", .rename "/tmp/tor-drop1" "f" "a", .save, .completed "f" "a" (some .io)] ∧
    mapGet ((run newFileServer (traceFirstUpload exFolder)).handleUploadEvent true false
      (exDone "a" 15)).2.db.Items "f" = some [(exDone "a" 15).File] ∧
    ((exServer exFolder []).handleUploadEvent true true (exDone "" 15)).1 =
      [.mkdirAll "f", .rename "/tmp/tor-drop1" "f" "", .completed "f" "" (some .itemNameEmpty),
       .removeStored "f" ""] ∧
    mapGet ((exServer exFolder []).handleUploadEvent true true (exDone "" 15)).2.db.Items "f" =
      some [] ∧
    ((exServer { exFolder with Name := "" } []).handleUploadEvent true true
      { exDone "a" 15 with Folder := "" }).1 =
      [.mkdirAll "", .rename "/tmp/tor-drop1" "" "a", .completed "" "a" (some .folderNameEmpty),
       .removeStored "" "a"] := by
  decide

/-- Claim C27 as amended. A terminal event without error, for folder `F` and
name `N`: the uploads left are the previous ones whose key is not `(F, N)`,
in order, and no entry of `Items` other than the one of `F` changes; when `F`
has a completed item named `N`, the completed items are unchanged and the
duplicate error is forwarded, the temp file being removed; otherwise, when `F`
and `N` are not empty, the folder exists and the rename succeeds, the entry
of `F` becomes the previous items followed by the item of the event, and the
result forwarded is nil when `save` succeeds and the error of `save` when it
fails. -/
theorem terminal_event_spec (t : torDropFileServer) (renameOk saveOk : Bool) (ev : fileUpload)
    (hc : ev.File.IsComplete = true) (he : ev.Error = none) :
    (t.handleUploadEvent renameOk saveOk ev).2.db.Uploads =
      t.db.Uploads.filter
        (fun up => !(decide (up.Folder = ev.Folder) && decide (up.File.Name = ev.File.Name))) ∧
    (∀ up ∈ (t.handleUploadEvent renameOk saveOk ev).2.db.Uploads,
      ¬ (up.Folder = ev.Folder ∧ up.File.Name = ev.File.Name)) ∧
    (∀ n, n ≠ ev.Folder →
      mapGet (t.handleUploadEvent renameOk saveOk ev).2.db.Items n = mapGet t.db.Items n) ∧
    (fileItems.Has ((mapGet t.db.Items ev.Folder).getD []) ev.File.Name = true →
      (t.handleUploadEvent renameOk saveOk ev).2.db.Items = t.db.Items ∧
      (t.handleUploadEvent renameOk saveOk ev).1 =
        [.completed ev.Folder ev.File.Name (some (.alreadyExists ev.File.Name)),
         .removeFile ev.TmpFile]) ∧
    (fileItems.Has ((mapGet t.db.Items ev.Folder).getD []) ev.File.Name = false →
      ev.Folder ≠ "" → ev.File.Name ≠ "" → folders.Has t.db.Folders ev.Folder = true →
      renameOk = true →
      mapGet (t.handleUploadEvent renameOk saveOk ev).2.db.Items ev.Folder =
        some ((mapGet t.db.Items ev.Folder).getD [] ++ [ev.File]) ∧
      (t.handleUploadEvent renameOk saveOk ev).1 =
        [.mkdirAll ev.Folder, .rename ev.TmpFile ev.Folder ev.File.Name, .save,
         .completed ev.Folder ev.File.Name (if saveOk then none else some .io)]) := by
  have hI := handleUploadEvent_Items t renameOk saveOk ev
  have hU : (t.handleUploadEvent renameOk saveOk ev).2.db.Uploads =
      t.db.Uploads.filter
        (fun up => !(decide (up.Folder = ev.Folder) && decide (up.File.Name = ev.File.Name))) := by
    have hA := AddItem_frame (t.db.CompleteUpload ev) ev.Folder ev.File
    rcases hadd : (t.db.CompleteUpload ev).AddItem ev.Folder ev.File with ⟨e, db⟩
    rw [hadd] at hA
    have hR : (t.db.CompleteUpload ev).Uploads = t.db.Uploads.filter
        (fun up => !(decide (up.Folder = ev.Folder) && decide (up.File.Name = ev.File.Name))) :=
      rfl
    unfold torDropFileServer.handleUploadEvent
    simp only [hc, he, if_true]
    rw [hadd]
    cases e <;> dsimp only <;> repeat' split
    all_goals first
      | exact hR
      | exact hA.2.trans hR
  refine ⟨hU, ?_, ?_, ?_, ?_⟩
  · intro up hup
    rw [hU] at hup
    have := (List.mem_filter.1 hup).2
    rintro ⟨h1, h2⟩
    simp [h1, h2] at this
  · intro n hn
    rcases hI with h | ⟨-, h⟩
    · rw [h]
    · rw [h, mapGet_mapSet, if_neg (fun e => hn e.symm)]
  · intro hh
    rw [handleUploadEvent_duplicate t renameOk saveOk ev hc he hh]
    exact ⟨rfl, rfl⟩
  · intro hh hF hN hfd hr
    subst hr
    rw [handleUploadEvent_appended t saveOk ev hc he hh hF hN hfd]
    refine ⟨?_, rfl⟩
    simp [mapGet_mapSet]

/-- Instance of `terminal_event_spec`: after the upload of `a` into `f` was
admitted, the terminal event of `a` leaves `a` as the only completed item of
`f` and no upload. -/
theorem terminal_event_spec_witness :
    mapGet ((run newFileServer (traceFirstUpload exFolder)).handleUploadEvent true true
      (exDone "a" 15)).2.db.Items "f" = some [(exDone "a" 15).File] ∧
    ((run newFileServer (traceFirstUpload exFolder)).handleUploadEvent true true
      (exDone "a" 15)).2.db.Uploads = [] :=
  ⟨((terminal_event_spec (run newFileServer (traceFirstUpload exFolder)) true true
      (exDone "a" 15) (by decide) (by decide)).2.2.2.2 (by decide) (by decide) (by decide)
      (by decide) rfl).1.trans (by decide),
   (terminal_event_spec (run newFileServer (traceFirstUpload exFolder)) true true
      (exDone "a" 15) (by decide) (by decide)).1.trans (by decide)⟩

theorem AddItem_none (t : torDropDB) (folderName : String) (item : fileItem) (db : torDropDB)
    (h : t.AddItem folderName item = (none, db)) :
    db = { Uploads := t.Uploads, Folders := t.Folders,
           Items := mapSet t.Items folderName ((mapGet t.Items folderName).getD [] ++ [item]) } := by
  unfold torDropDB.AddItem at h
  repeat' split at h
  all_goals first
    | (simp at h; done)
    | (cases h; rfl)

theorem handleUploadEvent_nil_appended (t : torDropFileServer) (renameOk saveOk : Bool)
    (ev : fileUpload)
    (h : Effect.completed ev.Folder ev.File.Name none ∈
      (t.handleUploadEvent renameOk saveOk ev).1) :
    mapGet (t.handleUploadEvent renameOk saveOk ev).2.db.Items ev.Folder =
      some ((mapGet t.db.Items ev.Folder).getD [] ++ [ev.File]) := by
  revert h
  unfold torDropFileServer.handleUploadEvent
  dsimp only
  repeat' split
  all_goals first
    | (intro h; simp at h; done)
    | (intro _
       have hdb := AddItem_none _ _ _ _ (by assumption)
       subst hdb
       simp [mapGet_mapSet, torDropDB.CompleteUpload])

/-- Claim C28 as stated fails on the code. The header of the item `a`
carries the date 5; an update tick reads the clock at 100 before the terminal
event that the pipeline of the upload sent at 120 is handled; the item
appended to the registry has the date 5 of the header, which is before 100,
not the time of the completion. -/
theorem completed_item_dated_by_header :
    ((mapGet (run newFileServer traceLateCompletion).db.Items "f").getD []).map
      (fun i => (i.Name, i.CreateDate)) = [("a", 5)] ∧
    traceLateCompletion.drop 1 =
      [.uploadItem "f" (exItem "a" 15) 5, .updateTick 100,
       .uploadEvent (pipelineEvent "f" (exItem "a" 15) "/tmp/tor-drop1" 120 15 none)
         true true] ∧
    (exItem "a" 15).CreateDate = 5 ∧
    ¬ ((100 : Int) ≤ 5) := by
  decide

/-- Claim C28 as amended. `UploadItem` that admits the header `item` into
`folderName` appends the record whose file is `item`; and in every state,
when the handling of an event of the pipeline of that upload forwards the nil
result on the completion channel (the upload completed successfully), the
entry of the folder becomes the previous items followed by `item` with the
count of the bytes written, all other fields as in the header: the item
appended has the creation date that the submitted header carried, whatever
the clock reads when the event is sent or handled. -/
theorem completed_item_keeps_header_date (folderName : String) (item : fileItem) :
    (∀ (t0 : torDropFileServer) (now0 : Int), (t0.UploadItem now0 folderName item).1 = none →
      (t0.UploadItem now0 folderName item).2.db.Uploads = t0.db.Uploads ++
        [{ TmpFile := "", Folder := folderName, File := item, LastActive := now0,
           Error := none }]) ∧
    (∀ (t : torDropFileServer) (renameOk saveOk : Bool) (tmp : String) (now : Int)
        (count : Nat) (err : Option String),
      Effect.completed folderName item.Name none ∈
        (t.handleUploadEvent renameOk saveOk
          (pipelineEvent folderName item tmp now count err)).1 →
      mapGet (t.handleUploadEvent renameOk saveOk
          (pipelineEvent folderName item tmp now count err)).2.db.Items folderName =
        some ((mapGet t.db.Items folderName).getD [] ++ [{ item with Uploaded := count }]) ∧
      ∃ items i, mapGet (t.handleUploadEvent renameOk saveOk
          (pipelineEvent folderName item tmp now count err)).2.db.Items folderName =
        some (items ++ [i]) ∧ i.Name = item.Name ∧ i.CreateDate = item.CreateDate) := by
  constructor
  · intro t0 now0
    unfold torDropFileServer.UploadItem
    repeat' split
    all_goals simp
  · intro t renameOk saveOk tmp now count err h
    have key : mapGet (t.handleUploadEvent renameOk saveOk
          (pipelineEvent folderName item tmp now count err)).2.db.Items folderName =
        some ((mapGet t.db.Items folderName).getD [] ++ [{ item with Uploaded := count }]) :=
      handleUploadEvent_nil_appended t renameOk saveOk
        (pipelineEvent folderName item tmp now count err) h
    exact ⟨key, _, _, key, rfl, rfl⟩

/-- Instance of `completed_item_keeps_header_date`: the terminal event that
the pipeline of the upload of `a` into `f` sends at 120 forwards nil, and the
item appended is the header of `a`, dated 5, with its 15 bytes written. -/
theorem completed_item_keeps_header_date_witness :
    mapGet ((run newFileServer (traceFirstUpload exFolder)).handleUploadEvent true true
      (pipelineEvent "f" (exItem "a" 15) "/tmp/tor-drop1" 120 15 none)).2.db.Items "f" =
      some [{ exItem "a" 15 with Uploaded := 15 }] :=
  ((completed_item_keeps_header_date "f" (exItem "a" 15)).2
    (run newFileServer (traceFirstUpload exFolder)) true true "/tmp/tor-drop1" 120 15 none
    (by decide)).1.trans (by decide)

theorem UpdateNewer_first (f : fileUploads) (e : fileUpload)
    (h : ∃ r ∈ f, r.Folder = e.Folder ∧ r.File.Name = e.File.Name ∧
      r.LastActive < e.LastActive) :
    ∃ l1 r l2, f = l1 ++ r :: l2 ∧
      (r.Folder = e.Folder ∧ r.File.Name = e.File.Name ∧ r.LastActive < e.LastActive) ∧
      (∀ y ∈ l1, ¬ (y.Folder = e.Folder ∧ y.File.Name = e.File.Name ∧
        y.LastActive < e.LastActive)) ∧
      fileUploads.UpdateNewer f e = (l1 ++ e :: l2, true) := by
  induction f with
  | nil => simp at h
  | cons a f ih =>
    by_cases ha : a.Folder = e.Folder ∧ a.File.Name = e.File.Name ∧ a.LastActive < e.LastActive
    · refine ⟨[], a, f, rfl, ha, by simp, ?_⟩
      unfold fileUploads.UpdateNewer
      simp [fileUpload.sameKey, ha.1, ha.2.1, ha.2.2]
    · have h1 : ∃ r ∈ f, r.Folder = e.Folder ∧ r.File.Name = e.File.Name ∧
          r.LastActive < e.LastActive := by
        obtain ⟨r, hr, hP⟩ := h
        rcases List.mem_cons.1 hr with rfl | hr
        · exact absurd hP ha
        · exact ⟨r, hr, hP⟩
      obtain ⟨l1, r, l2, hf, hP, hl1, hres⟩ := ih h1
      refine ⟨a :: l1, r, l2, by rw [hf]; rfl, hP, ?_, ?_⟩
      · intro y hy
        rcases List.mem_cons.1 hy with rfl | hy
        · exact ha
        · exact hl1 y hy
      · unfold fileUploads.UpdateNewer
        have hc : (a.sameKey e.Folder e.File.Name && decide (a.LastActive < e.LastActive)) =
            false := by
          simp only [fileUpload.sameKey, Bool.and_eq_false_iff, decide_eq_false_iff_not]
          by_cases h1 : a.Folder = e.Folder
          · by_cases h2 : a.File.Name = e.File.Name
            · right
              exact fun h3 => ha ⟨h1, h2, h3⟩
            · left; right; exact h2
          · left; left; exact h1
        rw [hc]
        simp [hres]

theorem UpdateNewer_none (f : fileUploads) (e : fileUpload)
    (h : ∀ r ∈ f, ¬ (r.Folder = e.Folder ∧ r.File.Name = e.File.Name ∧
      r.LastActive < e.LastActive)) :
    fileUploads.UpdateNewer f e = (f, false) := by
  induction f with
  | nil => rfl
  | cons a f ih =>
    have ha := h a (List.mem_cons_self _ _)
    have hc : (a.sameKey e.Folder e.File.Name && decide (a.LastActive < e.LastActive)) =
        false := by
      simp only [fileUpload.sameKey, Bool.and_eq_false_iff, decide_eq_false_iff_not]
      by_cases h1 : a.Folder = e.Folder
      · by_cases h2 : a.File.Name = e.File.Name
        · right
          exact fun h3 => ha ⟨h1, h2, h3⟩
        · left; right; exact h2
      · left; left; exact h1
    unfold fileUploads.UpdateNewer
    rw [hc]
    simp [ih (fun r hr => h r (List.mem_cons_of_mem _ hr))]

theorem UpdateNewer_monotone (f : fileUploads) (e : fileUpload) :
    List.Forall₂ (fun a b => a.Folder = b.Folder ∧ a.File.Name = b.File.Name ∧
      a.LastActive ≤ b.LastActive) f (fileUploads.UpdateNewer f e).1 := by
  have hrefl : ∀ l : fileUploads, List.Forall₂ (fun a b : fileUpload => a.Folder = b.Folder ∧
      a.File.Name = b.File.Name ∧ a.LastActive ≤ b.LastActive) l l := by
    intro l
    induction l with
    | nil => exact List.Forall₂.nil
    | cons a l ih => exact List.Forall₂.cons ⟨rfl, rfl, le_refl _⟩ ih
  induction f with
  | nil => exact List.Forall₂.nil
  | cons a f ih =>
    unfold fileUploads.UpdateNewer
    split
    · rename_i hc
      simp only [fileUpload.sameKey, Bool.and_eq_true, decide_eq_true_eq] at hc
      exact List.Forall₂.cons ⟨hc.1.1, hc.1.2, le_of_lt hc.2⟩ (hrefl f)
    · exact List.Forall₂.cons ⟨rfl, rfl, le_refl _⟩ ih

/-- Claim C29. Handling an event `e` that is not terminal sends nothing and
changes the uploads only, by `UpdateNewer`: when the uploads hold a record
of the key of `e` whose `LastActive` is before the one of `e`, the first such
record is overwritten by `e` (so its `LastActive` and its byte count become
those of `e`) and every other record is as before; when they hold none, the
uploads are unchanged. Items and folders are unchanged, and position by
position every record keeps its key and its `LastActive` does not
decrease. -/
theorem UpdateNewer_spec (t : torDropFileServer) (renameOk saveOk : Bool) (e : fileUpload)
    (hnt : e.File.IsComplete = false) :
    (t.handleUploadEvent renameOk saveOk e).1 = [] ∧
    (t.handleUploadEvent renameOk saveOk e).2.db.Uploads =
      (fileUploads.UpdateNewer t.db.Uploads e).1 ∧
    (t.handleUploadEvent renameOk saveOk e).2.db.Items = t.db.Items ∧
    (t.handleUploadEvent renameOk saveOk e).2.db.Folders = t.db.Folders ∧
    ((∃ r ∈ t.db.Uploads, r.Folder = e.Folder ∧ r.File.Name = e.File.Name ∧
        r.LastActive < e.LastActive) →
      ∃ l1 r l2, t.db.Uploads = l1 ++ r :: l2 ∧
        (r.Folder = e.Folder ∧ r.File.Name = e.File.Name ∧ r.LastActive < e.LastActive) ∧
        (∀ y ∈ l1, ¬ (y.Folder = e.Folder ∧ y.File.Name = e.File.Name ∧
          y.LastActive < e.LastActive)) ∧
        (t.handleUploadEvent renameOk saveOk e).2.db.Uploads = l1 ++ e :: l2) ∧
    ((∀ r ∈ t.db.Uploads, ¬ (r.Folder = e.Folder ∧ r.File.Name = e.File.Name ∧
        r.LastActive < e.LastActive)) →
      (t.handleUploadEvent renameOk saveOk e).2.db.Uploads = t.db.Uploads) ∧
    List.Forall₂ (fun a b => a.Folder = b.Folder ∧ a.File.Name = b.File.Name ∧
      a.LastActive ≤ b.LastActive) t.db.Uploads
      (t.handleUploadEvent renameOk saveOk e).2.db.Uploads := by
  have hr : t.handleUploadEvent renameOk saveOk e =
      ([], { t with db := (t.db.UploadEventNewer e).2 }) := by
    unfold torDropFileServer.handleUploadEvent
    simp [hnt]
  have hU : (t.handleUploadEvent renameOk saveOk e).2.db.Uploads =
      (fileUploads.UpdateNewer t.db.Uploads e).1 := by
    rw [hr]
    rfl
  refine ⟨by rw [hr], hU, by rw [hr]; rfl, by rw [hr]; rfl, ?_, ?_, ?_⟩
  · intro h
    obtain ⟨l1, r, l2, hf, hP, hl1, hres⟩ := UpdateNewer_first t.db.Uploads e h
    exact ⟨l1, r, l2, hf, hP, hl1, by rw [hU, hres]⟩
  · intro h
    rw [hU, UpdateNewer_none t.db.Uploads e h]
  · rw [hU]
    exact UpdateNewer_monotone t.db.Uploads e

/-- Instance of `UpdateNewer_spec`: while the upload of `a` into `f`, admitted
at 2, is in flight, the event that reports 7 bytes at 9 overwrites the record
of `a`. -/
theorem UpdateNewer_spec_witness :
    ((run newFileServer (traceFirstUpload exFolder)).handleUploadEvent true true
      { exBroken "a" 15 with Error := none }).2.db.Uploads =
      [{ exBroken "a" 15 with Error := none }] :=
  (UpdateNewer_spec (run newFileServer (traceFirstUpload exFolder)) true true
    { exBroken "a" 15 with Error := none } (by decide)).2.1.trans (by decide)

/-! ## The limiter registries -/

theorem setLimit_spec (m : List (String × Int)) (k : String) (n : Int)
    (h0 : mapGet m k ≠ some 0) :
    mapGet (setLimit m k n) k = (if n = 0 then none else some n) ∧
    ∀ k1, k1 ≠ k → mapGet (setLimit m k n) k1 = mapGet m k1 := by
  unfold setLimit
  cases hg : mapGet m k with
  | none =>
    dsimp only
    by_cases hn : n = 0
    · rw [if_pos hn, if_pos hn]
      refine ⟨by simp [mapGet_mapDelete], ?_⟩
      intro k1 hk
      have hk1 : ¬ k = k1 := fun e => hk e.symm
      simp [mapGet_mapDelete, hk1]
    · rw [if_neg hn, if_neg hn]
      refine ⟨by simp [mapGet_mapSet], ?_⟩
      intro k1 hk
      have hk1 : ¬ k = k1 := fun e => hk e.symm
      simp [mapGet_mapSet, hk1]
  | some x =>
    dsimp only
    by_cases hx : x = n
    · rw [if_pos hx]
      subst hx
      have hx0 : ¬ x = 0 := by
        intro e
        rw [hg, e] at h0
        exact h0 rfl
      rw [if_neg hx0]
      exact ⟨hg, fun _ _ => rfl⟩
    · rw [if_neg hx]
      by_cases hn : n = 0
      · rw [if_pos hn, if_pos hn]
        refine ⟨by simp [mapGet_mapDelete], ?_⟩
        intro k1 hk
        have hk1 : ¬ k = k1 := fun e => hk e.symm
        simp [mapGet_mapDelete, hk1]
      · rw [if_neg hn, if_neg hn]
        refine ⟨by simp [mapGet_mapSet], ?_⟩
        intro k1 hk
        have hk1 : ¬ k = k1 := fun e => hk e.symm
        simp [mapGet_mapSet, hk1]

theorem applyLimits_registries (t : torDropFileServer) (fd : folder) :
    (t.applyLimits fd).folderUploadManagers =
      (match fd.MaxUpBytesPerSec with
        | some r => setLimit t.folderUploadManagers fd.Name (toInt r)
        | none => t.folderUploadManagers) ∧
    (t.applyLimits fd).folderDownloadManagers =
      (match fd.MaxDlBytesPerSec with
        | some r => setLimit t.folderDownloadManagers fd.Name (toInt r)
        | none => t.folderDownloadManagers) := by
  unfold torDropFileServer.applyLimits torDropFileServer.setDownloadLimit
    torDropFileServer.setUploadLimit
  cases fd.MaxDlBytesPerSec <;> cases fd.MaxUpBytesPerSec <;> exact ⟨rfl, rfl⟩

/-- The part of claim C30 that the code keeps. After `CreateFolder` or
`UpdateFolder` accepted the folder value `fd`, each registry is the previous
one when the rate of `fd` is absent, and else the previous one with the rate
set under the name that `fd` carries: the entry holds the rate when it is not
0, there is no entry when it is 0, and the entries of the other names are
unchanged. After `RmFolder` removed a folder neither registry has an entry
under its name, and the entries of the other names are unchanged. -/
theorem limiters_effect (t : torDropFileServer) (fd : folder) (now : Int)
    (saveOk rmOk users : Bool) (name : String) :
    ((t.db.CreateFolder now fd).1 = none →
      (t.CreateFolder now saveOk fd).2.folderUploadManagers =
        (t.applyLimits fd).folderUploadManagers ∧
      (t.CreateFolder now saveOk fd).2.folderDownloadManagers =
        (t.applyLimits fd).folderDownloadManagers) ∧
    ((t.db.UpdateFolder fd users).1 = none →
      (t.UpdateFolder saveOk fd users).2.folderUploadManagers =
        (t.applyLimits fd).folderUploadManagers ∧
      (t.UpdateFolder saveOk fd users).2.folderDownloadManagers =
        (t.applyLimits fd).folderDownloadManagers) ∧
    (∀ r, fd.MaxUpBytesPerSec = some r → mapGet t.folderUploadManagers fd.Name ≠ some 0 →
      mapGet (t.applyLimits fd).folderUploadManagers fd.Name =
        (if toInt r = 0 then none else some (toInt r)) ∧
      ∀ k, k ≠ fd.Name →
        mapGet (t.applyLimits fd).folderUploadManagers k = mapGet t.folderUploadManagers k) ∧
    (∀ r, fd.MaxDlBytesPerSec = some r → mapGet t.folderDownloadManagers fd.Name ≠ some 0 →
      mapGet (t.applyLimits fd).folderDownloadManagers fd.Name =
        (if toInt r = 0 then none else some (toInt r)) ∧
      ∀ k, k ≠ fd.Name →
        mapGet (t.applyLimits fd).folderDownloadManagers k =
          mapGet t.folderDownloadManagers k) ∧
    (fd.MaxUpBytesPerSec = none →
      (t.applyLimits fd).folderUploadManagers = t.folderUploadManagers) ∧
    (fd.MaxDlBytesPerSec = none →
      (t.applyLimits fd).folderDownloadManagers = t.folderDownloadManagers) ∧
    (folders.Has t.db.Folders name = true →
      mapGet (t.RmFolder rmOk saveOk name).2.folderUploadManagers name = none ∧
      mapGet (t.RmFolder rmOk saveOk name).2.folderDownloadManagers name = none ∧
      ∀ k, k ≠ name →
        mapGet (t.RmFolder rmOk saveOk name).2.folderUploadManagers k =
          mapGet t.folderUploadManagers k ∧
        mapGet (t.RmFolder rmOk saveOk name).2.folderDownloadManagers k =
          mapGet t.folderDownloadManagers k) := by
  have hreg := applyLimits_registries t fd
  refine ⟨?_, ?_, ?_, ?_, ?_, ?_, ?_⟩
  · intro h
    rcases hc : t.db.CreateFolder now fd with ⟨e, db⟩
    rw [hc] at h
    simp only at h
    subst h
    have h1 := applyLimits_registries { t with db := db } fd
    unfold torDropFileServer.CreateFolder
    rw [hc]
    dsimp only
    rw [h1.1, h1.2, hreg.1, hreg.2]
    exact ⟨rfl, rfl⟩
  · intro h
    rcases hc : t.db.UpdateFolder fd users with ⟨e, db⟩
    rw [hc] at h
    simp only at h
    subst h
    have h1 := applyLimits_registries { t with db := db } fd
    unfold torDropFileServer.UpdateFolder
    rw [hc]
    dsimp only
    rw [h1.1, h1.2, hreg.1, hreg.2]
    exact ⟨rfl, rfl⟩
  · intro r hr h0
    rw [hreg.1, hr]
    exact setLimit_spec _ _ _ h0
  · intro r hr h0
    rw [hreg.2, hr]
    exact setLimit_spec _ _ _ h0
  · intro hr
    rw [hreg.1, hr]
  · intro hr
    rw [hreg.2, hr]
  · intro hh
    have hr : (t.RmFolder rmOk saveOk name).2.folderUploadManagers =
          mapDelete t.folderUploadManagers name ∧
        (t.RmFolder rmOk saveOk name).2.folderDownloadManagers =
          mapDelete t.folderDownloadManagers name := by
      simp [torDropFileServer.RmFolder, torDropDB.RmFolder, hh]
    rw [hr.1, hr.2]
    refine ⟨by simp [mapGet_mapDelete], by simp [mapGet_mapDelete], ?_⟩
    intro k hk
    have hk1 : ¬ name = k := fun e => hk e.symm
    simp [mapGet_mapDelete, hk1]

/-- Claim C30, evaluated on the code at the inputs that break it. First, the
folder `f` is created with an upload rate of 100 and a download rate of 200
and then updated with a folder value whose rates are absent: the stored
folder has no rate, and both registries still hold the entries of `f` with
the rates 100 and 200. Second, `CreateFolder` of the name `a/b` with an
upload rate of 100 stores the folder under the name `a`, and the upload
registry holds the entry under `a/b` and none under `a`. -/
theorem C30_limiter_kept_and_keyed_by_raw_name :
    ((runCalls newFileServer traceUncap).db.Folder "f").map
      (fun fd => (fd.MaxUpBytesPerSec, fd.MaxDlBytesPerSec)) = some (none, none) ∧
    (runCalls newFileServer traceUncap).folderUploadManagers = [("f", 100)] ∧
    (runCalls newFileServer traceUncap).folderDownloadManagers = [("f", 200)] ∧
    (newFileServer.CreateFolder 1 true { exCapped with Name := "a/b" }).1 = none ∧
    (newFileServer.CreateFolder 1 true { exCapped with Name := "a/b" }).2.db.Folders.map
      (fun fd => fd.Name) = ["a"] ∧
    (newFileServer.CreateFolder 1 true { exCapped with Name := "a/b" }).2.folderUploadManagers =
      [("a/b", 100)] ∧
    mapGet (newFileServer.CreateFolder 1 true
      { exCapped with Name := "a/b" }).2.folderUploadManagers "a" = none := by
  decide

/-! ## The write-side cap after a folder was removed -/

theorem RmFolder_Uploads (t : torDropFileServer) (rmOk saveOk : Bool) (name : String) :
    (t.RmFolder rmOk saveOk name).2.db.Uploads = t.db.Uploads := by
  by_cases hh : folders.Has t.db.Folders name = true
  · simp [torDropFileServer.RmFolder, torDropDB.RmFolder, hh]
  · simp only [Bool.not_eq_true] at hh
    simp [torDropFileServer.RmFolder, torDropDB.RmFolder, hh]

/-- Claim C7, evaluated on the code at the input that breaks it. The uploads
of `a` and of `b` into the folder `f` are in flight when `f` is removed;
`RmFolder` leaves both in the uploads; `f` is then created with
`MaxActiveDownloads = 1` and is not changed afterwards, and it holds 2
in-flight uploads, more than its cap. -/
theorem C7_cap_exceeded_after_folder_removed :
    (runCalls newFileServer traceRecreate).db.Folder "f" =
      some { exFolder with MaxActiveDownloads := some 1, CreateDate := 4 } ∧
    fileUploads.Items (runCalls newFileServer traceRecreate).db.Uploads "f" =
      [exItem "a" 15, exItem "b" 15] ∧
    (runCalls newFileServer traceRecreate).db.UploadCount "f" = 2 ∧
    ¬ ((runCalls newFileServer traceRecreate).db.UploadCount "f" ≤ 1) := by
  decide

/-! ## The snapshot -/

/-- Claim C10, evaluated on the code at the input that breaks it. For the
file name of 219 letters `a` followed by `é` the handler builds the item name
of 220 bytes that ends with the byte 195, the first half of the encoding of
`é`; after `save` and `load` the name ends with the three bytes of U+FFFD
instead and has 222 bytes, so the item restored is not the item saved. -/
theorem C10_item_name_changed_by_save_and_load :
    uploadFileName exLongFileName = List.replicate 219 97 ++ [195] ∧
    reloadString (uploadFileName exLongFileName) = List.replicate 219 97 ++ [239, 191, 189] ∧
    reloadString (uploadFileName exLongFileName) ≠ uploadFileName exLongFileName := by
  set_option maxRecDepth 100000 in decide

end TorDrop
